import Mathlib

/-!
Verification development for the construct-driven CFG engine of the
`render-meaning-tree` repository.

The embedding models:
* raw JSON-like AST values (`Ast`) addressed by heap locations (`AstLoc`),
* the mutable `ASTNodeWrapper` objects of `src/cfg/ast_wrapper.py` as records
  in a wrapper heap, with their mutable `children` caches as records in a
  separate cache heap (Python lists/dicts are aliased between wrapper objects,
  so caches need their own identities),
* the path/identification resolver of `src/cfg/access_property.py` as
  state-passing functions over that heap; Python exceptions are modelled with
  an explicit `PyResult.exn` constructor,
* the `ConstructSpec`/`ActionSpec`/`TransitionSpec` model of
  `src/cfg/abstractions.py`,
* the CFG container of `src/cfg/cfg.py` (nodes live in a node heap because
  Python `Node` objects are shared by reference between merged CFGs and
  mutated in place),
* the CFG builder of `src/cfg/cfg_builder.py`.

Raw AST input is JSON-decoded data (`json.load` in the tests), so raw AST
values form trees without aliasing; a raw AST node's identity is its location
(`AstLoc`), and Python `==` on raw nodes is structural tree equality
(`Ast.beq`).
-/

namespace RMT

/-- JSON-like raw AST value: nested maps/lists with scalar leaves.
Python `None` inside the raw data is `Ast.null`. -/
inductive Ast where
  | obj (fields : List (String × Ast))
  | arr (items : List Ast)
  | str (s : String)
  | num (n : Int)
  | boolV (b : Bool)
  | null

mutual

/-- Python `==` on raw AST values (structural equality of JSON trees). -/
def Ast.beq : Ast → Ast → Bool
  | .obj fs, .obj gs => Ast.fieldsBeq fs gs
  | .arr xs, .arr ys => Ast.listBeq xs ys
  | .str a, .str b => a == b
  | .num a, .num b => a == b
  | .boolV a, .boolV b => a == b
  | .null, .null => true
  | _, _ => false

/-- Structural equality of JSON object field lists (Python dicts from JSON
preserve insertion order and have unique keys; `==` compares content). -/
def Ast.fieldsBeq : List (String × Ast) → List (String × Ast) → Bool
  | [], [] => true
  | (k, v) :: fs, (l, w) :: gs => k == l && Ast.beq v w && Ast.fieldsBeq fs gs
  | _, _ => false

/-- Structural equality of JSON array element lists. -/
def Ast.listBeq : List Ast → List Ast → Bool
  | [], [] => true
  | x :: xs, y :: ys => Ast.beq x y && Ast.listBeq xs ys
  | _, _ => false

end

/-- First-match lookup in a JSON object's field list (Python `dict.get` /
`dict.__getitem__`; JSON objects have unique keys, we take the first). -/
def lookupField : List (String × Ast) → String → Option Ast
  | [], _ => none
  | (k, v) :: fs, key => if k = key then some v else lookupField fs key

/-- One navigation step inside a raw AST tree. -/
inductive PathStep where
  | key (k : String)
  | idx (i : Nat)
deriving DecidableEq

/-- Identity of a raw AST node: which root tree it lives in and the path to
it. Raw ASTs are JSON trees (no aliasing), so distinct locations are distinct
Python objects and one location is one object. -/
structure AstLoc where
  root : Nat
  path : List PathStep
deriving DecidableEq

/-- Extend a location by one step. -/
def AstLoc.push (l : AstLoc) (st : PathStep) : AstLoc :=
  { l with path := l.path ++ [st] }

/-- Walk a path inside one raw AST tree. -/
def astWalk : Ast → List PathStep → Option Ast
  | a, [] => some a
  | .obj fs, .key k :: rest =>
    match lookupField fs k with
    | some v => astWalk v rest
    | none => none
  | .arr xs, .idx i :: rest =>
    match xs.get? i with
    | some v => astWalk v rest
    | none => none
  | _, _ => none

/-- Wrapper heap index (`ASTNodeWrapper` object identity). -/
abbrev WId := Nat

/-- Children-cache heap index (identity of the Python list/dict object stored
in a wrapper's `children` field; these are aliased between wrappers, e.g.
`temp_wrapper.children = parent.children` in `resolve`). -/
abbrev CacheId := Nat

/-- What a wrapper's `ast_node` field holds.  Besides raw AST values, the
code can wrap a children list (`ASTNodeWrapper(ast_node=target_list, ...)`
where `target_list` is `self.children`), another wrapper, or Python `None`
(elements of a children list). -/
inductive WVal where
  | astRef (l : AstLoc)
  | cacheRef (c : CacheId)
  | wrapperRef (w : WId)
  | pynone
deriving DecidableEq

/-- A wrapper's `children` cache: either a dict of key → wrapper-or-None or a
list of wrapper-or-None slots, mirroring `Dict[str, Self] | List[Self]`. -/
inductive Cache where
  | cdict (entries : List (String × Option WId))
  | clist (slots : List (Option WId))
deriving DecidableEq

/-- `ASTNodeWrapper` record: `ast_node`, `parent` back-reference and the
`children` cache pointer (None until populated). -/
structure Wrapper where
  astv : WVal
  parent : Option WId
  children : Option CacheId
deriving DecidableEq

/-- First-match lookup in a cache dict. -/
def lookupEntry : List (String × Option WId) → String → Option (Option WId)
  | [], _ => none
  | (k, v) :: es, key => if k = key then some v else lookupEntry es key

/-- Replace-or-append write to a cache dict (`children[key] = w`). -/
def setEntry : List (String × Option WId) → String → Option WId → List (String × Option WId)
  | [], key, v => [(key, v)]
  | (k, w) :: es, key, v => if k = key then (key, v) :: es else (k, w) :: setEntry es key v

end RMT

namespace RMT

/-- Mutable state of the wrapper layer: the raw AST roots (owned by the
caller, written by nothing in `access_property.py` — claim C10), the wrapper
heap and the children-cache heap. -/
structure Store where
  astRoots : List Ast
  wrappers : List Wrapper
  caches : List Cache

/-- Read the raw AST value at a location. -/
def Store.readAst (s : Store) (l : AstLoc) : Option Ast :=
  match s.astRoots.get? l.root with
  | some a => astWalk a l.path
  | none => none

def Store.getWrapper (s : Store) (w : WId) : Option Wrapper :=
  s.wrappers.get? w

def Store.getCache (s : Store) (c : CacheId) : Option Cache :=
  s.caches.get? c

/-- Allocate a fresh `ASTNodeWrapper` object. -/
def Store.allocWrapper (s : Store) (w : Wrapper) : WId × Store :=
  (s.wrappers.length, { s with wrappers := s.wrappers ++ [w] })

/-- Allocate a fresh children list/dict object. -/
def Store.allocCache (s : Store) (c : Cache) : CacheId × Store :=
  (s.caches.length, { s with caches := s.caches ++ [c] })

/-- Assign a wrapper's `children` field. -/
def Store.setChildren (s : Store) (w : WId) (c : CacheId) : Store :=
  match s.wrappers.get? w with
  | some wr => { s with wrappers := s.wrappers.set w { wr with children := some c } }
  | none => s

/-- Overwrite a cache cell's content. -/
def Store.setCache (s : Store) (c : CacheId) (content : Cache) : Store :=
  { s with caches := s.caches.set c content }

/-- Python `isinstance(x, list)` on a wrapper's `ast_node` (a raw JSON array
or an aliased children list). -/
def Store.isListVal (s : Store) (v : WVal) : Bool :=
  match v with
  | .astRef l =>
    match s.readAst l with
    | some (.arr _) => true
    | _ => false
  | .cacheRef c =>
    match s.getCache c with
    | some (.clist _) => true
    | _ => false
  | _ => false

/-- Python `isinstance(x, dict)` on a wrapper's `ast_node`. -/
def Store.isDictVal (s : Store) (v : WVal) : Bool :=
  match v with
  | .astRef l =>
    match s.readAst l with
    | some (.obj _) => true
    | _ => false
  | .cacheRef c =>
    match s.getCache c with
    | some (.cdict _) => true
    | _ => false
  | _ => false

/-- Python `key in x` for a dict-shaped `ast_node`. -/
def Store.dictHasKey (s : Store) (v : WVal) (k : String) : Bool :=
  match v with
  | .astRef l =>
    match s.readAst l with
    | some (.obj fields) => (lookupField fields k).isSome
    | _ => false
  | .cacheRef c =>
    match s.getCache c with
    | some (.cdict entries) => (lookupEntry entries k).isSome
    | _ => false
  | _ => false

/-- Python `x[key]` for a dict-shaped `ast_node` whose key is present: the
resulting value as an `ast_node` value (a raw subtree, or — for an aliased
children dict — a wrapper or `None`). -/
def Store.dictGet (s : Store) (v : WVal) (k : String) : Option WVal :=
  match v with
  | .astRef l =>
    match s.readAst l with
    | some (.obj fields) =>
      match lookupField fields k with
      | some _ => some (.astRef (l.push (.key k)))
      | none => none
    | _ => none
  | .cacheRef c =>
    match s.getCache c with
    | some (.cdict entries) =>
      match lookupEntry entries k with
      | some (some w) => some (.wrapperRef w)
      | some none => some .pynone
      | none => none
    | _ => none
  | _ => none

/-- Python `len(x)` on a list-shaped `ast_node` (`none` when `x` has no
length, which would be a `TypeError`). -/
def Store.pyLen (s : Store) (v : WVal) : Option Nat :=
  match v with
  | .astRef l =>
    match s.readAst l with
    | some (.arr items) => some items.length
    | _ => none
  | .cacheRef c =>
    match s.getCache c with
    | some (.clist slots) => some slots.length
    | _ => none
  | _ => none

/-- Python `==` between two `ast_node` values.  Raw nodes compare as trees;
a raw `null` is the same Python `None` object as a wrapped `None`; wrapper
and cache-list operands are compared by identity (the CPython fast path —
these operands only arise compared against themselves in this code). -/
def Store.valEq (s : Store) (v1 v2 : WVal) : Bool :=
  match v1, v2 with
  | .astRef l1, .astRef l2 =>
    match s.readAst l1, s.readAst l2 with
    | some a, some b => Ast.beq a b
    | _, _ => false
  | .astRef l, .pynone =>
    match s.readAst l with
    | some .null => true
    | _ => false
  | .pynone, .astRef l =>
    match s.readAst l with
    | some .null => true
    | _ => false
  | .pynone, .pynone => true
  | .wrapperRef a, .wrapperRef b => a == b
  | .cacheRef a, .cacheRef b => a == b
  | _, _ => false

/-- `list.index(value)` over a raw JSON array at location `l` with elements
`items`, comparing with Python `==` against an `ast_node` value. -/
def Store.astListIndexOfVal (s : Store) (l : AstLoc) (items : List Ast) (v : WVal) : Option Nat :=
  (List.range items.length).find? fun i => s.valEq (.astRef (l.push (.idx i))) v

/-- `list.index(value)` over a children list (elements are wrappers or
`None`), comparing with Python `==` against an `ast_node` value. -/
def slotIndexOfVal (slots : List (Option WId)) (v : WVal) : Option Nat :=
  (List.range slots.length).find? fun i =>
    match slots.get? i with
    | some none => v == .pynone
    | some (some w) => v == .wrapperRef w
    | none => false

/-- Python `==` between two `ASTNodeWrapper` objects, as `list.index` and
the dataclass-generated `__eq__` evaluate it.  Identical objects are equal
(the `PyObject_RichCompareBool` fast path); otherwise the dataclass compares
the field tuples `(ast_node, parent, children, metadata)` element-wise:
`ast_node` by value (`Store.valEq`), `parent` and the wrappers inside
`children` recursively (`None` equals only `None`; an identical children
object is equal at once, distinct list objects compare slot-wise and
distinct dict objects per key — `lookupEntry` is first-match, matching the
unique-key dicts `setEntry` builds), and `metadata` always equal, since
nothing in `access_property.py` or the builder writes a wrapper's metadata,
so every wrapper carries an empty dict there.  The recursion runs on fuel:
a comparison whose recursion depth exceeds the fuel that
`slotIndexOfWrapperEq` passes must revisit some pair of wrappers, i.e.
recurse into itself along a pointer cycle, where CPython never returns
(`RecursionError`); the model answers `false` there instead of raising. -/
def Store.wrapperPyEq (s : Store) : Nat → WId → WId → Bool
  | 0, _, _ => false
  | fuel + 1, a, b =>
    a == b ||
      match s.getWrapper a, s.getWrapper b with
      | some wa, some wb =>
        s.valEq wa.astv wb.astv &&
        (match wa.parent, wb.parent with
          | none, none => true
          | some pa, some pb => s.wrapperPyEq fuel pa pb
          | _, _ => false) &&
        (match wa.children, wb.children with
          | none, none => true
          | some ca, some cb =>
            ca == cb ||
              match s.getCache ca, s.getCache cb with
              | some (.clist xs), some (.clist ys) =>
                xs.length == ys.length &&
                  (List.range xs.length).all fun i =>
                    match xs.get? i, ys.get? i with
                    | some none, some none => true
                    | some (some wx), some (some wy) => s.wrapperPyEq fuel wx wy
                    | _, _ => false
              | some (.cdict es), some (.cdict fs) =>
                (es.all fun p =>
                  match p.2, lookupEntry fs p.1 with
                  | none, some none => true
                  | some wx, some (some wy) => s.wrapperPyEq fuel wx wy
                  | _, _ => false) &&
                (fs.all fun p => (lookupEntry es p.1).isSome)
              | _, _ => false
          | _, _ => false)
      | _, _ => false

/-- `parent.children.index(current)` over a children list: the index of the
FIRST slot whose occupant compares Python-`==`-equal to the wrapper (a
`None` slot never equals a wrapper) — `list.index` matches by `==`, not by
identity, and `ASTNodeWrapper` is a dataclass with structural equality, so
an earlier slot holding an equal-valued sibling wins over the slot holding
the wrapper itself.  The fuel `|wrappers|² + 1` covers every comparison
that terminates in CPython: a recursion path longer than the number of
wrapper pairs repeats a pair and so never returns there. -/
def slotIndexOfWrapperEq (s : Store) (slots : List (Option WId)) (w : WId) : Option Nat :=
  (List.range slots.length).find? fun i =>
    match slots.get? i with
    | some (some w2) => s.wrapperPyEq (s.wrappers.length * s.wrappers.length + 1) w w2
    | _ => false

/-- The `ast_node` value of the `i`-th element of a list-shaped `ast_node`
(`target_wrapper.ast_node[i]` wrapped into a new `ASTNodeWrapper`). -/
def Store.elemVal (s : Store) (v : WVal) (i : Nat) : Option WVal :=
  match v with
  | .astRef l =>
    match s.readAst l with
    | some (.arr items) => if i < items.length then some (.astRef (l.push (.idx i))) else none
    | _ => none
  | .cacheRef c =>
    match s.getCache c with
    | some (.clist slots) =>
      match slots.get? i with
      | some none => some .pynone
      | some (some w) => some (.wrapperRef w)
      | none => none
    | _ => none
  | _ => none

/-- Result of running Python code: a value or a raised exception. -/
inductive PyResult (α : Type) where
  | ok (a : α)
  | exn (msg : String)
deriving DecidableEq

/-- Pad a children list with `None` up to length `n`
(`while len(pc) < len(parent_wrapper.ast_node): pc.append(None)`). -/
def padSlots (slots : List (Option WId)) (n : Nat) : List (Option WId) :=
  slots ++ List.replicate (n - slots.length) none

end RMT

namespace RMT

/-- `str.strip()` (model: strips spaces, the whitespace occurring in paths). -/
def trimChars (cs : List Char) : List Char :=
  ((cs.dropWhile (· = ' ')).reverse.dropWhile (· = ' ')).reverse

/-- `str.split('/')`. -/
def splitSlash : List Char → List (List Char)
  | [] => [[]]
  | c :: rest =>
    let r := splitSlash rest
    if c = '/' then [] :: r
    else
      match r with
      | [] => [[c]]
      | g :: gs => (c :: g) :: gs

/-- `str.isdigit()` (false on the empty string). -/
def pyIsDigit (cs : List Char) : Bool :=
  !cs.isEmpty && cs.all Char.isDigit

/-- `int(s)` for a digit string. -/
def digitsToNat (cs : List Char) : Nat :=
  cs.foldl (fun acc c => acc * 10 + (c.toNat - 48)) 0

/-- Python truthiness of an optional string value (`if prop_path:` and
friends): an absent value and the empty string are both falsy. -/
def strTruthy : Option String → Option String
  | some "" => none
  | o => o

/-- An `identification` dict with the keys `access_property.resolve` reads.
A field is `some v` exactly when the key is present in the dict (grammar
identifications are loaded from YAML with the keys that were written, and
the `Identification` dataclass is dict-like via the `DictLikeDataclass`
mixin, so `identification.get(...)` behaves as modelled here). -/
structure Ident where
  origin : Option String := none
  property : Option String := none
  property_path : Option String := none
  role_in_list : Option String := none
deriving DecidableEq

/-- `ensure_children_structure` inside `resolve`: initialize `self.children`
as a fresh dict or list according to the shape of `self.ast_node`. -/
def ensureChildrenStructure (s : Store) (w : WId) : Store :=
  match s.getWrapper w with
  | none => s
  | some wr =>
    match wr.children with
    | some _ => s
    | none =>
      if s.isDictVal wr.astv then
        let p := s.allocCache (.cdict [])
        p.2.setChildren w p.1
      else if s.isListVal wr.astv then
        match s.pyLen wr.astv with
        | some n =>
          let p := s.allocCache (.clist (List.replicate n none))
          p.2.setChildren w p.1
        | none => s
      else
        let p := s.allocCache (.cdict [])
        p.2.setChildren w p.1

/-- `make_wrapper_for(value, parent_wrapper)` inside `resolve`: wrap a value,
set its parent, best-effort cache it in the parent's list children.  `value`
is what a dict/list subscript of the parent's `ast_node` produced. -/
def makeWrapperFor (s : Store) (parentW : WId) (v : WVal) : Option WId × Store :=
  match v with
  | .pynone => (none, s)
  | .wrapperRef w =>
    -- value is already an ASTNodeWrapper: adopt it, updating its parent if unset
    match s.getWrapper w with
    | none => (some w, s)
    | some wr =>
      if wr.parent.isNone then
        (some w, { s with wrappers := s.wrappers.set w { wr with parent := some parentW } })
      else (some w, s)
  | .astRef vloc =>
    match s.readAst vloc with
    | none => (none, s)
    | some .null => (none, s)
    | some _ =>
      let p := s.allocWrapper { astv := .astRef vloc, parent := some parentW, children := none }
      let w := p.1
      let s1 := p.2
      match s1.getWrapper parentW with
      | none => (some w, s1)
      | some pw =>
        match pw.children with
        | none => (some w, s1)
        | some c =>
          match s1.getCache c with
          | some (.cdict _) => (some w, s1)
          | some (.clist slots) =>
            match pw.astv with
            | .astRef pl =>
              match s1.readAst pl with
              | some (.arr items) =>
                match s1.astListIndexOfVal pl items (.astRef vloc) with
                | some idx =>
                  let slots' := (padSlots slots items.length).set idx (some w)
                  (some w, s1.setCache c (.clist slots'))
                | none => (some w, s1)
              | _ => (some w, s1)
            | .cacheRef c2 =>
              match s1.getCache c2 with
              | some (.clist slots2) =>
                match slotIndexOfVal slots2 (.astRef vloc) with
                | some idx =>
                  match s1.getCache c2 with
                  | some (.clist slots2b) =>
                    let slots' := (padSlots slots slots2b.length).set idx (some w)
                    (some w, s1.setCache c (.clist slots'))
                  | _ => (some w, s1)
                | none => (some w, s1)
              | _ => (some w, s1)
            | _ => (some w, s1)
          | none => (some w, s1)
  | .cacheRef _ =>
    let p := s.allocWrapper { astv := v, parent := some parentW, children := none }
    (some p.1, p.2)

/-- Ensure a wrapper's children cache is present as a list of `n` empty
slots (`if x.children is None: x.children = [None] * n`), returning the
cache id and the updated store. -/
def Store.ensureListChildren (s : Store) (w : WId) (wr : Wrapper) (n : Nat) : CacheId × Store :=
  match wr.children with
  | some c => (c, s)
  | none =>
    let p := s.allocCache (.clist (List.replicate n none))
    (p.1, p.2.setChildren w p.1)

/-- Ensure a wrapper's children cache is present as a dict
(`if x.children is None: x.children = \u007b\u007d`). -/
def Store.ensureDictChildren (s : Store) (w : WId) (wr : Wrapper) : CacheId × Store :=
  match wr.children with
  | some c => (c, s)
  | none =>
    let p := s.allocCache (.cdict [])
    (p.1, p.2.setChildren w p.1)

/-- The tail of the `[next]` component handling in
`resolve_property_path_recursive`, once the parent's children cache `c` is
known to exist: find the current wrapper's index among the parent's children
(`parent.children.index(current)` — Python `==`, first match, falling back
to value lookup in the parent's raw list when no slot compares equal) and
either finish with a result (`inl`) or hand back the next-sibling wrapper to
continue the path from (`inr`), together with the updated store. -/
def nextSiblingStep (s1 : Store) (cur : WId) (curW : Wrapper) (par : WId) (parW : Wrapper)
    (c : CacheId) : (PyResult (Option WId) × Store) ⊕ (WId × Store) :=
  match s1.getCache c with
  | none => .inl (.exn "InvalidCacheRef", s1)
  | some (.cdict _) =>
    -- dict children: order cannot be determined ⇒ None
    .inl (.ok none, s1)
  | some (.clist slots) =>
    let idx : Option Nat :=
      match slotIndexOfWrapperEq s1 slots cur with
      | some i => some i
      | none =>
        -- no ==-equal cached wrapper: look up by value in parent's raw list
        match parW.astv with
        | .astRef l =>
          match s1.readAst l with
          | some (.arr items) => s1.astListIndexOfVal l items curW.astv
          | _ => none
        | .cacheRef c2 =>
          match s1.getCache c2 with
          | some (.clist slots2) => slotIndexOfVal slots2 curW.astv
          | _ => none
        | _ => none
    match idx with
    | none => .inl (.ok none, s1)
    | some i =>
      let nxt := i + 1
      if nxt < slots.length then
        match slots.get? nxt with
        | some (some wnext) => .inr (wnext, s1)
        | some none =>
          match s1.pyLen parW.astv with
          | some m =>
            if s1.isListVal parW.astv && decide (nxt < m) then
              match s1.elemVal parW.astv nxt with
              | some ev =>
                let p := s1.allocWrapper { astv := ev, parent := some par, children := none }
                .inr (p.1, p.2.setCache c (.clist (slots.set nxt (some p.1))))
              | none => .inl (.exn "IndexError", s1)
            else .inl (.ok none, s1)
          | none => .inl (.ok none, s1)
        | none => .inl (.ok none, s1)
      else .inl (.ok none, s1)

/-- `resolve_property_path_recursive`: process path components left to
right against the wrapper heap.  A missing `current` yields `None`; raised
exceptions surface as `PyResult.exn`. -/
def resolvePropertyPathRecursive (s : Store) (current : Option WId)
    (comps : List (List Char)) (prevData : Option WId) : PyResult (Option WId) × Store :=
  match comps with
  | [] => (.ok current, s)
  | comp :: remaining =>
    match current with
    | none => (.ok none, s)
    | some cur =>
      match s.getWrapper cur with
      | none => (.exn "InvalidWrapperRef", s)
      | some curW =>
        if comp = ['^'] then
          -- upward move; remember the pre-ascent wrapper as implicit previous
          let prevData' := if prevData.isNone then some cur else prevData
          resolvePropertyPathRecursive s curW.parent remaining prevData'
        else if comp = "[next]".data then
          match curW.parent with
          | none => (.ok none, s)
          | some par =>
            match s.getWrapper par with
            | none => (.exn "InvalidWrapperRef", s)
            | some parW =>
              -- ensure parent's children wrappers exist; the continuation after
              -- the ensure step is written out once per ensure outcome
              match parW.children with
              | none =>
                if s.isListVal parW.astv then
                  match s.pyLen parW.astv with
                  | some n =>
                    let p := s.allocCache (.clist (List.replicate n none))
                    match nextSiblingStep (p.2.setChildren par p.1) cur curW par parW p.1 with
                    | .inl r => r
                    | .inr (w, s2) => resolvePropertyPathRecursive s2 (some w) remaining prevData
                  | none => (.exn "TypeError", s)
                else (.ok none, s)
              | some c =>
                match nextSiblingStep s cur curW par parW c with
                | .inl r => r
                | .inr (w, s2) => resolvePropertyPathRecursive s2 (some w) remaining prevData
        else if (comp.head? == some '[') && (comp.getLast? == some ']') then
          -- array index like [N]
          let inner := trimChars ((comp.drop 1).dropLast)
          if pyIsDigit inner then
            let idx := digitsToNat inner
            if s.isListVal curW.astv then
              match s.pyLen curW.astv with
              | some n =>
                if idx < n then
                  let ens := s.ensureListChildren cur curW n
                  match (ens.2).getCache ens.1 with
                  | none => (.exn "InvalidCacheRef", ens.2)
                  | some (.cdict _) => (.ok none, ens.2)
                  | some (.clist slots) =>
                    match slots.get? idx with
                    | none => (.exn "IndexError", ens.2)
                    | some (some w) =>
                      resolvePropertyPathRecursive ens.2 (some w) remaining prevData
                    | some none =>
                      match (ens.2).elemVal curW.astv idx with
                      | some ev =>
                        let p := (ens.2).allocWrapper { astv := ev, parent := some cur, children := none }
                        let s2 := p.2.setCache ens.1 (.clist (slots.set idx (some p.1)))
                        resolvePropertyPathRecursive s2 (some p.1) remaining prevData
                      | none => (.exn "IndexError", ens.2)
                else (.ok none, s)
              | none => (.ok none, s)
            else (.ok none, s)
          else (.ok none, s)
        else
          -- normal property name: dict key access
          match curW.astv with
          | .astRef l =>
            match s.readAst l with
            | some (.obj fields) =>
              let key := String.mk comp
              let ens := s.ensureDictChildren cur curW
              match (ens.2).getCache ens.1 with
              | none => (.exn "InvalidCacheRef", ens.2)
              | some (.cdict entries) =>
                match lookupEntry entries key with
                | some (some w) =>
                  resolvePropertyPathRecursive ens.2 (some w) remaining prevData
                | _ =>
                  match lookupField fields key with
                  | none => (.ok none, ens.2)
                  | some .null => (.ok none, ens.2)
                  | some _ =>
                    let p := (ens.2).allocWrapper
                      { astv := .astRef (l.push (.key key)), parent := some cur, children := none }
                    let s2 := p.2.setCache ens.1 (.cdict (setEntry entries key (some p.1)))
                    resolvePropertyPathRecursive s2 (some p.1) remaining prevData
              | some (.clist _) =>
                -- children is a list: the cache is neither consulted nor written
                match lookupField fields key with
                | none => (.ok none, ens.2)
                | some .null => (.ok none, ens.2)
                | some _ =>
                  let p := (ens.2).allocWrapper
                    { astv := .astRef (l.push (.key key)), parent := some cur, children := none }
                  resolvePropertyPathRecursive p.2 (some p.1) remaining prevData
            | _ => (.ok none, s)
          | _ => (.ok none, s)

end RMT

namespace RMT

/-- `resolve_role_in_list_recursive`: `first_in_list` / `next_in_list`
lookups into a list-shaped target wrapper whose children cache may be
aliased with its parent's. -/
def resolveRoleInListRecursive (s : Store) (tw : WId) (roleInList : String)
    (prevData : Option WId) : PyResult (Option WId) × Store :=
  match s.getWrapper tw with
  | none => (.exn "InvalidWrapperRef", s)
  | some twW =>
    if roleInList = "first_in_list" then
      match s.pyLen twW.astv with
      | none => (.exn "TypeError", s)
      | some n =>
        if n = 0 then (.ok none, s)
        else
          let ens : CacheId × Store :=
            match twW.children with
            | some c => (c, s)
            | none =>
              let p := s.allocCache (.clist (List.replicate n none))
              (p.1, p.2.setChildren tw p.1)
          match (ens.2).getCache ens.1 with
          | none => (.exn "InvalidCacheRef", ens.2)
          | some (.cdict _) => (.ok none, ens.2)
          | some (.clist slots) =>
            match slots.get? 0 with
            | none =>
              -- `target_wrapper.children[0]` on an empty aliased cache
              (.exn "IndexError", ens.2)
            | some (some w) => (.ok (some w), ens.2)
            | some none =>
              match (ens.2).elemVal twW.astv 0 with
              | none => (.exn "IndexError", ens.2)
              | some ev =>
                let p := (ens.2).allocWrapper { astv := ev, parent := some tw, children := none }
                let s2 := p.2.setCache ens.1 (.clist (slots.set 0 (some p.1)))
                (.ok (some p.1), s2)
    else if roleInList = "next_in_list" then
      match prevData with
      | none => (.ok none, s)
      | some prevW =>
        match s.getWrapper prevW with
        | none => (.exn "InvalidWrapperRef", s)
        | some prevWr =>
          let ens : PyResult CacheId × Store :=
            match twW.children with
            | some c => (.ok c, s)
            | none =>
              match s.pyLen twW.astv with
              | none => (.exn "TypeError", s)
              | some n =>
                let p := s.allocCache (.clist (List.replicate n none))
                (.ok p.1, p.2.setChildren tw p.1)
          match ens with
          | (.exn m, s1) => (.exn m, s1)
          | (.ok c, s1) =>
            match s1.getCache c with
            | none => (.exn "InvalidCacheRef", s1)
            | some (.cdict _) => (.ok none, s1)
            | some (.clist slots) =>
              let idx : Option Nat :=
                match slotIndexOfWrapperEq s1 slots prevW with
                | some i => some i
                | none =>
                  -- try to locate prev's data in the underlying list
                  match twW.astv with
                  | .astRef l =>
                    match s1.readAst l with
                    | some (.arr items) => s1.astListIndexOfVal l items prevWr.astv
                    | _ => none
                  | .cacheRef c2 =>
                    match s1.getCache c2 with
                    | some (.clist slots2) => slotIndexOfVal slots2 prevWr.astv
                    | _ => none
                  | _ => none
              match idx with
              | none => (.ok none, s1)
              | some i =>
                let nx := i + 1
                if nx < slots.length then
                  match slots.get? nx with
                  | some (some w) => (.ok (some w), s1)
                  | some none =>
                    match s1.pyLen twW.astv with
                    | some m =>
                      if nx < m then
                        match s1.elemVal twW.astv nx with
                        | some ev =>
                          let p := s1.allocWrapper { astv := ev, parent := some tw, children := none }
                          let s2 := p.2.setCache c (.clist (slots.set nx (some p.1)))
                          (.ok (some p.1), s2)
                        | none => (.exn "IndexError", s1)
                      else (.ok none, s1)
                    | none => (.ok none, s1)
                  | none => (.ok none, s1)
                else (.ok none, s1)
    else (.ok none, s)

/-- The `role_in_list` arm of `resolve` (its two symmetric origin branches
both run this on a base wrapper: the parent when `origin == 'parent'`, else
the wrapper itself): locate the target list, make sure the base's children
cache is a list, and run `resolve_role_in_list_recursive` on a temporary
wrapper whose children alias the base's. -/
def resolveRoleInListOn (s : Store) (base : WId) (prop : Option String)
    (ril : String) (prevData : Option WId) : PyResult (Option WId) × Store :=
  match s.getWrapper base with
  | none => (.exn "InvalidWrapperRef", s)
  | some baseW =>
    -- target_list: the named property of a dict-shaped base, else the base's
    -- list-shaped children, else None
    let tlv : WVal :=
      match strTruthy prop with
      | some p =>
        if s.isDictVal baseW.astv then
          match s.dictGet baseW.astv p with
          | some v => v
          | none => .pynone
        else
          match baseW.children with
          | some c =>
            match s.getCache c with
            | some (.clist _) => .cacheRef c
            | _ => .pynone
          | none => .pynone
      | none =>
        match baseW.children with
        | some c =>
          match s.getCache c with
          | some (.clist _) => .cacheRef c
          | _ => .pynone
        | none => .pynone
    if s.isListVal tlv then
      match s.pyLen tlv with
      | none => (.exn "TypeError", s)
      | some n =>
        -- if base.children is None or not a list: base.children = [None]*len(target_list)
        let ens : CacheId × Store :=
          match baseW.children with
          | some c =>
            match s.getCache c with
            | some (.clist _) => (c, s)
            | _ =>
              let p := s.allocCache (.clist (List.replicate n none))
              (p.1, p.2.setChildren base p.1)
          | none =>
            let p := s.allocCache (.clist (List.replicate n none))
            (p.1, p.2.setChildren base p.1)
        -- temp_wrapper = ASTNodeWrapper(ast_node=target_list, parent=base);
        -- temp_wrapper.children = base.children
        let p := (ens.2).allocWrapper { astv := tlv, parent := some base, children := some ens.1 }
        resolveRoleInListRecursive p.2 p.1 ril prevData
    else (.ok none, s)

/-- The final `property` arm of `resolve` (run on the parent when
`origin == 'parent'`, else on the wrapper itself): cached dict lookup, then
wrap the raw property value (note: wraps even a `None` value). -/
def resolvePropertyOn (s : Store) (base : WId) (prop : String) : PyResult (Option WId) × Store :=
  match s.getWrapper base with
  | none => (.exn "InvalidWrapperRef", s)
  | some baseW =>
    -- if base.children is None: base.children = {}
    let ens : CacheId × Store :=
      match baseW.children with
      | some c => (c, s)
      | none =>
        let p := s.allocCache (.cdict [])
        (p.1, p.2.setChildren base p.1)
    let c := ens.1
    let s1 := ens.2
    let cachedHit : Option WId :=
      match s1.getCache c with
      | some (.cdict entries) =>
        match lookupEntry entries prop with
        | some (some w) => some w
        | _ => none
      | _ => none
    match cachedHit with
    | some w => (.ok (some w), s1)
    | none =>
      if s1.dictHasKey baseW.astv prop then
        match s1.dictGet baseW.astv prop with
        | some v =>
          let p := s1.allocWrapper { astv := v, parent := some base, children := none }
          let s2 := p.2
          match s2.getCache c with
          | some (.cdict entries) =>
            (.ok (some p.1), s2.setCache c (.cdict (setEntry entries prop (some p.1))))
          | _ => (.ok (some p.1), s2)
        | none => (.ok none, s1)
      else (.ok none, s1)

/-- The identification-free branch of `resolve`: read the role from the
children cache or from a dict-shaped `ast_node` (caching the result), or
interpret the role as a `[N]` index into a list-shaped children cache. -/
def resolveSimple (s : Store) (selfW : WId) (role : Option String) : PyResult (Option WId) × Store :=
  let s0 := ensureChildrenStructure s selfW
  match s0.getWrapper selfW with
  | none => (.exn "InvalidWrapperRef", s0)
  | some selfWr =>
    match selfWr.children with
    | none => (.exn "InvalidCacheRef", s0)
    | some c =>
      match s0.getCache c with
      | none => (.exn "InvalidCacheRef", s0)
      | some (.cdict entries) =>
        let cached : Option WId :=
          match role with
          | some r =>
            match lookupEntry entries r with
            | some (some w) => some w
            | _ => none
          | none => none
        match cached with
        | some w => (.ok (some w), s0)
        | none =>
          match role with
          | some r =>
            if s0.dictHasKey selfWr.astv r then
              match s0.dictGet selfWr.astv r with
              | some v =>
                let p := makeWrapperFor s0 selfW v
                let s1 := p.2
                -- self.children[role] = w  (a None result is cached too)
                match s1.getCache c with
                | some (.cdict entries1) =>
                  (.ok p.1, s1.setCache c (.cdict (setEntry entries1 r p.1)))
                | _ => (.ok p.1, s1)
              | none => (.ok none, s0)
            else (.ok none, s0)
          | none => (.ok none, s0)
      | some (.clist slots) =>
        match role with
        | none => (.exn "AttributeError", s0)
        | some r =>
          let rs := trimChars r.data
          if (rs.head? == some '[') && (rs.getLast? == some ']') then
            let inner := trimChars ((rs.drop 1).dropLast)
            if pyIsDigit inner then
              let idx := digitsToNat inner
              if idx < slots.length then
                match slots.get? idx with
                | some (some w) => (.ok (some w), s0)
                | some none =>
                  if s0.isListVal selfWr.astv then
                    match s0.pyLen selfWr.astv with
                    | some n =>
                      if idx < n then
                        match s0.elemVal selfWr.astv idx with
                        | some ev =>
                          let p := makeWrapperFor s0 selfW ev
                          let s1 := p.2
                          -- self.children[idx] = w
                          match s1.getCache c with
                          | some (.clist slots1) =>
                            (.ok p.1, s1.setCache c (.clist (slots1.set idx p.1)))
                          | _ => (.ok p.1, s1)
                        | none => (.exn "IndexError", s0)
                      else (.ok none, s0)
                    | none => (.ok none, s0)
                  else (.ok none, s0)
                | none => (.ok none, s0)
              else (.ok none, s0)
            else (.ok none, s0)
          else (.ok none, s0)

/-- Run a `property_path` from a wrapper: split on '/', trim, drop empty
components; an empty path yields `None`. -/
def pathComps (pp : String) : List (List Char) :=
  ((splitSlash pp.data).map trimChars).filter (fun cs => !cs.isEmpty)

def resolvePathOnly (s : Store) (w : WId) (pp : String) (prevData : Option WId) :
    PyResult (Option WId) × Store :=
  let comps := pathComps pp
  if comps.isEmpty then (.ok none, s)
  else resolvePropertyPathRecursive s (some w) comps prevData

/-- `resolve(self, role, identification, previous_action_data)` — the
dispatcher of `access_property.py`.  `ident = none` models both a missing
identification and an empty dict (both falsy); a present `Ident` models a
non-empty identification dict whose keys are its `some` fields (grammar
identification dicts; the dict-like `Identification` dataclass reads the
same way through `DictLikeDataclass.get`). -/
def resolve (s : Store) (selfW : WId) (role : Option String) (ident : Option Ident)
    (previousActionData : Option WId) : PyResult (Option WId) × Store :=
  match ident with
  | none => resolveSimple s selfW role
  | some id0 =>
    let origin := id0.origin
    let roleInList := strTruthy id0.role_in_list
    let propPath := strTruthy id0.property_path
    if origin == some "previous" then
      match previousActionData with
      | none => (.ok none, s)
      | some prevW =>
        match propPath with
        | some pp =>
          -- previous_action_data.get(prop, {'property_path': prop_path}, None)
          resolvePathOnly s prevW pp none
        | none =>
          -- previous_action_data.get(prop)
          resolveSimple s prevW id0.property
    else
      match propPath with
      | some pp => resolvePathOnly s selfW pp previousActionData
      | none =>
        match roleInList with
        | some ril =>
          if origin == some "parent" then
            match s.getWrapper selfW with
            | none => (.exn "InvalidWrapperRef", s)
            | some selfWr =>
              match selfWr.parent with
              | none => (.ok none, s)
              | some par => resolveRoleInListOn s par id0.property ril previousActionData
          else resolveRoleInListOn s selfW id0.property ril previousActionData
        | none =>
          match id0.property with
          | some p =>
            if origin == some "parent" then
              match s.getWrapper selfW with
              | none => (.exn "InvalidWrapperRef", s)
              | some selfWr =>
                match selfWr.parent with
                | none => (.ok none, s)
                | some par => resolvePropertyOn s par p
            else resolvePropertyOn s selfW p
          | none => (.ok none, s)

/-- `ASTNodeWrapper.get(role, identification, previous_action_data)`
(`src/cfg/ast_wrapper.py`) delegates to `access_property.resolve`. -/
def wrapperGet (s : Store) (selfW : WId) (role : Option String) (ident : Option Ident)
    (previousActionData : Option WId) : PyResult (Option WId) × Store :=
  resolve s selfW role ident previousActionData

end RMT

namespace RMT

/-- Generic first-match assoc lookup (Python dict read). -/
def lookupAssoc {α : Type} : List (String × α) → String → Option α
  | [], _ => none
  | (k, v) :: es, key => if k = key then some v else lookupAssoc es key

/-- Generic replace-or-append assoc write (Python dict assignment). -/
def setAssoc {α : Type} : List (String × α) → String → α → List (String × α)
  | [], key, v => [(key, v)]
  | (k, w) :: es, key, v => if k = key then (key, v) :: es else (k, w) :: setAssoc es key v

def BEGIN : String := "BEGIN"

def «END» : String := "END"

/-- `InterruptionType` enum of `abstractions.py`. -/
inductive InterruptionType where
  | brk
  | cont
  | ret
  | exc
deriving DecidableEq

/-- `CallStackAction` enum. -/
inductive CallStackAction where
  | add_frame
  | drop_frame
deriving DecidableEq

/-- `InterruptionMode` enum. -/
inductive InterruptionMode where
  | exception
  | any
deriving DecidableEq

/-- `Effects` dataclass (as a Python object it is always truthy, even with
all fields `None` — relevant to `cfg.py`'s significance tests). -/
structure Effects where
  interruption_stop : Option InterruptionType := none
  interruption_start : Option InterruptionType := none
  call_stack : Option CallStackAction := none
deriving DecidableEq

/-- `Constraints` dataclass; compared with `==` (field equality) by
`Edge.compare`. -/
structure Constraints where
  condition_value : Option Bool := none
  interruption_mode : Option InterruptionMode := none
deriving DecidableEq

/-- `ActionSpec` of `abstractions.py`.  `identification = none` models an
absent/empty identification (plain-role lookup); a present `Ident` models a
dict-like identification with those keys, read by `access_property.resolve`
through the `DictLikeDataclass` interface. -/
structure ActionSpec where
  role : String
  kind : String := ""
  generalization : Option String := none
  effects : Effects := {}
  identification : Option Ident := none
deriving DecidableEq

/-- `TransitionSpec`: primary `to_` plus single fallback `to_when_absent`. -/
structure TransitionSpec where
  from_ : Option String := none
  to_ : Option String := none
  to_when_absent : Option String := none
  constraints : Option Constraints := none
  effects : Effects := {}
deriving DecidableEq

/-- `ConstructSpec`: name plus insertion-ordered role → `ActionSpec` dict and
the transition list.  `__post_init__` injects BEGIN/END (see
`ConstructSpec.make`). -/
structure ConstructSpec where
  name : String
  actions : List (String × ActionSpec) := []
  transitions : List TransitionSpec := []
deriving DecidableEq

/-- `ConstructSpec.__post_init__`: overwrite/insert the BEGIN and END actions. -/
def ConstructSpec.make (name : String) (actions : List (String × ActionSpec))
    (transitions : List TransitionSpec) : ConstructSpec :=
  let a1 := setAssoc actions BEGIN { role := BEGIN, kind := BEGIN }
  let a2 := setAssoc a1 «END» { role := «END», kind := «END» }
  { name := name, actions := a2, transitions := transitions }

/-- `find_transitions_from_action`: transitions whose `from_` is the action's
role or its generalization (`tr.from_ in (action.role, action.generalization)`;
note a `None` `from_` matches an action without generalization, as in the
source). -/
def ConstructSpec.findTransitionsFromAction (c : ConstructSpec) (a : ActionSpec) :
    List TransitionSpec :=
  c.transitions.filter fun tr => tr.from_ == some a.role || tr.from_ == a.generalization

/-- `ActionSpec.find_node_data`: END resolves to the construct's own wrapper;
any other role delegates to `ASTNodeWrapper.get`. -/
def ActionSpec.findNodeData (a : ActionSpec) (s : Store) (wrappedAst : WId)
    (previousActionData : Option WId) : PyResult (Option WId) × Store :=
  if a.role = «END» then (.ok (some wrappedAst), s)
  else wrapperGet s wrappedAst (some a.role) a.identification previousActionData

/-- One candidate attempt inside `find_target_action_for_transition`: skip a
falsy target role, look its action up (`self.actions[target_role]`, KeyError
when missing) and ask it to extract data. -/
def ConstructSpec.tryTargetRole (c : ConstructSpec) (s : Store) (roleOpt : Option String)
    (wrapped : WId) (prev : Option WId) : PyResult (Option (ActionSpec × WId)) × Store :=
  match strTruthy roleOpt with
  | none => (.ok none, s)
  | some r =>
    match lookupAssoc c.actions r with
    | none => (.exn "KeyError", s)
    | some action =>
      match action.findNodeData s wrapped prev with
      | (.exn m, s1) => (.exn m, s1)
      | (.ok (some d), s1) => (.ok (some (action, d)), s1)
      | (.ok none, s1) => (.ok none, s1)

/-- Outcome of `find_target_action_for_transition`: a resolved target, the
`ValueError` raised when the chain is exhausted, a propagated exception, or
fuel exhaustion of the `while True` loop (the source loop has no fuel: a run
that exhausts every finite fuel never returns). -/
inductive TargetResult where
  | found (action : ActionSpec) (data : WId) (primary : Bool)
  | valueError
  | pyError (msg : String)
  | outOfFuel
deriving DecidableEq

/-- `find_target_action_for_transition` (`abstractions.py` lines 145–173):
try the primary `to_` then `to_when_absent`; when neither resolves, follow
the first outgoing transition of the primary target and repeat.  The source
keeps NO record of visited transitions; the `while True` loop is modelled
with explicit fuel. -/
def ConstructSpec.findTargetActionForTransition (c : ConstructSpec) (fuel : Nat)
    (tr : TransitionSpec) (wrapped : WId) (prev : Option WId) (s : Store) :
    TargetResult × Store :=
  match fuel with
  | 0 => (.outOfFuel, s)
  | fuel' + 1 =>
    match c.tryTargetRole s tr.to_ wrapped prev with
    | (.exn m, s1) => (.pyError m, s1)
    | (.ok (some (a, d)), s1) => (.found a d true, s1)
    | (.ok none, s1) =>
      match c.tryTargetRole s1 tr.to_when_absent wrapped prev with
      | (.exn m, s2) => (.pyError m, s2)
      | (.ok (some (a, d)), s2) => (.found a d (tr.to_when_absent == tr.to_), s2)
      | (.ok none, s2) =>
        match tr.to_ with
        | none => (.pyError "KeyError", s2)
        | some r =>
          match lookupAssoc c.actions r with
          | none => (.pyError "KeyError", s2)
          | some primaryAction =>
            match c.findTransitionsFromAction primaryAction with
            | [] => (.valueError, s2)
            | tr2 :: _ => c.findTargetActionForTransition fuel' tr2 wrapped prev s2

end RMT

namespace RMT

/-- A construct grammar whose transition graph contains the cycle
a → b → a.  Roles `a` and `b` use plain-role lookup. -/
def cycActionA : ActionSpec := { role := "a", kind := "atom" }

def cycActionB : ActionSpec := { role := "b", kind := "atom" }

def cycT1 : TransitionSpec := { from_ := some BEGIN, to_ := some "a" }

def cycT2 : TransitionSpec := { from_ := some "a", to_ := some "b" }

def cycT3 : TransitionSpec := { from_ := some "b", to_ := some "a" }

def cycConstruct : ConstructSpec :=
  ConstructSpec.make "cyclic" [("a", cycActionA), ("b", cycActionB)] [cycT1, cycT2, cycT3]

/-- Input wrapper for the cyclic grammar: wraps a scalar AST node (so both
`a` and `b` extract no data) with an initialized children cache. -/
def cycStore : Store :=
  { astRoots := [.str "leaf"]
    wrappers := [{ astv := .astRef ⟨0, []⟩, parent := none, children := some 0 }]
    caches := [.cdict []] }

theorem cyc_step1 (n : Nat) :
    cycConstruct.findTargetActionForTransition (n + 1) cycT1 0 none cycStore =
      cycConstruct.findTargetActionForTransition n cycT2 0 none cycStore := rfl

theorem cyc_step2 (n : Nat) :
    cycConstruct.findTargetActionForTransition (n + 1) cycT2 0 none cycStore =
      cycConstruct.findTargetActionForTransition n cycT3 0 none cycStore := rfl

theorem cyc_step3 (n : Nat) :
    cycConstruct.findTargetActionForTransition (n + 1) cycT3 0 none cycStore =
      cycConstruct.findTargetActionForTransition n cycT2 0 none cycStore := rfl

theorem cyc_loop (n : Nat) :
    (cycConstruct.findTargetActionForTransition n cycT2 0 none cycStore).1 = .outOfFuel ∧
    (cycConstruct.findTargetActionForTransition n cycT3 0 none cycStore).1 = .outOfFuel := by
  induction n with
  | zero => exact ⟨rfl, rfl⟩
  | succ n ih =>
    refine ⟨?_, ?_⟩
    · rw [cyc_step2]; exact ih.2
    · rw [cyc_step3]; exact ih.1

/-- C1: refuted on the code (code_bug).  The fallback-chain search of
`ConstructSpec.find_target_action_for_transition` does NOT track visited
transitions; on the cyclic grammar `cycConstruct` with an input wrapper whose
roles all resolve to absent data, the `while True` loop never returns: for
every fuel bound the modelled loop is still running (`outOfFuel`), so no
finite number of iterations produces a result. -/
theorem C1_resolve_target_chain_diverges : ∀ fuel : Nat,
    (cycConstruct.findTargetActionForTransition fuel cycT1 0 none cycStore).1 = .outOfFuel := by
  intro fuel
  cases fuel with
  | zero => rfl
  | succ n =>
    rw [cyc_step1]
    exact (cyc_loop n).1

end RMT

namespace RMT

/-- A wrapper id is allocated. -/
def WIdOk (s : Store) (w : WId) : Prop := w < s.wrappers.length

/-- A cache id is allocated. -/
def CIdOk (s : Store) (c : CacheId) : Prop := c < s.caches.length

/-- Well-formedness of one wrapper record: its references are allocated and,
when its `ast_node` is list-shaped and its children cache is a list, the
cache has one slot per element (the shapes the resolver itself creates). -/
def WrapperOk (s : Store) (wr : Wrapper) : Prop :=
  (∀ p, wr.parent = some p → WIdOk s p) ∧
  (∀ c, wr.children = some c → CIdOk s c) ∧
  (∀ w', wr.astv = .wrapperRef w' → WIdOk s w') ∧
  (∀ c', wr.astv = .cacheRef c' → CIdOk s c') ∧
  (∀ c n slots, wr.children = some c → s.pyLen wr.astv = some n →
      s.getCache c = some (.clist slots) → slots.length = n)

/-- Well-formedness of one cache record: cached wrappers are allocated. -/
def CacheOk (s : Store) : Cache → Prop
  | .cdict entries => ∀ e ∈ entries, ∀ w', e.2 = some w' → WIdOk s w'
  | .clist slots => ∀ o ∈ slots, ∀ w', o = some w' → WIdOk s w'

/-- Store well-formedness: every wrapper and cache record is well-formed.
Fresh wrapper trees (a wrapper over a raw AST root with no caches yet) are
well-formed, and the resolver preserves well-formedness along the
identification modes that never raise. -/
def WfStore (s : Store) : Prop :=
  (∀ wr ∈ s.wrappers, WrapperOk s wr) ∧ (∀ cc ∈ s.caches, CacheOk s cc)

/-- Cache evolution during path resolution: the kind is stable, list caches
keep their length, and a cached wrapper is never overwritten. -/
def cacheLE : Cache → Cache → Prop
  | .cdict e, .cdict e' => ∀ k w, lookupEntry e k = some (some w) → lookupEntry e' k = some (some w)
  | .clist sl, .clist sl' =>
    sl'.length = sl.length ∧ ∀ i w, sl.get? i = some (some w) → sl'.get? i = some (some w)
  | _, _ => False

/-- Store evolution during path resolution: the raw AST is untouched, heaps
only grow, a wrapper's `ast_node`/`parent` never change, a populated
`children` pointer never changes, and caches evolve by `cacheLE`. -/
def StoreLE (s s' : Store) : Prop :=
  s'.astRoots = s.astRoots ∧
  s.wrappers.length ≤ s'.wrappers.length ∧
  s.caches.length ≤ s'.caches.length ∧
  (∀ i wr, s.getWrapper i = some wr → ∃ wr', s'.getWrapper i = some wr' ∧
      wr'.astv = wr.astv ∧ wr'.parent = wr.parent ∧
      (wr'.children = wr.children ∨ wr.children = none)) ∧
  (∀ c cc, s.getCache c = some cc → ∃ cc', s'.getCache c = some cc' ∧ cacheLE cc cc')

theorem cacheLE_refl (cc : Cache) : cacheLE cc cc := by
  cases cc with
  | cdict e => intro k w h; exact h
  | clist sl => exact ⟨rfl, fun i w h => h⟩

theorem cacheLE_trans {a b c : Cache} (h1 : cacheLE a b) (h2 : cacheLE b c) : cacheLE a c := by
  cases a with
  | cdict e =>
    cases b with
    | cdict e1 =>
      cases c with
      | cdict e2 => intro k w h; exact h2 k w (h1 k w h)
      | clist _ => exact absurd h2 (by simp [cacheLE])
    | clist _ => exact absurd h1 (by simp [cacheLE])
  | clist sl =>
    cases b with
    | cdict _ => exact absurd h1 (by simp [cacheLE])
    | clist sl1 =>
      cases c with
      | cdict _ => exact absurd h2 (by simp [cacheLE])
      | clist sl2 =>
        exact ⟨h2.1.trans h1.1, fun i w h => h2.2 i w (h1.2 i w h)⟩

theorem storeLE_refl (s : Store) : StoreLE s s :=
  ⟨rfl, le_refl _, le_refl _,
    fun _ wr h => ⟨wr, h, rfl, rfl, Or.inl rfl⟩,
    fun _ cc h => ⟨cc, h, cacheLE_refl cc⟩⟩

theorem storeLE_trans {s1 s2 s3 : Store} (h1 : StoreLE s1 s2) (h2 : StoreLE s2 s3) :
    StoreLE s1 s3 := by
  obtain ⟨a1, b1, c1, d1, e1⟩ := h1
  obtain ⟨a2, b2, c2, d2, e2⟩ := h2
  refine ⟨a2.trans a1, b1.trans b2, c1.trans c2, ?_, ?_⟩
  · intro i wr h
    obtain ⟨wr1, h1', ha1, hp1, hc1⟩ := d1 i wr h
    obtain ⟨wr2, h2', ha2, hp2, hc2⟩ := d2 i wr1 h1'
    refine ⟨wr2, h2', ha2.trans ha1, hp2.trans hp1, ?_⟩
    rcases hc1 with hc1 | hc1
    · rcases hc2 with hc2 | hc2
      · exact Or.inl (hc2.trans hc1)
      · exact Or.inr (hc1 ▸ hc2)
    · exact Or.inr hc1
  · intro c cc h
    obtain ⟨cc1, h1', hle1⟩ := e1 c cc h
    obtain ⟨cc2, h2', hle2⟩ := e2 c cc1 h1'
    exact ⟨cc2, h2', cacheLE_trans hle1 hle2⟩

end RMT

namespace RMT

theorem allocWrapper_astRoots (s : Store) (wr : Wrapper) :
    (s.allocWrapper wr).2.astRoots = s.astRoots := rfl

theorem allocWrapper_caches (s : Store) (wr : Wrapper) :
    (s.allocWrapper wr).2.caches = s.caches := rfl

theorem allocWrapper_fst (s : Store) (wr : Wrapper) :
    (s.allocWrapper wr).1 = s.wrappers.length := rfl

theorem allocWrapper_wrappers_length (s : Store) (wr : Wrapper) :
    (s.allocWrapper wr).2.wrappers.length = s.wrappers.length + 1 := by
  simp [Store.allocWrapper]

theorem allocWrapper_getWrapper_self (s : Store) (wr : Wrapper) :
    (s.allocWrapper wr).2.getWrapper (s.allocWrapper wr).1 = some wr := by
  simp [Store.allocWrapper, Store.getWrapper]

theorem allocWrapper_getWrapper_lt (s : Store) (wr : Wrapper) {i : WId}
    (h : i < s.wrappers.length) :
    (s.allocWrapper wr).2.getWrapper i = s.getWrapper i := by
  simp only [Store.allocWrapper, Store.getWrapper]
  rw [List.get?_append h]

theorem allocCache_astRoots (s : Store) (cc : Cache) :
    (s.allocCache cc).2.astRoots = s.astRoots := rfl

theorem allocCache_wrappers (s : Store) (cc : Cache) :
    (s.allocCache cc).2.wrappers = s.wrappers := rfl

theorem allocCache_fst (s : Store) (cc : Cache) :
    (s.allocCache cc).1 = s.caches.length := rfl

theorem allocCache_caches_length (s : Store) (cc : Cache) :
    (s.allocCache cc).2.caches.length = s.caches.length + 1 := by
  simp [Store.allocCache]

theorem allocCache_getCache_self (s : Store) (cc : Cache) :
    (s.allocCache cc).2.getCache (s.allocCache cc).1 = some cc := by
  simp [Store.allocCache, Store.getCache]

theorem allocCache_getCache_lt (s : Store) (cc : Cache) {c : CacheId}
    (h : c < s.caches.length) :
    (s.allocCache cc).2.getCache c = s.getCache c := by
  simp only [Store.allocCache, Store.getCache]
  rw [List.get?_append h]

theorem setChildren_astRoots (s : Store) (w : WId) (c : CacheId) :
    (s.setChildren w c).astRoots = s.astRoots := by
  unfold Store.setChildren
  split <;> rfl

theorem setChildren_caches (s : Store) (w : WId) (c : CacheId) :
    (s.setChildren w c).caches = s.caches := by
  unfold Store.setChildren
  split <;> rfl

theorem setChildren_wrappers_length (s : Store) (w : WId) (c : CacheId) :
    (s.setChildren w c).wrappers.length = s.wrappers.length := by
  unfold Store.setChildren
  split <;> simp

theorem setChildren_getWrapper_self (s : Store) {w : WId} {wr : Wrapper}
    (h : s.getWrapper w = some wr) (c : CacheId) :
    (s.setChildren w c).getWrapper w = some { wr with children := some c } := by
  unfold Store.setChildren Store.getWrapper
  unfold Store.getWrapper at h
  rw [h]
  simp only
  have hlt : w < s.wrappers.length := by
    rcases List.get?_eq_some.mp h with ⟨hlt, _⟩
    exact hlt
  exact List.get?_set_eq_of_lt _ hlt

theorem setChildren_getWrapper_ne (s : Store) {w i : WId} (c : CacheId) (h : i ≠ w) :
    (s.setChildren w c).getWrapper i = s.getWrapper i := by
  unfold Store.setChildren Store.getWrapper
  split
  · exact List.get?_set_ne _ _ (fun he => h he.symm)
  · rfl

theorem setCache_astRoots (s : Store) (c : CacheId) (cc : Cache) :
    (s.setCache c cc).astRoots = s.astRoots := rfl

theorem setCache_wrappers (s : Store) (c : CacheId) (cc : Cache) :
    (s.setCache c cc).wrappers = s.wrappers := rfl

theorem setCache_caches_length (s : Store) (c : CacheId) (cc : Cache) :
    (s.setCache c cc).caches.length = s.caches.length := by
  simp [Store.setCache]

theorem setCache_getCache_self (s : Store) {c : CacheId} (cc : Cache) (h : c < s.caches.length) :
    (s.setCache c cc).getCache c = some cc := by
  simp only [Store.setCache, Store.getCache]
  exact List.get?_set_eq_of_lt _ h

theorem setCache_getCache_ne (s : Store) {c c' : CacheId} (cc : Cache) (h : c' ≠ c) :
    (s.setCache c cc).getCache c' = s.getCache c' := by
  simp only [Store.setCache, Store.getCache]
  exact List.get?_set_ne _ _ (fun he => h he.symm)

theorem readAst_congr {s s' : Store} (h : s'.astRoots = s.astRoots) (l : AstLoc) :
    s'.readAst l = s.readAst l := by
  unfold Store.readAst
  rw [h]

theorem getCache_congr {s s' : Store} (h : s'.caches = s.caches) (c : CacheId) :
    s'.getCache c = s.getCache c := by
  unfold Store.getCache
  rw [h]

theorem pyLen_congr {s s' : Store} (h1 : s'.astRoots = s.astRoots)
    (h2 : s'.caches = s.caches) (v : WVal) : s'.pyLen v = s.pyLen v := by
  unfold Store.pyLen
  cases v <;> simp only [readAst_congr h1, getCache_congr h2]

theorem isListVal_congr {s s' : Store} (h1 : s'.astRoots = s.astRoots)
    (h2 : s'.caches = s.caches) (v : WVal) : s'.isListVal v = s.isListVal v := by
  unfold Store.isListVal
  cases v <;> simp only [readAst_congr h1, getCache_congr h2]

theorem isDictVal_congr {s s' : Store} (h1 : s'.astRoots = s.astRoots)
    (h2 : s'.caches = s.caches) (v : WVal) : s'.isDictVal v = s.isDictVal v := by
  unfold Store.isDictVal
  cases v <;> simp only [readAst_congr h1, getCache_congr h2]

theorem dictHasKey_congr {s s' : Store} (h1 : s'.astRoots = s.astRoots)
    (h2 : s'.caches = s.caches) (v : WVal) (k : String) :
    s'.dictHasKey v k = s.dictHasKey v k := by
  unfold Store.dictHasKey
  cases v <;> simp only [readAst_congr h1, getCache_congr h2]

theorem dictGet_congr {s s' : Store} (h1 : s'.astRoots = s.astRoots)
    (h2 : s'.caches = s.caches) (v : WVal) (k : String) :
    s'.dictGet v k = s.dictGet v k := by
  unfold Store.dictGet
  cases v <;> simp only [readAst_congr h1, getCache_congr h2]

theorem valEq_congr {s s' : Store} (h1 : s'.astRoots = s.astRoots) (v1 v2 : WVal) :
    s'.valEq v1 v2 = s.valEq v1 v2 := by
  unfold Store.valEq
  cases v1 <;> cases v2 <;> simp only [readAst_congr h1]

theorem astListIndexOfVal_congr {s s' : Store} (h1 : s'.astRoots = s.astRoots)
    (l : AstLoc) (items : List Ast) (v : WVal) :
    s'.astListIndexOfVal l items v = s.astListIndexOfVal l items v := by
  unfold Store.astListIndexOfVal
  congr 1
  funext i
  exact valEq_congr h1 _ _

theorem elemVal_congr {s s' : Store} (h1 : s'.astRoots = s.astRoots)
    (h2 : s'.caches = s.caches) (v : WVal) (i : Nat) :
    s'.elemVal v i = s.elemVal v i := by
  unfold Store.elemVal
  cases v <;> simp only [readAst_congr h1, getCache_congr h2]

end RMT

namespace RMT

theorem WfStore.wrapperOk {s : Store} (h : WfStore s) {w : WId} {wr : Wrapper}
    (hw : s.getWrapper w = some wr) : WrapperOk s wr :=
  h.1 wr (List.get?_mem hw)

theorem WfStore.cacheOk {s : Store} (h : WfStore s) {c : CacheId} {cc : Cache}
    (hc : s.getCache c = some cc) : CacheOk s cc :=
  h.2 cc (List.get?_mem hc)

theorem WIdOk.exists_wrapper {s : Store} {w : WId} (h : WIdOk s w) :
    ∃ wr, s.getWrapper w = some wr :=
  ⟨s.wrappers.get ⟨w, h⟩, List.get?_eq_get h⟩

theorem CIdOk.exists_cache {s : Store} {c : CacheId} (h : CIdOk s c) :
    ∃ cc, s.getCache c = some cc :=
  ⟨s.caches.get ⟨c, h⟩, List.get?_eq_get h⟩

theorem getWrapper_lt {s : Store} {w : WId} {wr : Wrapper} (h : s.getWrapper w = some wr) :
    WIdOk s w := by
  rcases List.get?_eq_some.mp h with ⟨hlt, _⟩
  exact hlt

theorem getCache_lt {s : Store} {c : CacheId} {cc : Cache} (h : s.getCache c = some cc) :
    CIdOk s c := by
  rcases List.get?_eq_some.mp h with ⟨hlt, _⟩
  exact hlt

theorem lookupEntry_setEntry_self (es : List (String × Option WId)) (k : String) (v : Option WId) :
    lookupEntry (setEntry es k v) k = some v := by
  induction es with
  | nil => simp [setEntry, lookupEntry]
  | cons e es ih =>
    by_cases h : e.1 = k
    · simp [setEntry, lookupEntry, h]
    · simp only [setEntry, lookupEntry]
      rw [if_neg h]
      simp only [lookupEntry]
      rw [if_neg h]
      exact ih

theorem lookupEntry_setEntry_ne (es : List (String × Option WId)) {k k' : String}
    (v : Option WId) (h : k' ≠ k) :
    lookupEntry (setEntry es k v) k' = lookupEntry es k' := by
  induction es with
  | nil =>
    simp only [setEntry, lookupEntry]
    rw [if_neg (fun he => h he.symm)]
  | cons e es ih =>
    by_cases he : e.1 = k
    · simp only [setEntry, if_pos he, lookupEntry]
      rw [if_neg (fun hk => h hk.symm), if_neg (he ▸ fun hk => h hk.symm)]
    · simp only [setEntry, if_neg he, lookupEntry]
      by_cases he' : e.1 = k'
      · rw [if_pos he', if_pos he']
      · rw [if_neg he', if_neg he']
        exact ih

theorem mem_setEntry {es : List (String × Option WId)} {k : String} {v : Option WId}
    {e : String × Option WId} (h : e ∈ setEntry es k v) : e = (k, v) ∨ e ∈ es := by
  induction es with
  | nil => simpa [setEntry] using h
  | cons e0 es ih =>
    simp only [setEntry] at h
    split at h
    · rcases List.mem_cons.mp h with h | h
      · exact Or.inl h
      · exact Or.inr (List.mem_cons.mpr (Or.inr h))
    · rcases List.mem_cons.mp h with h | h
      · exact Or.inr (List.mem_cons.mpr (Or.inl h))
      · rcases ih h with h | h
        · exact Or.inl h
        · exact Or.inr (List.mem_cons.mpr (Or.inr h))

/-- Transport of `WrapperOk` to a store with grown heaps whose existing
caches and raw AST are unchanged (pointwise). -/
theorem wrapperOk_mono {s s' : Store} {wr : Wrapper}
    (hW : s.wrappers.length ≤ s'.wrappers.length)
    (hC : s.caches.length ≤ s'.caches.length)
    (hA : s'.astRoots = s.astRoots)
    (hCa : ∀ c, c < s.caches.length → s'.getCache c = s.getCache c)
    (hok : WrapperOk s wr) : WrapperOk s' wr := by
  obtain ⟨h1, h2, h3, h4, h5⟩ := hok
  have hlen : ∀ v : WVal, (∀ c', v = .cacheRef c' → CIdOk s c') → s'.pyLen v = s.pyLen v := by
    intro v hv
    cases v with
    | astRef l => simp only [Store.pyLen]; rw [readAst_congr hA]
    | cacheRef c' => simp only [Store.pyLen]; rw [hCa c' (hv c' rfl)]
    | wrapperRef _ => rfl
    | pynone => rfl
  refine ⟨fun p hp => lt_of_lt_of_le (h1 p hp) hW,
    fun c hc => lt_of_lt_of_le (h2 c hc) hC,
    fun w' hw' => lt_of_lt_of_le (h3 w' hw') hW,
    fun c' hc' => lt_of_lt_of_le (h4 c' hc') hC, ?_⟩
  intro c n slots hc hn hcc
  rw [hlen wr.astv h4] at hn
  rw [hCa c (h2 c hc)] at hcc
  exact h5 c n slots hc hn hcc

theorem cacheOk_mono {s s' : Store} {cc : Cache}
    (hW : s.wrappers.length ≤ s'.wrappers.length) (hok : CacheOk s cc) : CacheOk s' cc := by
  cases cc with
  | cdict entries => exact fun e he w' hw' => lt_of_lt_of_le (hok e he w' hw') hW
  | clist slots => exact fun o ho w' hw' => lt_of_lt_of_le (hok o ho w' hw') hW

theorem storeLE_allocWrapper (s : Store) (wr : Wrapper) : StoreLE s (s.allocWrapper wr).2 := by
  refine ⟨rfl, by simp [allocWrapper_wrappers_length], le_refl _, ?_, ?_⟩
  · intro i wr0 h
    refine ⟨wr0, ?_, rfl, rfl, Or.inl rfl⟩
    rw [allocWrapper_getWrapper_lt s wr (getWrapper_lt h)]
    exact h
  · intro c cc h
    exact ⟨cc, h, cacheLE_refl cc⟩

theorem wfStore_allocWrapper {s : Store} {wr : Wrapper} (h : WfStore s)
    (hok : WrapperOk s wr) : WfStore (s.allocWrapper wr).2 := by
  constructor
  · intro wr0 hmem
    rcases List.mem_append.mp hmem with hmem | hmem
    · exact @wrapperOk_mono s (s.allocWrapper wr).2 wr0
        (by simp [allocWrapper_wrappers_length]) (le_refl _) rfl
        (fun _ _ => rfl) (h.1 wr0 hmem)
    · rw [List.mem_singleton.mp hmem]
      exact @wrapperOk_mono s (s.allocWrapper wr).2 wr
        (by simp [allocWrapper_wrappers_length]) (le_refl _) rfl
        (fun _ _ => rfl) hok
  · intro cc hmem
    exact @cacheOk_mono s (s.allocWrapper wr).2 cc
      (by simp [allocWrapper_wrappers_length]) (h.2 cc hmem)

theorem storeLE_ensure (s : Store) {w : WId} {wr : Wrapper} (cc : Cache)
    (hw : s.getWrapper w = some wr) (hn : wr.children = none) :
    StoreLE s ((s.allocCache cc).2.setChildren w (s.allocCache cc).1) := by
  refine ⟨by rw [setChildren_astRoots, allocCache_astRoots],
    by rw [setChildren_wrappers_length]; simp [Store.allocCache],
    by rw [show ((s.allocCache cc).2.setChildren w (s.allocCache cc).1).caches
          = (s.allocCache cc).2.caches from setChildren_caches _ _ _]
       simp [allocCache_caches_length], ?_, ?_⟩
  · intro i wr0 h0
    have h1 : (s.allocCache cc).2.getWrapper i = some wr0 := h0
    by_cases hi : i = w
    · subst hi
      have heq : wr0 = wr := by
        rw [h0] at hw
        exact Option.some.inj hw
      subst heq
      refine ⟨{ wr0 with children := some (s.allocCache cc).1 },
        setChildren_getWrapper_self (s.allocCache cc).2 h1 _, rfl, rfl, Or.inr hn⟩
    · exact ⟨wr0, by rw [setChildren_getWrapper_ne _ _ hi]; exact h1, rfl, rfl, Or.inl rfl⟩
  · intro c0 cc0 h0
    refine ⟨cc0, ?_, cacheLE_refl cc0⟩
    rw [getCache_congr (setChildren_caches _ _ _) c0,
      allocCache_getCache_lt s cc (getCache_lt h0)]
    exact h0

theorem setChildren_wrappers_eq {s : Store} {w : WId} {wr : Wrapper} (c : CacheId)
    (hw : s.getWrapper w = some wr) :
    (s.setChildren w c).wrappers = s.wrappers.set w { wr with children := some c } := by
  unfold Store.setChildren
  rw [show s.wrappers.get? w = some wr from hw]

theorem wfStore_ensure {s : Store} {w : WId} {wr : Wrapper} {cc : Cache} (h : WfStore s)
    (hw : s.getWrapper w = some wr)
    (hcc : cc = .cdict [] ∨ ∃ n, cc = .clist (List.replicate n none) ∧ s.pyLen wr.astv = some n) :
    WfStore ((s.allocCache cc).2.setChildren w (s.allocCache cc).1) := by
  have hccok : CacheOk s cc := by
    rcases hcc with hcc | ⟨n, hcc, _⟩
    · subst hcc; intro e he; simp at he
    · subst hcc
      intro o ho w' hw'
      rw [List.eq_of_mem_replicate ho] at hw'
      exact absurd hw' (by simp)
  have h1 : WfStore (s.allocCache cc).2 := by
    constructor
    · intro wr0 hmem
      exact @wrapperOk_mono s (s.allocCache cc).2 wr0 (le_refl _)
        (by simp [allocCache_caches_length]) rfl
        (fun c hc => allocCache_getCache_lt s cc hc) (h.1 wr0 hmem)
    · intro cc0 hmem
      rcases List.mem_append.mp hmem with hmem | hmem
      · exact @cacheOk_mono s (s.allocCache cc).2 cc0 (le_refl _) (h.2 cc0 hmem)
      · rw [List.mem_singleton.mp hmem]
        exact @cacheOk_mono s (s.allocCache cc).2 cc (le_refl _) hccok
  have hw1 : (s.allocCache cc).2.getWrapper w = some wr := hw
  have hset := setChildren_wrappers_eq (s.allocCache cc).1 hw1
  have hcaches : ((s.allocCache cc).2.setChildren w (s.allocCache cc).1).caches
      = (s.allocCache cc).2.caches := setChildren_caches _ _ _
  have hroots : ((s.allocCache cc).2.setChildren w (s.allocCache cc).1).astRoots
      = (s.allocCache cc).2.astRoots := setChildren_astRoots _ _ _
  have hccget1 : (s.allocCache cc).2.getCache (s.allocCache cc).1 = some cc :=
    allocCache_getCache_self s cc
  have hlenw : ((s.allocCache cc).2.setChildren w (s.allocCache cc).1).wrappers.length
      = (s.allocCache cc).2.wrappers.length := setChildren_wrappers_length _ _ _
  have hclt : CIdOk ((s.allocCache cc).2.setChildren w (s.allocCache cc).1) (s.allocCache cc).1 := by
    unfold CIdOk
    rw [hcaches]
    simp [allocCache_fst, allocCache_caches_length]
  constructor
  · intro wr0 hmem
    rw [hset] at hmem
    rcases List.mem_or_eq_of_mem_set hmem with hmem | heq
    · exact @wrapperOk_mono (s.allocCache cc).2
        ((s.allocCache cc).2.setChildren w (s.allocCache cc).1) wr0
        (le_of_eq hlenw.symm) (le_of_eq (congrArg List.length hcaches).symm) hroots
        (fun c _ => getCache_congr hcaches c) (h1.1 wr0 hmem)
    · subst heq
      have hok := h.wrapperOk hw
      obtain ⟨k1, k2, k3, k4, k5⟩ := hok
      refine ⟨fun p hp => by unfold WIdOk; rw [hlenw]; exact k1 p hp,
        fun c hc => by
          rw [Option.some.injEq] at hc
          exact hc ▸ hclt,
        fun w' hw' => by unfold WIdOk; rw [hlenw]; exact k3 w' hw',
        fun c' hc' => by
          unfold CIdOk
          rw [hcaches]
          exact lt_of_lt_of_le (k4 c' hc') (by simp [allocCache_caches_length]), ?_⟩
      intro c n slots hc hn hcget
      rw [Option.some.injEq] at hc
      subst hc
      rw [getCache_congr hcaches _, hccget1] at hcget
      have hn' : (s.allocCache cc).2.pyLen wr.astv = some n := by
        rw [pyLen_congr hroots hcaches] at hn
        exact hn
      rcases hcc with hcc | ⟨m, hcc, hm⟩
      · subst hcc; exact absurd hcget (by simp)
      · subst hcc
        rw [Option.some.injEq] at hcget
        injection hcget with hsl
        rw [← hsl]
        have hm1 : (s.allocCache (Cache.clist (List.replicate m none))).2.pyLen wr.astv
            = some m := by
          have hpl : (s.allocCache (Cache.clist (List.replicate m none))).2.pyLen wr.astv
              = s.pyLen wr.astv := by
            cases hv : wr.astv with
            | astRef l => rfl
            | cacheRef c' =>
              simp only [Store.pyLen]
              rw [allocCache_getCache_lt s _ (k4 c' hv)]
            | wrapperRef _ => rfl
            | pynone => rfl
          rw [hpl, hm]
        rw [hm1, Option.some.injEq] at hn'
        simp [hn']
  · intro cc0 hmem
    rw [hcaches] at hmem
    exact @cacheOk_mono (s.allocCache cc).2
      ((s.allocCache cc).2.setChildren w (s.allocCache cc).1) cc0
      (le_of_eq hlenw.symm) (h1.2 cc0 hmem)

end RMT

namespace RMT

theorem pyLen_setCache_clist_samelen {s : Store} {c : CacheId} {slots slots' : List (Option WId)}
    (hc : s.getCache c = some (.clist slots)) (hlen : slots'.length = slots.length) (v : WVal) :
    (s.setCache c (.clist slots')).pyLen v = s.pyLen v := by
  cases v with
  | astRef l => rfl
  | cacheRef c' =>
    simp only [Store.pyLen]
    by_cases he : c' = c
    · subst he
      rw [setCache_getCache_self s _ (getCache_lt hc), hc]
      simp [hlen]
    · rw [setCache_getCache_ne s _ he]
  | wrapperRef _ => rfl
  | pynone => rfl

theorem wrapperOk_setCache_clist_samelen {s : Store} {c : CacheId}
    {slots slots' : List (Option WId)} {wr : Wrapper}
    (hc : s.getCache c = some (.clist slots)) (hlen : slots'.length = slots.length)
    (hok : WrapperOk s wr) : WrapperOk (s.setCache c (.clist slots')) wr := by
  obtain ⟨k1, k2, k3, k4, k5⟩ := hok
  have hWlen : (s.setCache c (.clist slots')).wrappers.length = s.wrappers.length := by
    rw [setCache_wrappers]
  have hClen : (s.setCache c (.clist slots')).caches.length = s.caches.length :=
    setCache_caches_length _ _ _
  refine ⟨fun p hp => by unfold WIdOk; rw [hWlen]; exact k1 p hp,
    fun c0 hc0 => by unfold CIdOk; rw [hClen]; exact k2 c0 hc0,
    fun w' hw' => by unfold WIdOk; rw [hWlen]; exact k3 w' hw',
    fun c' hc' => by unfold CIdOk; rw [hClen]; exact k4 c' hc', ?_⟩
  intro c0 n sl0 hch hn hcget
  rw [pyLen_setCache_clist_samelen hc hlen] at hn
  by_cases he : c0 = c
  · subst he
    rw [setCache_getCache_self s _ (getCache_lt hc), Option.some.injEq] at hcget
    injection hcget with hsl
    rw [← hsl, hlen]
    exact k5 c0 n slots hch hn hc
  · rw [setCache_getCache_ne s _ he] at hcget
    exact k5 c0 n sl0 hch hn hcget

theorem storeLE_setCache_slot {s : Store} {c : CacheId} {slots : List (Option WId)} {i : Nat}
    (wNew : WId) (hc : s.getCache c = some (.clist slots)) (hi : slots.get? i = some none) :
    StoreLE s (s.setCache c (.clist (slots.set i (some wNew)))) := by
  refine ⟨rfl, le_of_eq (by rw [setCache_wrappers]), le_of_eq (setCache_caches_length _ _ _).symm,
    ?_, ?_⟩
  · intro j wr0 h0
    exact ⟨wr0, h0, rfl, rfl, Or.inl rfl⟩
  · intro c0 cc0 h0
    by_cases he : c0 = c
    · subst he
      rw [h0] at hc
      rw [Option.some.inj hc]
      refine ⟨.clist (slots.set i (some wNew)), setCache_getCache_self s _ (getCache_lt h0), ?_⟩
      refine ⟨by simp, ?_⟩
      intro j w hj
      by_cases hji : j = i
      · subst hji
        rw [hj] at hi
        exact absurd (Option.some.inj hi) (by simp)
      · rw [List.get?_set_ne _ _ (fun he2 => hji he2.symm)]
        exact hj
    · exact ⟨cc0, by rw [setCache_getCache_ne s _ he]; exact h0, cacheLE_refl cc0⟩

theorem wfStore_setCache_slot {s : Store} {c : CacheId} {slots : List (Option WId)} {i : Nat}
    {wNew : WId} (h : WfStore s) (hc : s.getCache c = some (.clist slots))
    (hval : WIdOk s wNew) : WfStore (s.setCache c (.clist (slots.set i (some wNew)))) := by
  have hlen : (slots.set i (some wNew)).length = slots.length := by simp
  constructor
  · intro wr0 hmem
    rw [setCache_wrappers] at hmem
    exact wrapperOk_setCache_clist_samelen hc hlen (h.1 wr0 hmem)
  · intro cc0 hmem
    have hmem' : cc0 ∈ s.caches.set c (.clist (slots.set i (some wNew))) := hmem
    rcases List.mem_or_eq_of_mem_set hmem' with hmem2 | heq
    · exact @cacheOk_mono s (s.setCache c (.clist (slots.set i (some wNew)))) cc0
        (le_of_eq (by rw [setCache_wrappers])) (h.2 cc0 hmem2)
    · subst heq
      intro o ho w' hw'
      rcases List.mem_or_eq_of_mem_set ho with ho2 | hoe
      · have := h.cacheOk hc
        have hok : WIdOk s w' := this o ho2 w' hw'
        unfold WIdOk
        rw [setCache_wrappers]
        exact hok
      · subst hoe
        unfold WIdOk
        rw [setCache_wrappers]
        exact Option.some.inj hw' ▸ hval

theorem storeLE_setCache_entry {s : Store} {c : CacheId} {entries : List (String × Option WId)}
    {key : String} (wNew : WId) (hc : s.getCache c = some (.cdict entries))
    (hk : ∀ w, lookupEntry entries key ≠ some (some w)) :
    StoreLE s (s.setCache c (.cdict (setEntry entries key (some wNew)))) := by
  refine ⟨rfl, le_of_eq (by rw [setCache_wrappers]), le_of_eq (setCache_caches_length _ _ _).symm,
    ?_, ?_⟩
  · intro j wr0 h0
    exact ⟨wr0, h0, rfl, rfl, Or.inl rfl⟩
  · intro c0 cc0 h0
    by_cases he : c0 = c
    · subst he
      rw [h0] at hc
      rw [Option.some.inj hc]
      refine ⟨.cdict (setEntry entries key (some wNew)),
        setCache_getCache_self s _ (getCache_lt h0), ?_⟩
      intro k w hkw
      by_cases hkk : k = key
      · subst hkk
        exact absurd hkw (hk w)
      · rw [lookupEntry_setEntry_ne entries _ hkk]
        exact hkw
    · exact ⟨cc0, by rw [setCache_getCache_ne s _ he]; exact h0, cacheLE_refl cc0⟩

theorem pyLen_setCache_cdict {s : Store} {c : CacheId} {entries : List (String × Option WId)}
    (hc : s.getCache c = some (.cdict entries)) (entries' : List (String × Option WId)) (v : WVal) :
    (s.setCache c (.cdict entries')).pyLen v = s.pyLen v := by
  cases v with
  | astRef l => rfl
  | cacheRef c' =>
    simp only [Store.pyLen]
    by_cases he : c' = c
    · subst he
      rw [setCache_getCache_self s _ (getCache_lt hc), hc]
    · rw [setCache_getCache_ne s _ he]
  | wrapperRef _ => rfl
  | pynone => rfl

theorem wfStore_setCache_entry {s : Store} {c : CacheId} {entries : List (String × Option WId)}
    {key : String} {wNew : WId} (h : WfStore s) (hc : s.getCache c = some (.cdict entries))
    (hval : WIdOk s wNew) : WfStore (s.setCache c (.cdict (setEntry entries key (some wNew)))) := by
  constructor
  · intro wr0 hmem
    rw [setCache_wrappers] at hmem
    have hok := h.1 wr0 hmem
    obtain ⟨k1, k2, k3, k4, k5⟩ := hok
    have hWlen : (s.setCache c (.cdict (setEntry entries key (some wNew)))).wrappers.length
        = s.wrappers.length := by rw [setCache_wrappers]
    have hClen := setCache_caches_length s c (Cache.cdict (setEntry entries key (some wNew)))
    refine ⟨fun p hp => by unfold WIdOk; rw [hWlen]; exact k1 p hp,
      fun c0 hc0 => by unfold CIdOk; rw [hClen]; exact k2 c0 hc0,
      fun w' hw' => by unfold WIdOk; rw [hWlen]; exact k3 w' hw',
      fun c' hc' => by unfold CIdOk; rw [hClen]; exact k4 c' hc', ?_⟩
    intro c0 n sl0 hch hn hcget
    rw [pyLen_setCache_cdict hc _] at hn
    by_cases he : c0 = c
    · subst he
      rw [setCache_getCache_self s _ (getCache_lt hc), Option.some.injEq] at hcget
      exact absurd hcget (by simp)
    · rw [setCache_getCache_ne s _ he] at hcget
      exact k5 c0 n sl0 hch hn hcget
  · intro cc0 hmem
    have hmem' : cc0 ∈ s.caches.set c (.cdict (setEntry entries key (some wNew))) := hmem
    rcases List.mem_or_eq_of_mem_set hmem' with hmem2 | heq
    · exact @cacheOk_mono s (s.setCache c (.cdict (setEntry entries key (some wNew)))) cc0
        (le_of_eq (by rw [setCache_wrappers])) (h.2 cc0 hmem2)
    · subst heq
      intro e he w' hw'
      rcases mem_setEntry he with he2 | he2
      · subst he2
        unfold WIdOk
        rw [setCache_wrappers]
        exact Option.some.inj hw' ▸ hval
      · have := h.cacheOk hc
        have hok : WIdOk s w' := this e he2 w' hw'
        unfold WIdOk
        rw [setCache_wrappers]
        exact hok

end RMT

namespace RMT

theorem nextSiblingStep_inl_eq {s1 : Store} {cur : WId} {curW : Wrapper} {par : WId}
    {parW : Wrapper} {c : CacheId} {rs : PyResult (Option WId) × Store}
    (h : nextSiblingStep s1 cur curW par parW c = .inl rs) : rs.2 = s1 := by
  obtain ⟨r, s2⟩ := rs
  show s2 = s1
  unfold nextSiblingStep at h
  repeat' (first | split at h | (dsimp only at h; split at h) | split_ifs at h)
  all_goals first
    | (injection h with h1
       injection h1 with h2 h3
       exact h3.symm)
    | exact absurd h (by simp)

theorem nextSiblingStep_inr_storeLE {s1 : Store} {cur : WId} {curW : Wrapper} {par : WId}
    {parW : Wrapper} {c : CacheId} {w : WId} {s2 : Store}
    (h : nextSiblingStep s1 cur curW par parW c = .inr (w, s2)) : StoreLE s1 s2 := by
  unfold nextSiblingStep at h
  repeat' (first | split at h | (dsimp only at h; split at h) | split_ifs at h)
  all_goals first
    | (injection h with h1
       injection h1 with h2 h3
       subst h3
       exact storeLE_refl s1)
    | (injection h with h1
       injection h1 with h2 h3
       subst h3
       refine storeLE_trans (storeLE_allocWrapper _ _) (storeLE_setCache_slot _ ?_ ?_)
         <;> assumption)
    | exact absurd h (by simp)

end RMT

namespace RMT

theorem storeLE_ensureListChildren {s : Store} {w : WId} {wr : Wrapper} (n : Nat)
    (hw : s.getWrapper w = some wr) : StoreLE s (s.ensureListChildren w wr n).2 := by
  unfold Store.ensureListChildren
  cases hch : wr.children with
  | some c => exact storeLE_refl s
  | none => exact storeLE_ensure s _ hw hch

theorem storeLE_ensureDictChildren {s : Store} {w : WId} {wr : Wrapper}
    (hw : s.getWrapper w = some wr) : StoreLE s (s.ensureDictChildren w wr).2 := by
  unfold Store.ensureDictChildren
  cases hch : wr.children with
  | some c => exact storeLE_refl s
  | none => exact storeLE_ensure s _ hw hch

set_option maxHeartbeats 2000000 in
/-- `resolve_property_path_recursive` only grows the store: the raw AST
roots are untouched, wrappers and caches are only added or filled in. -/
theorem pathRec_storeLE : ∀ (comps : List (List Char)) (s : Store) (current : Option WId)
    (prevData : Option WId),
    StoreLE s (resolvePropertyPathRecursive s current comps prevData).2 := by
  intro comps
  induction comps with
  | nil => intro s current prevData; exact storeLE_refl s
  | cons comp remaining ih =>
    intro s current prevData
    cases current with
    | none => exact storeLE_refl s
    | some cur =>
      cases hW : s.getWrapper cur with
      | none => simp only [resolvePropertyPathRecursive, hW]; exact storeLE_refl s
      | some curW =>
        simp only [resolvePropertyPathRecursive, hW]
        repeat' (first | split | (dsimp only; split) | split_ifs)
        all_goals try dsimp only
        all_goals first
          | exact storeLE_refl _
          | exact ih _ _ _
          | (rename_i heq
             rw [nextSiblingStep_inl_eq heq]
             first
               | exact storeLE_refl _
               | exact storeLE_ensure _ _ (by assumption) (by assumption))
          | (rename_i heq
             exact storeLE_trans (nextSiblingStep_inr_storeLE heq) (ih _ _ _))
          | (rename_i heq
             exact storeLE_trans (storeLE_ensure _ _ (by assumption) (by assumption))
               (storeLE_trans (nextSiblingStep_inr_storeLE heq) (ih _ _ _)))
          | exact storeLE_ensureListChildren _ (by assumption)
          | exact storeLE_ensureDictChildren (by assumption)
          | exact storeLE_trans (storeLE_ensureListChildren _ (by assumption)) (ih _ _ _)
          | exact storeLE_trans (storeLE_ensureDictChildren (by assumption)) (ih _ _ _)
          | exact storeLE_trans (storeLE_ensureListChildren _ (by assumption))
              (storeLE_trans (storeLE_allocWrapper _ _)
                (storeLE_trans (storeLE_setCache_slot _ (by assumption) (by assumption))
                  (ih _ _ _)))
          | exact storeLE_trans (storeLE_ensureDictChildren (by assumption))
              (storeLE_trans (storeLE_allocWrapper _ _)
                (storeLE_trans (storeLE_setCache_entry _ (by assumption) (by assumption))
                  (ih _ _ _)))
          | exact storeLE_trans (storeLE_ensureDictChildren (by assumption))
              (storeLE_trans (storeLE_allocWrapper _ _) (ih _ _ _))

end RMT

namespace RMT

theorem ensureChildrenStructure_astRoots (s : Store) (w : WId) :
    (ensureChildrenStructure s w).astRoots = s.astRoots := by
  unfold ensureChildrenStructure
  repeat' (first | split | split_ifs)
  all_goals first
    | rfl
    | rw [setChildren_astRoots, allocCache_astRoots]

theorem makeWrapperFor_astRoots (s : Store) (parentW : WId) (v : WVal) :
    (makeWrapperFor s parentW v).2.astRoots = s.astRoots := by
  unfold makeWrapperFor
  repeat' (first | split | (dsimp only; split) | split_ifs)
  all_goals rfl

theorem ensureListChildren_astRoots (s : Store) (w : WId) (wr : Wrapper) (n : Nat) :
    (s.ensureListChildren w wr n).2.astRoots = s.astRoots := by
  unfold Store.ensureListChildren
  split
  · rfl
  · rw [setChildren_astRoots, allocCache_astRoots]

theorem ensureDictChildren_astRoots (s : Store) (w : WId) (wr : Wrapper) :
    (s.ensureDictChildren w wr).2.astRoots = s.astRoots := by
  unfold Store.ensureDictChildren
  split
  · rfl
  · rw [setChildren_astRoots, allocCache_astRoots]

theorem resolveRoleInListRecursive_astRoots (s : Store) (tw : WId) (ril : String)
    (prevData : Option WId) :
    (resolveRoleInListRecursive s tw ril prevData).2.astRoots = s.astRoots := by
  unfold resolveRoleInListRecursive
  repeat' (first | split | (dsimp only; split) | split_ifs)
  all_goals try dsimp only
  all_goals simp only [setCache_astRoots, allocWrapper_astRoots, setChildren_astRoots,
    allocCache_astRoots]

theorem resolveRoleInListOn_astRoots (s : Store) (base : WId) (prop : Option String)
    (ril : String) (prevData : Option WId) :
    (resolveRoleInListOn s base prop ril prevData).2.astRoots = s.astRoots := by
  unfold resolveRoleInListOn
  repeat' (first | split | (dsimp only; split) | split_ifs)
  all_goals try dsimp only
  all_goals simp only [resolveRoleInListRecursive_astRoots, setCache_astRoots,
    allocWrapper_astRoots, setChildren_astRoots, allocCache_astRoots]

theorem resolvePropertyOn_astRoots (s : Store) (base : WId) (prop : String) :
    (resolvePropertyOn s base prop).2.astRoots = s.astRoots := by
  unfold resolvePropertyOn
  repeat' (first | split | (dsimp only; split) | split_ifs)
  all_goals try dsimp only
  all_goals simp only [setCache_astRoots, allocWrapper_astRoots, setChildren_astRoots,
    allocCache_astRoots]

theorem resolveSimple_astRoots (s : Store) (selfW : WId) (role : Option String) :
    (resolveSimple s selfW role).2.astRoots = s.astRoots := by
  unfold resolveSimple
  repeat' (first | split | (dsimp only; split) | split_ifs)
  all_goals try dsimp only
  all_goals simp only [setCache_astRoots, makeWrapperFor_astRoots,
    ensureChildrenStructure_astRoots]

theorem resolvePathOnly_astRoots (s : Store) (w : WId) (pp : String) (prevData : Option WId) :
    (resolvePathOnly s w pp prevData).2.astRoots = s.astRoots := by
  unfold resolvePathOnly
  dsimp only
  split
  · rfl
  · exact (pathRec_storeLE _ s (some w) prevData).1

theorem resolve_astRoots (s : Store) (selfW : WId) (role : Option String)
    (ident : Option Ident) (prev : Option WId) :
    (resolve s selfW role ident prev).2.astRoots = s.astRoots := by
  unfold resolve
  repeat' (first | split | (dsimp only; split) | split_ifs)
  all_goals try dsimp only
  all_goals simp only [resolveSimple_astRoots, resolvePathOnly_astRoots,
    resolveRoleInListOn_astRoots, resolvePropertyOn_astRoots]

/-- C10: confirmed.  `ASTNodeWrapper.get` (the entry point of every
path-resolution and identification operation, for every role, identification
dict, and previous wrapper) never mutates the underlying raw AST: the store's
`astRoots` — the caller's `ast_node` dicts and lists — are returned unchanged,
so every write performed during resolution lands in wrapper-level state
(children caches and parent back-references) only. -/
theorem C10_resolution_never_mutates_raw_ast : ∀ (s : Store) (selfW : WId)
    (role : Option String) (ident : Option Ident) (prev : Option WId),
    ((wrapperGet s selfW role ident prev).2).astRoots = s.astRoots := by
  intro s selfW role ident prev
  unfold wrapperGet
  rw [resolve_astRoots]

end RMT

namespace RMT

/-- Two-call `role_in_list` scenario: the wrapper's `ast_node` is
`\x7b"P": [], "Q": ["x"]\x7d`.  The first `first_in_list` resolution targets the
empty list `P` and leaves the wrapper's children cache as the empty list
`[None] * 0`; the second targets the non-empty list `Q`, reuses the stale
(aliased, still empty) children list as the temporary wrapper's children, and
`target_wrapper.children[0]` raises IndexError. -/
def c2Ast : Ast := .obj [("P", .arr []), ("Q", .arr [.str "x"])]

def c2Store : Store :=
  { astRoots := [c2Ast]
    wrappers := [{ astv := .astRef ⟨0, []⟩, parent := none, children := none }]
    caches := [] }

def c2Ident1 : Ident := { property := some "P", role_in_list := some "first_in_list" }

def c2Ident2 : Ident := { property := some "Q", role_in_list := some "first_in_list" }

/-- C2: refuted on the code (code_bug).  Path resolution does NOT always
return a wrapper or absent: on the store `c2Store` the first
`ASTNodeWrapper.get` call (identification `role_in_list: first_in_list`,
`property: "P"`, an empty list) returns absent, but the second call
(`property: "Q"`, a non-empty list) raises IndexError, because
`resolve` keeps the stale empty children list created by the first call
(`base.children` is already a list, so it is not re-sized) and
`resolve_role_in_list_recursive` subscripts `children[0]` on it. -/
theorem C2_resolution_raises_indexerror :
    (wrapperGet c2Store 0 (some "r") (some c2Ident1) none).1 = .ok none ∧
    (wrapperGet (wrapperGet c2Store 0 (some "r") (some c2Ident1) none).2 0 (some "r")
        (some c2Ident2) none).1 = .exn "IndexError" :=
  ⟨rfl, rfl⟩

end RMT

namespace RMT

theorem ensureListChildren_of_some {s : Store} {w : WId} {wr : Wrapper} {c : CacheId}
    (h : wr.children = some c) (n : Nat) : s.ensureListChildren w wr n = (c, s) := by
  unfold Store.ensureListChildren
  rw [h]

theorem ensureListChildren_of_none {s : Store} {w : WId} {wr : Wrapper}
    (h : wr.children = none) (n : Nat) :
    s.ensureListChildren w wr n
      = ((s.allocCache (.clist (List.replicate n none))).1,
         (s.allocCache (.clist (List.replicate n none))).2.setChildren w
           (s.allocCache (.clist (List.replicate n none))).1) := by
  unfold Store.ensureListChildren
  rw [h]

theorem ensureDictChildren_of_some {s : Store} {w : WId} {wr : Wrapper} {c : CacheId}
    (h : wr.children = some c) : s.ensureDictChildren w wr = (c, s) := by
  unfold Store.ensureDictChildren
  rw [h]

theorem ensureDictChildren_of_none {s : Store} {w : WId} {wr : Wrapper}
    (h : wr.children = none) :
    s.ensureDictChildren w wr
      = ((s.allocCache (.cdict [])).1,
         (s.allocCache (.cdict [])).2.setChildren w (s.allocCache (.cdict [])).1) := by
  unfold Store.ensureDictChildren
  rw [h]

theorem storeLE_wrapper {s s' : Store} (h : StoreLE s s') {w : WId} {wr : Wrapper}
    (hw : s.getWrapper w = some wr) :
    ∃ wr', s'.getWrapper w = some wr' ∧ wr'.astv = wr.astv ∧ wr'.parent = wr.parent ∧
      (wr'.children = wr.children ∨ wr.children = none) :=
  h.2.2.2.1 w wr hw

theorem storeLE_wrapper_children {s s' : Store} (h : StoreLE s s') {w : WId} {wr : Wrapper}
    {c : CacheId} (hw : s.getWrapper w = some wr) (hc : wr.children = some c) :
    ∃ wr', s'.getWrapper w = some wr' ∧ wr'.astv = wr.astv ∧ wr'.parent = wr.parent ∧
      wr'.children = some c := by
  obtain ⟨wr', h1, h2, h3, h4⟩ := storeLE_wrapper h hw
  rcases h4 with h4 | h4
  · exact ⟨wr', h1, h2, h3, h4.trans hc⟩
  · rw [h4] at hc; exact absurd hc (by simp)

theorem storeLE_cdict_entry {s s' : Store} (h : StoreLE s s') {c : CacheId}
    {entries : List (String × Option WId)} {k : String} {w : WId}
    (hc : s.getCache c = some (.cdict entries))
    (hk : lookupEntry entries k = some (some w)) :
    ∃ entries', s'.getCache c = some (.cdict entries')
      ∧ lookupEntry entries' k = some (some w) := by
  obtain ⟨cc', h1, h2⟩ := h.2.2.2.2 c _ hc
  cases cc' with
  | cdict entries' => exact ⟨entries', h1, h2 k w hk⟩
  | clist _ => exact absurd h2 (by simp [cacheLE])

theorem storeLE_clist_len {s s' : Store} (h : StoreLE s s') {c : CacheId}
    {slots : List (Option WId)} (hc : s.getCache c = some (.clist slots)) :
    ∃ slots', s'.getCache c = some (.clist slots') ∧ slots'.length = slots.length ∧
      (∀ i w, slots.get? i = some (some w) → slots'.get? i = some (some w)) := by
  obtain ⟨cc', h1, h2⟩ := h.2.2.2.2 c _ hc
  cases cc' with
  | cdict _ => exact absurd h2 (by simp [cacheLE])
  | clist slots' => exact ⟨slots', h1, h2.1, h2.2⟩

/-- The shape invariant of a store whose wrappers all wrap raw AST subtrees:
every wrapper's `ast_node` is a raw-AST reference, and an initialized
children cache of a dict-shaped wrapper is a dict cache (the shapes
`ensure_children_structure` and the path resolver itself create). -/
def AstBacked (s : Store) : Prop :=
  ∀ w wr, s.getWrapper w = some wr →
    (∃ l, wr.astv = .astRef l) ∧
    (∀ c, wr.children = some c →
      s.isDictVal wr.astv = true → ∃ e, s.getCache c = some (.cdict e))

theorem isDictVal_of_obj {s : Store} {l : AstLoc} {fields : List (String × Ast)}
    (h : s.readAst l = some (.obj fields)) : s.isDictVal (.astRef l) = true := by
  simp only [Store.isDictVal, h]

theorem isDictVal_of_arr {s : Store} {l : AstLoc} {items : List Ast}
    (h : s.readAst l = some (.arr items)) : s.isDictVal (.astRef l) = false := by
  simp only [Store.isDictVal, h]

theorem isDictVal_astRef_congr {s s' : Store} (h : s'.astRoots = s.astRoots) (l : AstLoc) :
    s'.isDictVal (.astRef l) = s.isDictVal (.astRef l) := by
  simp only [Store.isDictVal, readAst_congr h]

theorem astBacked_allocWrapper {s : Store} (h : AstBacked s) (l : AstLoc) (p : Option WId) :
    AstBacked (s.allocWrapper { astv := .astRef l, parent := p, children := none }).2 := by
  intro w wr hw
  by_cases hlt : w < s.wrappers.length
  · rw [allocWrapper_getWrapper_lt s _ hlt] at hw
    obtain ⟨h1, h2⟩ := h w wr hw
    refine ⟨h1, ?_⟩
    intro c hc hd
    obtain ⟨lw, hlw⟩ := h1
    rw [hlw] at hd
    rw [isDictVal_astRef_congr (allocWrapper_astRoots s _) lw] at hd
    obtain ⟨e, he⟩ := h2 c hc (by rw [hlw]; exact hd)
    exact ⟨e, by rw [getCache_congr (allocWrapper_caches s _) c]; exact he⟩
  · have hw' : wr = { astv := .astRef l, parent := p, children := none } := by
      have : w = s.wrappers.length := by
        have hlt2 := getWrapper_lt hw
        unfold WIdOk at hlt2
        rw [allocWrapper_wrappers_length] at hlt2
        exact Nat.le_antisymm (Nat.lt_succ_iff.mp hlt2) (Nat.not_lt.mp hlt)
      rw [this] at hw
      rw [show s.wrappers.length = (s.allocWrapper { astv := WVal.astRef l, parent := p, children := none }).1 from rfl, allocWrapper_getWrapper_self] at hw
      exact (Option.some.inj hw).symm
    subst hw'
    exact ⟨⟨l, rfl⟩, fun c hc => absurd hc (by simp)⟩

theorem astBacked_setCache_clist {s : Store} (h : AstBacked s) {c : CacheId}
    {slots : List (Option WId)} (hc : s.getCache c = some (.clist slots))
    (slots' : List (Option WId)) : AstBacked (s.setCache c (.clist slots')) := by
  intro w wr hw
  have hw0 : s.getWrapper w = some wr := hw
  obtain ⟨h1, h2⟩ := h w wr hw0
  refine ⟨h1, ?_⟩
  intro c0 hc0 hd
  obtain ⟨lw, hlw⟩ := h1
  rw [hlw] at hd
  rw [isDictVal_astRef_congr (setCache_astRoots s c _) lw] at hd
  obtain ⟨e, he⟩ := h2 c0 hc0 (by rw [hlw]; exact hd)
  by_cases hce : c0 = c
  · subst hce
    rw [hc] at he
    exact absurd (Option.some.inj he) (by simp)
  · exact ⟨e, by rw [setCache_getCache_ne s _ hce]; exact he⟩

theorem astBacked_setCache_cdict {s : Store} (h : AstBacked s) {c : CacheId}
    {entries : List (String × Option WId)} (hc : s.getCache c = some (.cdict entries))
    (entries' : List (String × Option WId)) : AstBacked (s.setCache c (.cdict entries')) := by
  intro w wr hw
  have hw0 : s.getWrapper w = some wr := hw
  obtain ⟨h1, h2⟩ := h w wr hw0
  refine ⟨h1, ?_⟩
  intro c0 hc0 hd
  obtain ⟨lw, hlw⟩ := h1
  rw [hlw] at hd
  rw [isDictVal_astRef_congr (setCache_astRoots s c _) lw] at hd
  by_cases hce : c0 = c
  · subst hce
    exact ⟨entries', setCache_getCache_self s _ (getCache_lt hc)⟩
  · obtain ⟨e, he⟩ := h2 c0 hc0 (by rw [hlw]; exact hd)
    exact ⟨e, by rw [setCache_getCache_ne s _ hce]; exact he⟩

end RMT

namespace RMT

theorem isListVal_astRef_arr {s : Store} {l : AstLoc} (h : s.isListVal (.astRef l) = true) :
    ∃ items, s.readAst l = some (.arr items) := by
  simp only [Store.isListVal] at h
  cases hr : s.readAst l with
  | none => rw [hr] at h; exact absurd h (by simp)
  | some a =>
    cases a with
    | arr items => exact ⟨items, rfl⟩
    | obj _ => rw [hr] at h; exact absurd h (by simp)
    | str _ => rw [hr] at h; exact absurd h (by simp)
    | num _ => rw [hr] at h; exact absurd h (by simp)
    | boolV _ => rw [hr] at h; exact absurd h (by simp)
    | null => rw [hr] at h; exact absurd h (by simp)

theorem astBacked_ensureListChildren {s : Store} (h : AstBacked s) {w : WId} {wr : Wrapper}
    (hw : s.getWrapper w = some wr) (hl : s.isListVal wr.astv = true) (n : Nat) :
    AstBacked (s.ensureListChildren w wr n).2 := by
  cases hch : wr.children with
  | some c =>
    rw [ensureListChildren_of_some hch]
    exact h
  | none =>
    rw [ensureListChildren_of_none hch]
    intro w0 wr0 hw0
    have hro : ((s.allocCache (Cache.clist (List.replicate n none))).2.setChildren w
        (s.allocCache (Cache.clist (List.replicate n none))).1).astRoots = s.astRoots := by
      rw [setChildren_astRoots, allocCache_astRoots]
    have hca : ∀ c0 : CacheId, c0 < s.caches.length →
        ((s.allocCache (Cache.clist (List.replicate n none))).2.setChildren w
          (s.allocCache (Cache.clist (List.replicate n none))).1).getCache c0
          = s.getCache c0 := by
      intro c0 hc0
      rw [getCache_congr (setChildren_caches _ _ _) c0, allocCache_getCache_lt s _ hc0]
    by_cases hww : w0 = w
    · subst hww
      have hw1 : (s.allocCache (Cache.clist (List.replicate n none))).2.getWrapper w0
          = some wr := hw
      rw [setChildren_getWrapper_self _ hw1 _] at hw0
      have hwr0 : wr0 = { wr with
          children := some (s.allocCache (Cache.clist (List.replicate n none))).1 } :=
        (Option.some.inj hw0).symm
      subst hwr0
      obtain ⟨⟨lw, hlw⟩, _⟩ := h w0 wr hw
      refine ⟨⟨lw, hlw⟩, ?_⟩
      intro c0 hc0 hd
      rw [show ({ wr with
          children := some (s.allocCache (Cache.clist (List.replicate n none))).1 }
            : Wrapper).astv = wr.astv from rfl, hlw] at hd
      rw [isDictVal_astRef_congr hro lw] at hd
      rw [hlw] at hl
      obtain ⟨items, hitems⟩ := isListVal_astRef_arr hl
      rw [isDictVal_of_arr hitems] at hd
      exact absurd hd (by simp)
    · have hw2 : s.getWrapper w0 = some wr0 := by
        rw [setChildren_getWrapper_ne _ _ hww] at hw0
        exact hw0
      obtain ⟨⟨lw, hlw⟩, h2⟩ := h w0 wr0 hw2
      refine ⟨⟨lw, hlw⟩, ?_⟩
      intro c0 hc0 hd
      rw [hlw] at hd
      rw [isDictVal_astRef_congr hro lw] at hd
      obtain ⟨e, he⟩ := h2 c0 hc0 (by rw [hlw]; exact hd)
      exact ⟨e, by rw [hca c0 (getCache_lt he)]; exact he⟩

theorem astBacked_ensureDictChildren {s : Store} (h : AstBacked s) {w : WId} {wr : Wrapper}
    (hw : s.getWrapper w = some wr) : AstBacked (s.ensureDictChildren w wr).2 := by
  cases hch : wr.children with
  | some c =>
    rw [ensureDictChildren_of_some hch]
    exact h
  | none =>
    rw [ensureDictChildren_of_none hch]
    intro w0 wr0 hw0
    have hro : ((s.allocCache (Cache.cdict [])).2.setChildren w
        (s.allocCache (Cache.cdict [])).1).astRoots = s.astRoots := by
      rw [setChildren_astRoots, allocCache_astRoots]
    have hca : ∀ c0 : CacheId, c0 < s.caches.length →
        ((s.allocCache (Cache.cdict [])).2.setChildren w
          (s.allocCache (Cache.cdict [])).1).getCache c0 = s.getCache c0 := by
      intro c0 hc0
      rw [getCache_congr (setChildren_caches _ _ _) c0, allocCache_getCache_lt s _ hc0]
    by_cases hww : w0 = w
    · subst hww
      have hw1 : (s.allocCache (Cache.cdict [])).2.getWrapper w0 = some wr := hw
      rw [setChildren_getWrapper_self _ hw1 _] at hw0
      have hwr0 : wr0 = { wr with children := some (s.allocCache (Cache.cdict [])).1 } :=
        (Option.some.inj hw0).symm
      subst hwr0
      obtain ⟨⟨lw, hlw⟩, _⟩ := h w0 wr hw
      refine ⟨⟨lw, hlw⟩, ?_⟩
      intro c0 hc0 hd
      have hc0' : c0 = (s.allocCache (Cache.cdict [])).1 := (Option.some.inj hc0).symm
      subst hc0'
      refine ⟨[], ?_⟩
      rw [getCache_congr (setChildren_caches _ _ _) _, allocCache_getCache_self]
    · have hw2 : s.getWrapper w0 = some wr0 := by
        rw [setChildren_getWrapper_ne _ _ hww] at hw0
        exact hw0
      obtain ⟨⟨lw, hlw⟩, h2⟩ := h w0 wr0 hw2
      refine ⟨⟨lw, hlw⟩, ?_⟩
      intro c0 hc0 hd
      rw [hlw] at hd
      rw [isDictVal_astRef_congr hro lw] at hd
      obtain ⟨e, he⟩ := h2 c0 hc0 (by rw [hlw]; exact hd)
      exact ⟨e, by rw [hca c0 (getCache_lt he)]; exact he⟩

end RMT

namespace RMT

theorem isListVal_astRef_congr {s s' : Store} (h : s'.astRoots = s.astRoots) (l : AstLoc) :
    s'.isListVal (.astRef l) = s.isListVal (.astRef l) := by
  simp only [Store.isListVal, readAst_congr h]

theorem pyLen_astRef_congr {s s' : Store} (h : s'.astRoots = s.astRoots) (l : AstLoc) :
    s'.pyLen (.astRef l) = s.pyLen (.astRef l) := by
  simp only [Store.pyLen, readAst_congr h]

theorem replicate_get?_none {n i : Nat} (h : i < n) :
    (List.replicate n (none : Option WId)).get? i = some none := by
  induction n generalizing i with
  | zero => exact absurd h (by simp)
  | succ n ih =>
    cases i with
    | zero => rfl
    | succ j => exact ih (Nat.lt_of_succ_lt_succ h)

theorem ensListFresh_getCache (s : Store) (w : WId) (n : Nat) :
    ((s.allocCache (.clist (List.replicate n none))).2.setChildren w
        (s.allocCache (.clist (List.replicate n none))).1).getCache
      (s.allocCache (.clist (List.replicate n none))).1
      = some (.clist (List.replicate n none)) := by
  rw [getCache_congr (setChildren_caches _ _ _) _, allocCache_getCache_self]

theorem ensDictFresh_getCache (s : Store) (w : WId) :
    ((s.allocCache (.cdict [])).2.setChildren w (s.allocCache (.cdict [])).1).getCache
      (s.allocCache (.cdict [])).1 = some (.cdict []) := by
  rw [getCache_congr (setChildren_caches _ _ _) _, allocCache_getCache_self]

/-- A name component whose dict lookup hits the children cache is a pure
step: resolution continues from the cached wrapper in the same store. -/
theorem pathRec_key_hit {s : Store} {cur : WId} {curW : Wrapper} {comp : List Char}
    {rest : List (List Char)} {prev : Option WId} {l : AstLoc} {fields : List (String × Ast)}
    {c : CacheId} {entries : List (String × Option WId)} {w : WId}
    (hW : s.getWrapper cur = some curW)
    (h1 : ¬comp = ['^']) (h2 : ¬comp = "[next]".data)
    (h3 : ¬(((comp.head? == some '[') && (comp.getLast? == some ']')) = true))
    (hav : curW.astv = .astRef l) (hra : s.readAst l = some (.obj fields))
    (hch : curW.children = some c) (hcc : s.getCache c = some (.cdict entries))
    (hlk : lookupEntry entries (String.mk comp) = some (some w)) :
    resolvePropertyPathRecursive s (some cur) (comp :: rest) prev
      = resolvePropertyPathRecursive s (some w) rest prev := by
  simp only [resolvePropertyPathRecursive, hW]
  rw [if_neg h1, if_neg h2, if_neg h3, hav]
  try dsimp only
  rw [hra]
  try dsimp only
  rw [ensureDictChildren_of_some hch]
  try dsimp only
  rw [hcc]
  try dsimp only
  rw [hlk]

/-- An in-range `[N]` component whose slot is cached is a pure step:
resolution continues from the cached wrapper in the same store. -/
theorem pathRec_idx_hit {s : Store} {cur : WId} {curW : Wrapper} {comp : List Char}
    {rest : List (List Char)} {prev : Option WId} {n : Nat}
    {c : CacheId} {slots : List (Option WId)} {w : WId}
    (hW : s.getWrapper cur = some curW)
    (h1 : ¬comp = ['^']) (h2 : ¬comp = "[next]".data)
    (h3 : (((comp.head? == some '[') && (comp.getLast? == some ']')) = true))
    (hdg : pyIsDigit (trimChars ((comp.drop 1).dropLast)) = true)
    (hlv : s.isListVal curW.astv = true)
    (hpl : s.pyLen curW.astv = some n)
    (hin : digitsToNat (trimChars ((comp.drop 1).dropLast)) < n)
    (hch : curW.children = some c)
    (hcc : s.getCache c = some (.clist slots))
    (hslot : slots.get? (digitsToNat (trimChars ((comp.drop 1).dropLast))) = some (some w)) :
    resolvePropertyPathRecursive s (some cur) (comp :: rest) prev
      = resolvePropertyPathRecursive s (some w) rest prev := by
  simp only [resolvePropertyPathRecursive, hW]
  rw [if_neg h1, if_neg h2, if_pos h3]
  try dsimp only
  rw [if_pos hdg, if_pos hlv, hpl]
  try dsimp only
  rw [if_pos hin, ensureListChildren_of_some hch]
  try dsimp only
  rw [hcc]
  try dsimp only
  rw [hslot]

end RMT

namespace RMT

theorem pathRec_stable : ∀ (comps : List (List Char)),
    (∀ comp ∈ comps, ¬comp = ['^'] ∧ ¬comp = "[next]".data) →
    ∀ (s : Store) (cur : WId) (prev prev2 : Option WId) (r : WId) (s1 : Store),
    AstBacked s →
    resolvePropertyPathRecursive s (some cur) comps prev = (.ok (some r), s1) →
    ∀ s2 : Store, StoreLE s1 s2 →
    (resolvePropertyPathRecursive s2 (some cur) comps prev2).1 = .ok (some r) := by
  intro comps
  induction comps with
  | nil =>
    intro _ s cur prev prev2 r s1 hAB h1 s2 hLE
    simp only [resolvePropertyPathRecursive] at h1 ⊢
    rw [Prod.ext_iff] at h1
    obtain ⟨hres, _⟩ := h1
    exact hres
  | cons comp rest ih =>
    intro hnr s cur prev prev2 r s1 hAB h1 s2 hLE
    have hnr1 := hnr comp (by simp)
    have hnrR : ∀ c ∈ rest, ¬c = ['^'] ∧ ¬c = "[next]".data :=
      fun c hc => hnr c (by simp [hc])
    cases hW : s.getWrapper cur with
    | none =>
      simp only [resolvePropertyPathRecursive, hW] at h1
      exact absurd h1 (by simp)
    | some curW =>
      simp only [resolvePropertyPathRecursive, hW] at h1
      rw [if_neg hnr1.1, if_neg hnr1.2] at h1
      obtain ⟨l, hl⟩ := (hAB cur curW hW).1
      by_cases hbr : ((comp.head? == some '[') && (comp.getLast? == some ']')) = true
      · -- [N] branch
        rw [if_pos hbr] at h1
        try dsimp only at h1
        by_cases hdg : pyIsDigit (trimChars ((comp.drop 1).dropLast)) = true
        · rw [if_pos hdg] at h1
          try dsimp only at h1
          by_cases hlv : s.isListVal curW.astv = true
          · rw [if_pos hlv] at h1
            cases hpl : s.pyLen curW.astv with
            | none => rw [hpl] at h1; exact absurd h1 (by simp)
            | some n =>
              rw [hpl] at h1
              try dsimp only at h1
              by_cases hin : digitsToNat (trimChars ((comp.drop 1).dropLast)) < n
              · rw [if_pos hin] at h1
                have hlv' := hlv
                rw [hl] at hlv'
                obtain ⟨items, hitems⟩ := isListVal_astRef_arr hlv'
                have hpl' := hpl
                rw [hl] at hpl'
                have hn : items.length = n := by
                  simp only [Store.pyLen, hitems] at hpl'
                  exact Option.some.inj hpl'
                cases hch : curW.children with
                | some c =>
                  rw [ensureListChildren_of_some hch] at h1
                  try dsimp only at h1
                  cases hcc : s.getCache c with
                  | none => rw [hcc] at h1; exact absurd h1 (by simp)
                  | some cc =>
                    cases cc with
                    | cdict _ => rw [hcc] at h1; exact absurd h1 (by simp)
                    | clist slots =>
                      rw [hcc] at h1
                      try dsimp only at h1
                      cases hslot :
                          slots.get? (digitsToNat (trimChars ((comp.drop 1).dropLast))) with
                      | none => rw [hslot] at h1; exact absurd h1 (by simp)
                      | some o =>
                        cases o with
                        | some w =>
                          rw [hslot] at h1
                          try dsimp only at h1
                          have hLEs1 : StoreLE s s1 := by
                            have h0 := pathRec_storeLE rest s (some w) prev
                            rw [h1] at h0
                            exact h0
                          have hLEs2 : StoreLE s s2 := storeLE_trans hLEs1 hLE
                          obtain ⟨curW2, hW2, hav2, hpar2, hch2⟩ :=
                            storeLE_wrapper_children hLEs2 hW hch
                          obtain ⟨slots2, hcc2, hlen2, hpres2⟩ := storeLE_clist_len hLEs2 hcc
                          have hroots2 : s2.astRoots = s.astRoots := hLEs2.1
                          have hlv2 : s2.isListVal curW2.astv = true := by
                            rw [hav2, hl, isListVal_astRef_congr hroots2]
                            rw [hl] at hlv
                            exact hlv
                          have hpl2 : s2.pyLen curW2.astv = some n := by
                            rw [hav2, hl, pyLen_astRef_congr hroots2]
                            rw [hl] at hpl
                            exact hpl
                          have hslot2 := hpres2 _ w hslot
                          rw [pathRec_idx_hit hW2 hnr1.1 hnr1.2 hbr hdg hlv2 hpl2 hin hch2
                            hcc2 hslot2]
                          exact ih hnrR s w prev prev2 r s1 hAB h1 s2 hLE
                        | none =>
                          rw [hslot] at h1
                          try dsimp only at h1
                          rw [hl] at h1
                          simp only [Store.elemVal, hitems] at h1
                          have hin' : digitsToNat (trimChars ((comp.drop 1).dropLast))
                              < items.length := by
                            rw [hn]
                            exact hin
                          rw [if_pos hin'] at h1
                          try dsimp only at h1
                          set nw : Wrapper := { astv := WVal.astRef (l.push (PathStep.idx (digitsToNat (trimChars ((comp.drop 1).dropLast))))), parent := some cur, children := none } with hnw
                          have hccA : (s.allocWrapper nw).2.getCache c
                              = some (Cache.clist slots) := hcc
                          have hAB2 : AstBacked ((s.allocWrapper nw).2.setCache c
                              (Cache.clist (slots.set
                                (digitsToNat (trimChars ((comp.drop 1).dropLast)))
                                (some (s.allocWrapper nw).1)))) :=
                            astBacked_setCache_clist
                              (by rw [hnw]; exact astBacked_allocWrapper hAB _ (some cur))
                              hccA _
                          have hLEW : StoreLE s ((s.allocWrapper nw).2.setCache c
                              (Cache.clist (slots.set
                                (digitsToNat (trimChars ((comp.drop 1).dropLast)))
                                (some (s.allocWrapper nw).1)))) :=
                            storeLE_trans (storeLE_allocWrapper s nw)
                              (storeLE_setCache_slot _ hccA hslot)
                          have hLEs1 : StoreLE ((s.allocWrapper nw).2.setCache c
                              (Cache.clist (slots.set
                                (digitsToNat (trimChars ((comp.drop 1).dropLast)))
                                (some (s.allocWrapper nw).1)))) s1 := by
                            have h0 := pathRec_storeLE rest
                              ((s.allocWrapper nw).2.setCache c
                                (Cache.clist (slots.set
                                  (digitsToNat (trimChars ((comp.drop 1).dropLast)))
                                  (some (s.allocWrapper nw).1))))
                              (some (s.allocWrapper nw).1) prev
                            rw [h1] at h0
                            exact h0
                          have hLEs2' := storeLE_trans hLEs1 hLE
                          have hLEs2 : StoreLE s s2 := storeLE_trans hLEW hLEs2'
                          obtain ⟨curW2, hW2, hav2, hpar2, hch2⟩ :=
                            storeLE_wrapper_children hLEs2 hW hch
                          have hroots2 : s2.astRoots = s.astRoots := hLEs2.1
                          have hlv2 : s2.isListVal curW2.astv = true := by
                            rw [hav2, hl, isListVal_astRef_congr hroots2]
                            rw [hl] at hlv
                            exact hlv
                          have hpl2 : s2.pyLen curW2.astv = some n := by
                            rw [hav2, hl, pyLen_astRef_congr hroots2]
                            rw [hl] at hpl
                            exact hpl
                          have hidxlt : digitsToNat (trimChars ((comp.drop 1).dropLast))
                              < slots.length := (List.get?_eq_some.mp hslot).1
                          have hccW := setCache_getCache_self (s.allocWrapper nw).2
                            (Cache.clist (slots.set
                              (digitsToNat (trimChars ((comp.drop 1).dropLast)))
                              (some (s.allocWrapper nw).1)))
                            (getCache_lt hccA)
                          have hslW : (slots.set
                              (digitsToNat (trimChars ((comp.drop 1).dropLast)))
                              (some (s.allocWrapper nw).1)).get?
                                (digitsToNat (trimChars ((comp.drop 1).dropLast)))
                              = some (some (s.allocWrapper nw).1) :=
                            List.get?_set_eq_of_lt _ hidxlt
                          obtain ⟨slots2, hcc2, hlen2, hpres2⟩ :=
                            storeLE_clist_len hLEs2' hccW
                          have hslot2 := hpres2 _ _ hslW
                          rw [pathRec_idx_hit hW2 hnr1.1 hnr1.2 hbr hdg hlv2 hpl2 hin hch2
                            hcc2 hslot2]
                          exact ih hnrR _ _ prev prev2 r s1 hAB2 h1 s2 hLE
                | none =>
                  rw [ensureListChildren_of_none hch] at h1
                  try dsimp only at h1
                  rw [ensListFresh_getCache] at h1
                  try dsimp only at h1
                  rw [replicate_get?_none hin] at h1
                  try dsimp only at h1
                  rw [hl] at h1
                  simp only [Store.elemVal] at h1
                  have hroE : ((s.allocCache (Cache.clist (List.replicate n none))).2.setChildren cur (s.allocCache (Cache.clist (List.replicate n none))).1).astRoots = s.astRoots := by
                    rw [setChildren_astRoots, allocCache_astRoots]
                  rw [readAst_congr hroE, hitems] at h1
                  try dsimp only at h1
                  have hin' : digitsToNat (trimChars ((comp.drop 1).dropLast))
                      < items.length := by
                    rw [hn]
                    exact hin
                  rw [if_pos hin'] at h1
                  try dsimp only at h1
                  set cid := (s.allocCache (Cache.clist (List.replicate n none))).1 with hcid
                  set sE := (s.allocCache (Cache.clist (List.replicate n none))).2.setChildren cur (s.allocCache (Cache.clist (List.replicate n none))).1 with hsE
                  set nw : Wrapper := { astv := WVal.astRef (l.push (PathStep.idx (digitsToNat (trimChars ((comp.drop 1).dropLast))))), parent := some cur, children := none } with hnw
                  have hABE : AstBacked sE := by
                    have hh := astBacked_ensureListChildren hAB hW hlv n
                    rw [ensureListChildren_of_none hch] at hh
                    exact hh
                  have hccE : sE.getCache cid = some (Cache.clist (List.replicate n none)) :=
                    ensListFresh_getCache s cur n
                  have hccA : (sE.allocWrapper nw).2.getCache cid
                      = some (Cache.clist (List.replicate n none)) := hccE
                  have hAB2 : AstBacked ((sE.allocWrapper nw).2.setCache cid
                      (Cache.clist ((List.replicate n none).set
                        (digitsToNat (trimChars ((comp.drop 1).dropLast)))
                        (some (sE.allocWrapper nw).1)))) :=
                    astBacked_setCache_clist
                      (by rw [hnw]; exact astBacked_allocWrapper hABE _ (some cur))
                      hccA _
                  have hLEE : StoreLE s sE := by
                    have hh := storeLE_ensureListChildren n hW
                    rw [ensureListChildren_of_none hch] at hh
                    exact hh
                  have hslotE : (List.replicate n (none : Option WId)).get?
                      (digitsToNat (trimChars ((comp.drop 1).dropLast))) = some none :=
                    replicate_get?_none hin
                  have hLEW : StoreLE sE ((sE.allocWrapper nw).2.setCache cid
                      (Cache.clist ((List.replicate n none).set
                        (digitsToNat (trimChars ((comp.drop 1).dropLast)))
                        (some (sE.allocWrapper nw).1)))) :=
                    storeLE_trans (storeLE_allocWrapper sE nw)
                      (storeLE_setCache_slot _ hccA hslotE)
                  have hLEs1 : StoreLE ((sE.allocWrapper nw).2.setCache cid
                      (Cache.clist ((List.replicate n none).set
                        (digitsToNat (trimChars ((comp.drop 1).dropLast)))
                        (some (sE.allocWrapper nw).1)))) s1 := by
                    have h0 := pathRec_storeLE rest
                      ((sE.allocWrapper nw).2.setCache cid
                        (Cache.clist ((List.replicate n none).set
                          (digitsToNat (trimChars ((comp.drop 1).dropLast)))
                          (some (sE.allocWrapper nw).1))))
                      (some (sE.allocWrapper nw).1) prev
                    rw [h1] at h0
                    exact h0
                  have hLEs2' := storeLE_trans hLEs1 hLE
                  have hLEsE2 : StoreLE sE s2 := storeLE_trans hLEW hLEs2'
                  have hLEs2 : StoreLE s s2 := storeLE_trans hLEE hLEsE2
                  have hWE : sE.getWrapper cur = some { curW with children := some cid } := by
                    rw [hsE, hcid]
                    exact setChildren_getWrapper_self
                      (s.allocCache (Cache.clist (List.replicate n none))).2
                      (show (s.allocCache (Cache.clist (List.replicate n none))).2.getWrapper cur
                        = some curW from hW) _
                  obtain ⟨curW2, hW2, hav2, hpar2, hch2⟩ :=
                    storeLE_wrapper_children hLEsE2 hWE rfl
                  have hroots2 : s2.astRoots = s.astRoots := hLEs2.1
                  have hav2' : curW2.astv = curW.astv := hav2
                  have hlv2 : s2.isListVal curW2.astv = true := by
                    rw [hav2', hl, isListVal_astRef_congr hroots2]
                    rw [hl] at hlv
                    exact hlv
                  have hpl2 : s2.pyLen curW2.astv = some n := by
                    rw [hav2', hl, pyLen_astRef_congr hroots2]
                    rw [hl] at hpl
                    exact hpl
                  have hccW := setCache_getCache_self (sE.allocWrapper nw).2
                    (Cache.clist ((List.replicate n none).set
                      (digitsToNat (trimChars ((comp.drop 1).dropLast)))
                      (some (sE.allocWrapper nw).1)))
                    (getCache_lt hccA)
                  have hslW : ((List.replicate n none).set
                      (digitsToNat (trimChars ((comp.drop 1).dropLast)))
                      (some (sE.allocWrapper nw).1)).get?
                        (digitsToNat (trimChars ((comp.drop 1).dropLast)))
                      = some (some (sE.allocWrapper nw).1) :=
                    List.get?_set_eq_of_lt _ (by rw [List.length_replicate]; exact hin)
                  obtain ⟨slots2, hcc2, hlen2, hpres2⟩ := storeLE_clist_len hLEs2' hccW
                  have hslot2 := hpres2 _ _ hslW
                  rw [pathRec_idx_hit hW2 hnr1.1 hnr1.2 hbr hdg hlv2 hpl2 hin hch2
                    hcc2 hslot2]
                  exact ih hnrR _ _ prev prev2 r s1 hAB2 h1 s2 hLE
              · rw [if_neg hin] at h1; exact absurd h1 (by simp)
          · rw [if_neg hlv] at h1; exact absurd h1 (by simp)
        · rw [if_neg hdg] at h1; exact absurd h1 (by simp)
      · -- name/key branch
        rw [if_neg hbr] at h1
        try dsimp only at h1
        rw [hl] at h1
        try dsimp only at h1
        cases hra : s.readAst l with
        | none => rw [hra] at h1; exact absurd h1 (by simp)
        | some a =>
          cases a with
          | obj fields =>
            rw [hra] at h1
            try dsimp only at h1
            cases hch : curW.children with
            | some c =>
              rw [ensureDictChildren_of_some hch] at h1
              try dsimp only at h1
              cases hcc : s.getCache c with
              | none => rw [hcc] at h1; exact absurd h1 (by simp)
              | some cc =>
                cases cc with
                | clist _ =>
                  obtain ⟨e, he⟩ := (hAB cur curW hW).2 c hch
                    (by rw [hl]; exact isDictVal_of_obj hra)
                  rw [hcc] at he
                  exact absurd (Option.some.inj he) (by simp)
                | cdict entries =>
                  rw [hcc] at h1
                  try dsimp only at h1
                  cases hlk : lookupEntry entries (String.mk comp) with
                  | some o =>
                    cases o with
                    | some w =>
                      rw [hlk] at h1
                      try dsimp only at h1
                      have hLEs1 : StoreLE s s1 := by
                        have h0 := pathRec_storeLE rest s (some w) prev
                        rw [h1] at h0
                        exact h0
                      have hLEs2 : StoreLE s s2 := storeLE_trans hLEs1 hLE
                      obtain ⟨curW2, hW2, hav2, hpar2, hch2⟩ :=
                        storeLE_wrapper_children hLEs2 hW hch
                      have hroots2 : s2.astRoots = s.astRoots := hLEs2.1
                      have hra2 : s2.readAst l = some (.obj fields) := by
                        rw [readAst_congr hroots2]
                        exact hra
                      obtain ⟨entries2, hcc2, hlk2⟩ := storeLE_cdict_entry hLEs2 hcc hlk
                      rw [pathRec_key_hit hW2 hnr1.1 hnr1.2 hbr (hav2.trans hl) hra2 hch2
                        hcc2 hlk2]
                      exact ih hnrR s w prev prev2 r s1 hAB h1 s2 hLE
                    | none =>
                      rw [hlk] at h1
                      try dsimp only at h1
                      have hk : ∀ w0, lookupEntry entries (String.mk comp)
                          ≠ some (some w0) := by
                        intro w0 hx
                        rw [hlk] at hx
                        exact absurd (Option.some.inj hx) (by simp)
                      cases hlf : lookupField fields (String.mk comp) with
                      | none => rw [hlf] at h1; exact absurd h1 (by simp)
                      | some v =>
                        rw [hlf] at h1
                        cases v
                        all_goals try dsimp only at h1
                        all_goals first
                        | exact absurd h1 (by simp)
                        | (
                          set nw : Wrapper := { astv := WVal.astRef (l.push (PathStep.key (String.mk comp))), parent := some cur, children := none } with hnw
                          have hccA : (s.allocWrapper nw).2.getCache c
                              = some (Cache.cdict entries) := hcc
                          have hAB2 : AstBacked ((s.allocWrapper nw).2.setCache c
                              (Cache.cdict (setEntry entries (String.mk comp)
                                (some (s.allocWrapper nw).1)))) :=
                            astBacked_setCache_cdict
                              (by rw [hnw]; exact astBacked_allocWrapper hAB _ (some cur))
                              hccA _
                          have hLEW : StoreLE s ((s.allocWrapper nw).2.setCache c
                              (Cache.cdict (setEntry entries (String.mk comp)
                                (some (s.allocWrapper nw).1)))) :=
                            storeLE_trans (storeLE_allocWrapper s nw)
                              (storeLE_setCache_entry _ hccA hk)
                          have hLEs1 : StoreLE ((s.allocWrapper nw).2.setCache c
                              (Cache.cdict (setEntry entries (String.mk comp)
                                (some (s.allocWrapper nw).1)))) s1 := by
                            have h0 := pathRec_storeLE rest
                              ((s.allocWrapper nw).2.setCache c
                                (Cache.cdict (setEntry entries (String.mk comp)
                                  (some (s.allocWrapper nw).1))))
                              (some (s.allocWrapper nw).1) prev
                            rw [h1] at h0
                            exact h0
                          have hLEs2' := storeLE_trans hLEs1 hLE
                          have hLEs2 : StoreLE s s2 := storeLE_trans hLEW hLEs2'
                          obtain ⟨curW2, hW2, hav2, hpar2, hch2⟩ :=
                            storeLE_wrapper_children hLEs2 hW hch
                          have hroots2 : s2.astRoots = s.astRoots := hLEs2.1
                          have hra2 : s2.readAst l = some (.obj fields) := by
                            rw [readAst_congr hroots2]
                            exact hra
                          have hccW := setCache_getCache_self (s.allocWrapper nw).2
                            (Cache.cdict (setEntry entries (String.mk comp)
                              (some (s.allocWrapper nw).1)))
                            (getCache_lt hccA)
                          have hlkW := lookupEntry_setEntry_self entries (String.mk comp)
                            (some (s.allocWrapper nw).1)
                          obtain ⟨entries2, hcc2, hlk2⟩ :=
                            storeLE_cdict_entry hLEs2' hccW hlkW
                          rw [pathRec_key_hit hW2 hnr1.1 hnr1.2 hbr (hav2.trans hl) hra2
                            hch2 hcc2 hlk2]
                          exact ih hnrR _ _ prev prev2 r s1 hAB2 h1 s2 hLE
                          )
                  | none =>
                    rw [hlk] at h1
                    try dsimp only at h1
                    have hk : ∀ w0, lookupEntry entries (String.mk comp)
                        ≠ some (some w0) := by
                      intro w0 hx
                      rw [hlk] at hx
                      exact absurd hx (by simp)
                    cases hlf : lookupField fields (String.mk comp) with
                    | none => rw [hlf] at h1; exact absurd h1 (by simp)
                    | some v =>
                      rw [hlf] at h1
                      cases v
                      all_goals try dsimp only at h1
                      all_goals first
                      | exact absurd h1 (by simp)
                      | (
                        set nw : Wrapper := { astv := WVal.astRef (l.push (PathStep.key (String.mk comp))), parent := some cur, children := none } with hnw
                        have hccA : (s.allocWrapper nw).2.getCache c
                            = some (Cache.cdict entries) := hcc
                        have hAB2 : AstBacked ((s.allocWrapper nw).2.setCache c
                            (Cache.cdict (setEntry entries (String.mk comp)
                              (some (s.allocWrapper nw).1)))) :=
                          astBacked_setCache_cdict
                            (by rw [hnw]; exact astBacked_allocWrapper hAB _ (some cur))
                            hccA _
                        have hLEW : StoreLE s ((s.allocWrapper nw).2.setCache c
                            (Cache.cdict (setEntry entries (String.mk comp)
                              (some (s.allocWrapper nw).1)))) :=
                          storeLE_trans (storeLE_allocWrapper s nw)
                            (storeLE_setCache_entry _ hccA hk)
                        have hLEs1 : StoreLE ((s.allocWrapper nw).2.setCache c
                            (Cache.cdict (setEntry entries (String.mk comp)
                              (some (s.allocWrapper nw).1)))) s1 := by
                          have h0 := pathRec_storeLE rest
                            ((s.allocWrapper nw).2.setCache c
                              (Cache.cdict (setEntry entries (String.mk comp)
                                (some (s.allocWrapper nw).1))))
                            (some (s.allocWrapper nw).1) prev
                          rw [h1] at h0
                          exact h0
                        have hLEs2' := storeLE_trans hLEs1 hLE
                        have hLEs2 : StoreLE s s2 := storeLE_trans hLEW hLEs2'
                        obtain ⟨curW2, hW2, hav2, hpar2, hch2⟩ :=
                          storeLE_wrapper_children hLEs2 hW hch
                        have hroots2 : s2.astRoots = s.astRoots := hLEs2.1
                        have hra2 : s2.readAst l = some (.obj fields) := by
                          rw [readAst_congr hroots2]
                          exact hra
                        have hccW := setCache_getCache_self (s.allocWrapper nw).2
                          (Cache.cdict (setEntry entries (String.mk comp)
                            (some (s.allocWrapper nw).1)))
                          (getCache_lt hccA)
                        have hlkW := lookupEntry_setEntry_self entries (String.mk comp)
                          (some (s.allocWrapper nw).1)
                        obtain ⟨entries2, hcc2, hlk2⟩ :=
                          storeLE_cdict_entry hLEs2' hccW hlkW
                        rw [pathRec_key_hit hW2 hnr1.1 hnr1.2 hbr (hav2.trans hl) hra2
                          hch2 hcc2 hlk2]
                        exact ih hnrR _ _ prev prev2 r s1 hAB2 h1 s2 hLE
                        )
            | none =>
              rw [ensureDictChildren_of_none hch] at h1
              try dsimp only at h1
              rw [ensDictFresh_getCache] at h1
              try dsimp only at h1
              have hlkE : lookupEntry ([] : List (String × Option WId)) (String.mk comp)
                  = none := rfl
              rw [hlkE] at h1
              try dsimp only at h1
              have hk : ∀ w0, lookupEntry ([] : List (String × Option WId)) (String.mk comp)
                  ≠ some (some w0) := by
                intro w0 hx
                rw [hlkE] at hx
                exact absurd hx (by simp)
              cases hlf : lookupField fields (String.mk comp) with
              | none => rw [hlf] at h1; exact absurd h1 (by simp)
              | some v =>
                rw [hlf] at h1
                cases v
                all_goals try dsimp only at h1
                all_goals first
                | exact absurd h1 (by simp)
                | (
                  set cid := (s.allocCache (Cache.cdict [])).1 with hcid
                  set sE := (s.allocCache (Cache.cdict [])).2.setChildren cur (s.allocCache (Cache.cdict [])).1 with hsE
                  set nw : Wrapper := { astv := WVal.astRef (l.push (PathStep.key (String.mk comp))), parent := some cur, children := none } with hnw
                  have hABE : AstBacked sE := by
                    have hh := astBacked_ensureDictChildren hAB hW
                    rw [ensureDictChildren_of_none hch] at hh
                    exact hh
                  have hccE : sE.getCache cid = some (Cache.cdict []) :=
                    ensDictFresh_getCache s cur
                  have hccA : (sE.allocWrapper nw).2.getCache cid
                      = some (Cache.cdict []) := hccE
                  have hAB2 : AstBacked ((sE.allocWrapper nw).2.setCache cid
                      (Cache.cdict (setEntry [] (String.mk comp)
                        (some (sE.allocWrapper nw).1)))) :=
                    astBacked_setCache_cdict
                      (by rw [hnw]; exact astBacked_allocWrapper hABE _ (some cur))
                      hccA _
                  have hLEE : StoreLE s sE := by
                    have hh := storeLE_ensureDictChildren hW
                    rw [ensureDictChildren_of_none hch] at hh
                    exact hh
                  have hLEW : StoreLE sE ((sE.allocWrapper nw).2.setCache cid
                      (Cache.cdict (setEntry [] (String.mk comp)
                        (some (sE.allocWrapper nw).1)))) :=
                    storeLE_trans (storeLE_allocWrapper sE nw)
                      (storeLE_setCache_entry _ hccA hk)
                  have hLEs1 : StoreLE ((sE.allocWrapper nw).2.setCache cid
                      (Cache.cdict (setEntry [] (String.mk comp)
                        (some (sE.allocWrapper nw).1)))) s1 := by
                    have h0 := pathRec_storeLE rest
                      ((sE.allocWrapper nw).2.setCache cid
                        (Cache.cdict (setEntry [] (String.mk comp)
                          (some (sE.allocWrapper nw).1))))
                      (some (sE.allocWrapper nw).1) prev
                    rw [h1] at h0
                    exact h0
                  have hLEs2' := storeLE_trans hLEs1 hLE
                  have hLEsE2 : StoreLE sE s2 := storeLE_trans hLEW hLEs2'
                  have hLEs2 : StoreLE s s2 := storeLE_trans hLEE hLEsE2
                  have hWE : sE.getWrapper cur = some { curW with children := some cid } := by
                    rw [hsE, hcid]
                    exact setChildren_getWrapper_self
                      (s.allocCache (Cache.cdict [])).2
                      (show (s.allocCache (Cache.cdict [])).2.getWrapper cur
                        = some curW from hW) _
                  obtain ⟨curW2, hW2, hav2, hpar2, hch2⟩ :=
                    storeLE_wrapper_children hLEsE2 hWE rfl
                  have hroots2 : s2.astRoots = s.astRoots := hLEs2.1
                  have hav2' : curW2.astv = curW.astv := hav2
                  have hra2 : s2.readAst l = some (.obj fields) := by
                    rw [readAst_congr hroots2]
                    exact hra
                  have hccW := setCache_getCache_self (sE.allocWrapper nw).2
                    (Cache.cdict (setEntry [] (String.mk comp)
                      (some (sE.allocWrapper nw).1)))
                    (getCache_lt hccA)
                  have hlkW := lookupEntry_setEntry_self [] (String.mk comp)
                    (some (sE.allocWrapper nw).1)
                  obtain ⟨entries2, hcc2, hlk2⟩ :=
                    storeLE_cdict_entry hLEs2' hccW hlkW
                  rw [pathRec_key_hit hW2 hnr1.1 hnr1.2 hbr (hav2'.trans hl) hra2
                    hch2 hcc2 hlk2]
                  exact ih hnrR _ _ prev prev2 r s1 hAB2 h1 s2 hLE
                  )
          | arr _ => rw [hra] at h1; exact absurd h1 (by simp)
          | str _ => rw [hra] at h1; exact absurd h1 (by simp)
          | num _ => rw [hra] at h1; exact absurd h1 (by simp)
          | boolV _ => rw [hra] at h1; exact absurd h1 (by simp)
          | null => rw [hra] at h1; exact absurd h1 (by simp)

end RMT

namespace RMT

/-- `[next]` from a wrapper whose `list.index` match in its parent's
list-shaped children — the FIRST slot comparing Python-`==`-equal to it —
is index `i`: whenever the step succeeds with a wrapper, that wrapper sits
at index `i + 1` of the same parent's children cache in the resulting
store.  `i` is the current wrapper's own cached index only when no earlier
slot holds an `==`-equal sibling. -/
theorem pathRec_next_cached {s : Store} {cur par : WId} {curW parW : Wrapper} {c : CacheId}
    {slots : List (Option WId)} {i : Nat} {prev : Option WId} {r : WId} {s1 : Store}
    (hW : s.getWrapper cur = some curW) (hpar : curW.parent = some par)
    (hWp : s.getWrapper par = some parW) (hchp : parW.children = some c)
    (hcc : s.getCache c = some (.clist slots))
    (hidx : slotIndexOfWrapperEq s slots cur = some i)
    (h : resolvePropertyPathRecursive s (some cur) ["[next]".data] prev = (.ok (some r), s1)) :
    ∃ slots', s1.getCache c = some (.clist slots') ∧ slots'.get? (i + 1) = some (some r) := by
  simp only [resolvePropertyPathRecursive, hW] at h
  rw [if_neg (by decide), if_pos trivial, hpar] at h
  try dsimp only at h
  rw [hWp] at h
  try dsimp only at h
  rw [hchp] at h
  try dsimp only at h
  unfold nextSiblingStep at h
  rw [hcc] at h
  try dsimp only at h
  rw [hidx] at h
  try dsimp only at h
  by_cases hlt : i + 1 < slots.length
  · rw [if_pos hlt] at h
    cases hs2 : slots.get? (i + 1) with
    | none => rw [hs2] at h; exact absurd h (by simp [resolvePropertyPathRecursive])
    | some o =>
      cases o with
      | some w =>
        rw [hs2] at h
        try dsimp only at h
        try simp only [resolvePropertyPathRecursive] at h
        rw [Prod.mk.injEq] at h
        obtain ⟨hres, hst⟩ := h
        have hw : w = r := by
          injection hres with hres1
          exact Option.some.inj hres1
        subst hw
        exact ⟨slots, by rw [← hst]; exact hcc, hs2⟩
      | none =>
        rw [hs2] at h
        try dsimp only at h
        cases hpl : s.pyLen parW.astv with
        | none => rw [hpl] at h; exact absurd h (by simp [resolvePropertyPathRecursive])
        | some m =>
          rw [hpl] at h
          try dsimp only at h
          by_cases hguard : (s.isListVal parW.astv && decide (i + 1 < m)) = true
          · rw [if_pos hguard] at h
            cases hev : s.elemVal parW.astv (i + 1) with
            | none =>
              rw [hev] at h
              exact absurd h (by simp [resolvePropertyPathRecursive])
            | some ev =>
              rw [hev] at h
              try dsimp only at h
              try simp only [resolvePropertyPathRecursive] at h
              rw [Prod.mk.injEq] at h
              obtain ⟨hres, hst⟩ := h
              have hw : (s.allocWrapper
                  { astv := ev, parent := some par, children := none }).1 = r := by
                injection hres with hres1
                exact Option.some.inj hres1
              refine ⟨slots.set (i + 1) (some r), ?_, ?_⟩
              · rw [← hst, hw]
                exact setCache_getCache_self _ _ (getCache_lt hcc)
              · exact List.get?_set_eq_of_lt _ hlt
          · rw [if_neg hguard] at h
            exact absurd h (by simp [resolvePropertyPathRecursive])
  · rw [if_neg hlt] at h
    exact absurd h (by simp [resolvePropertyPathRecursive])

/-- C9: corrected.  (1) As claimed (with the store invariant `AstBacked` —
every wrapper wraps a raw AST subtree and initialized children caches of
dict-shaped wrappers are dict caches, the shapes the resolver itself
creates): resolving the same non-relative property path (no `^`, no `[next]`
component) a second time from the same start wrapper returns the same
wrapper object by identity, because each wrapper created by the first run is
cached on its parent under its key or index and the second run hits those
caches.  (2) Amended: `[next]` yields the wrapper stored at index `i + 1` of
the parent's list-shaped children cache, where `i` is the index
`parent.children.index(current)` returns — the FIRST slot whose cached
wrapper compares Python-`==`-equal to the current one (`list.index` matches
by `==` and `ASTNodeWrapper` equality is structural), NOT necessarily the
index the current wrapper itself is cached at: with an `==`-equal sibling
cached at an earlier slot the two differ, and the step can even return the
current wrapper itself (`C9_next_equal_sibling_counterexample`). -/
theorem C9_repeat_resolution_identity_and_next :
    (∀ (s : Store) (w : WId) (pp : String) (prev prev2 : Option WId) (r : WId) (s1 : Store),
      AstBacked s →
      (∀ comp ∈ pathComps pp, ¬comp = ['^'] ∧ ¬comp = "[next]".data) →
      resolvePathOnly s w pp prev = (.ok (some r), s1) →
      (resolvePathOnly s1 w pp prev2).1 = .ok (some r)) ∧
    (∀ (s : Store) (cur par : WId) (curW parW : Wrapper) (c : CacheId)
      (slots : List (Option WId)) (i : Nat) (prev : Option WId) (r : WId) (s1 : Store),
      s.getWrapper cur = some curW → curW.parent = some par →
      s.getWrapper par = some parW → parW.children = some c →
      s.getCache c = some (.clist slots) → slotIndexOfWrapperEq s slots cur = some i →
      resolvePropertyPathRecursive s (some cur) ["[next]".data] prev = (.ok (some r), s1) →
      ∃ slots', s1.getCache c = some (.clist slots') ∧ slots'.get? (i + 1) = some (some r)) := by
  constructor
  · intro s w pp prev prev2 r s1 hAB hnr h
    unfold resolvePathOnly at h ⊢
    try dsimp only at h ⊢
    by_cases he : (pathComps pp).isEmpty = true
    · rw [if_pos he] at h
      exact absurd h (by simp)
    · rw [if_neg he] at h ⊢
      exact pathRec_stable (pathComps pp) hnr s w prev prev2 r s1 hAB h s1 (storeLE_refl s1)
  · intro s cur par curW parW c slots i prev r s1 hW hpar hWp hchp hcc hidx h
    exact pathRec_next_cached hW hpar hWp hchp hcc hidx h

end RMT

namespace RMT

/-- Start store for the repeat-resolution witness: one wrapper over
`\x7b"a": \x7b"b": ["x", "y"]\x7d\x7d`. -/
def c9Ast : Ast := .obj [("a", .obj [("b", .arr [.str "x", .str "y"])])]

def c9Store : Store :=
  { astRoots := [c9Ast]
    wrappers := [{ astv := .astRef ⟨0, []⟩, parent := none, children := none }]
    caches := [] }

def c9Store1 : Store := (resolvePathOnly c9Store 0 "a/b" none).2

/-- Store for the `[next]` witness: wrapper 1 is cached at index 0 of the
list wrapper 0's children. -/
def c9nAst : Ast := .arr [.str "x", .str "y"]

def c9nStore : Store :=
  { astRoots := [c9nAst]
    wrappers := [{ astv := .astRef ⟨0, []⟩, parent := none, children := some 0 },
                 { astv := .astRef ⟨0, [PathStep.idx 0]⟩, parent := some 0, children := none }]
    caches := [.clist [some 1, none]] }

theorem c9Store_astBacked : AstBacked c9Store := by
  intro w wr hw
  cases w with
  | zero =>
    have hwr : wr = { astv := WVal.astRef ⟨0, []⟩, parent := none, children := none } :=
      (Option.some.inj (show some { astv := WVal.astRef ⟨0, []⟩, parent := none, children := none } = some wr from hw)).symm
    subst hwr
    exact ⟨⟨⟨0, []⟩, rfl⟩, fun c hc => absurd hc (by simp)⟩
  | succ n =>
    exfalso
    have : c9Store.getWrapper (n + 1) = none := by
      simp [Store.getWrapper, c9Store]
    rw [this] at hw
    exact absurd hw (by simp)

theorem C9_repeat_resolution_identity_and_next_witness :
    (resolvePathOnly c9Store1 0 "a/b" none).1 = .ok (some 2) ∧
    (∃ slots',
      ((resolvePropertyPathRecursive c9nStore (some 1) ["[next]".data] none).2).getCache 0
        = some (.clist slots') ∧ slots'.get? 1 = some (some 2)) := by
  constructor
  · exact C9_repeat_resolution_identity_and_next.1 c9Store 0 "a/b" none none 2 c9Store1
      c9Store_astBacked (by decide) rfl
  · exact C9_repeat_resolution_identity_and_next.2 c9nStore 1 0
      { astv := .astRef ⟨0, [PathStep.idx 0]⟩, parent := some 0, children := none }
      { astv := .astRef ⟨0, []⟩, parent := none, children := some 0 }
      0 [some 1, none] 0 none 2
      (resolvePropertyPathRecursive c9nStore (some 1) ["[next]".data] none).2
      rfl rfl rfl rfl rfl rfl rfl

/-- Store with two equal-valued cached siblings: the raw list is
`["x", "x", "y"]`, wrapper 0 is the parent, wrappers 1 and 2 wrap the two
`"x"` elements and are cached at indices 0 and 1 of the parent's children
list (index 2 is still unpopulated). -/
def c9xAst : Ast := .arr [.str "x", .str "x", .str "y"]

def c9xStore : Store :=
  { astRoots := [c9xAst]
    wrappers := [{ astv := .astRef ⟨0, []⟩, parent := none, children := some 0 },
                 { astv := .astRef ⟨0, [PathStep.idx 0]⟩, parent := some 0, children := none },
                 { astv := .astRef ⟨0, [PathStep.idx 1]⟩, parent := some 0, children := none }]
    caches := [.clist [some 1, some 2, none]] }

/-- The counterexample to the claim's literal `[next]` sentence ("a wrapper
cached at index N yields the wrapper at index N+1").  Wrapper 2 is cached
at index N = 1 of its parent's children, so the claim promises the wrapper
at index 2 (over the element `"y"`).  But `parent.children.index(current)`
matches by `==`: wrapper 1 at slot 0 is a distinct object that compares
equal to wrapper 2 (equal-valued `ast_node` `"x"`, the same parent object,
`children` both `None`), so `index` returns 0, and `[next]` returns the slot
at 0 + 1 — wrapper 2, the current wrapper itself, wrapping `"x"`, not `"y"`;
the store is unchanged (slot 2 stays unpopulated, no wrapper over `"y"` is
ever created). -/
theorem C9_next_equal_sibling_counterexample :
    ([some 1, some 2, none] : List (Option WId)).get? 1 = some (some 2) ∧
    ([some 1, some 2, none] : List (Option WId)).get? 0 ≠ some (some 2) ∧
    (1 : WId) ≠ 2 ∧
    c9xStore.wrapperPyEq 9 2 1 = true ∧
    slotIndexOfWrapperEq c9xStore [some 1, some 2, none] 2 = some 0 ∧
    resolvePropertyPathRecursive c9xStore (some 2) ["[next]".data] none
      = (.ok (some 2), c9xStore) ∧
    c9xStore.readAst ⟨0, [PathStep.idx 1]⟩ = some (.str "x") ∧
    c9xStore.readAst ⟨0, [PathStep.idx 2]⟩ = some (.str "y") :=
  ⟨rfl, by decide, by decide, by decide, by decide, rfl, rfl, rfl⟩

end RMT

namespace RMT

/-- Node identity: `Node` objects are mutable and shared between CFGs
(`merge` copies dict entries, not objects), so nodes live in a heap indexed
by `NodeId` and a CFG holds node ids.  The ids that `idgen` generates are
globally unique strings; only their identity matters, so they are modelled
as heap indices. -/
abbrev NodeId := Nat

/-- `Metadata` of `cfg.py` (the CFG-side dataclass, distinct from the
abstractions' metadata).  `wrapped_ast` holds a wrapper object (by
identity). -/
structure CMetadata where
  assumed_value : Option Bool := none
  abstract_action : Option ActionSpec := none
  abstract_transition : Option TransitionSpec := none
  wrapped_ast : Option WId := none
  primary : Option Bool := none
  is_after_last : Option Bool := none
  call_count : Nat := 0
deriving DecidableEq

/-- `Metadata.is_empty`. -/
def CMetadata.is_empty (m : CMetadata) : Bool :=
  m.assumed_value == none && m.abstract_action == none && m.abstract_transition == none &&
  m.wrapped_ast == none && m.primary == none && m.is_after_last == none && m.call_count == 0

/-- A node's / edge's `effects`: either the default empty list `[]` (falsy)
or an `Effects` dataclass instance taken from an `ActionSpec` /
`TransitionSpec` — which, being a plain object, is truthy even with every
field `None`.  Modelled as `Option Effects` with truthiness `isSome`. -/
abbrev PyEffects := Option Effects

/-- `Node` of `cfg.py` (the `cfg` back-reference, used only by `debug`, is
dropped). -/
structure CNode where
  kind : String
  role : Option String
  effects : PyEffects := none
  metadata : CMetadata := {}
deriving DecidableEq

/-- `Edge` of `cfg.py`.  The generated `id` is ignored: `compare` does not
read it, and under the no-duplicate invariant `edges.remove` is unambiguous
without it. -/
structure CEdge where
  src : NodeId
  dst : NodeId
  constraints : Option Constraints := none
  effects : PyEffects := none
  metadata : CMetadata := {}
deriving DecidableEq

/-- `Edge.compare`: equality of `(src, dst, constraints)` only. -/
def CEdge.compare (e1 e2 : CEdge) : Bool :=
  e1.src == e2.src && e1.dst == e2.dst && e1.constraints == e2.constraints

/-- The node heap. -/
abbrev NodeHeap := List CNode

/-- One CFG object: its `nodes` dict is modelled as the insertion-ordered
list of node ids (the dict's values are the heap's nodes), `edges` as the
edge list. -/
structure CfgData where
  name : String
  nodeIds : List NodeId
  edges : List CEdge
  beginId : NodeId
  endId : NodeId
deriving DecidableEq

/-- `CFG._add_edge(*other_edges)`: append each edge unless some existing
edge compares equal. -/
def CfgData.addEdge (cfg : CfgData) (es : List CEdge) : CfgData :=
  es.foldl
    (fun c e =>
      if c.edges.any (fun e2 => e.compare e2) then c
      else { c with edges := c.edges ++ [e] })
    cfg

/-- `CFG.connect(src, dst, constraints, metadata)`: extract constraints and
effects from `metadata.abstract_transition` when present (a `TransitionSpec`'s
`effects` is an always-truthy `Effects` instance, so it is always taken) and
add the edge through `_add_edge`. -/
def CfgData.connect (cfg : CfgData) (src dst : NodeId) (constraints : Option Constraints)
    (metadata : Option CMetadata) : CfgData :=
  let md := metadata.getD {}
  let fc : Option Constraints :=
    match constraints with
    | some cns => some cns
    | none =>
      match md.abstract_transition with
      | some tr => tr.constraints
      | none => none
  let fe : PyEffects :=
    match md.abstract_transition with
    | some tr => some tr.effects
    | none => none
  cfg.addEdge [{ src := src, dst := dst, constraints := fc, effects := fe, metadata := md }]

/-- Effects extraction of `add_node`: when the metadata carries an
`abstract_action`, its `effects` (an always-truthy `Effects` instance)
becomes the node's effects. -/
def nodeEffects (metadata : Option CMetadata) : PyEffects :=
  match metadata with
  | some md =>
    match md.abstract_action with
    | some a => some a.effects
    | none => none
  | none => none

/-- `CFG.add_node(kind, role, metadata)` without a subgraph: allocate one
node and register it in the CFG's nodes dict. -/
def CfgData.addNodeAtom (h : NodeHeap) (cfg : CfgData) (kind : String) (role : Option String)
    (metadata : Option CMetadata) : NodeId × NodeHeap × CfgData :=
  let nid := h.length
  let node : CNode := { kind := kind, role := role, effects := nodeEffects metadata, metadata := metadata.getD {} }
  (nid, h ++ [node], { cfg with nodeIds := cfg.nodeIds ++ [nid] })

/-- `CFG.merge(subgraph)`: `self.nodes |= subgraph.nodes` (same ids denote
the same node objects, so new keys are appended in the subgraph's order)
then `self._add_edge(*subgraph.edges)`. -/
def CfgData.merge (cfg sub : CfgData) : CfgData :=
  let merged := { cfg with
    nodeIds := cfg.nodeIds ++ sub.nodeIds.filter (fun n => !cfg.nodeIds.contains n) }
  merged.addEdge sub.edges

/-- `CFG.add_node(kind, role, metadata, subgraph)` with a subgraph: allocate
the `enter__`/`leave__` wrapper nodes, merge the subgraph in, and connect
enter → subgraph.BEGIN and subgraph.END → leave.  (The source also guards
`if subgraph is not self`; the builder always passes a distinct CFG object,
which is what is modelled.) -/
def CfgData.addNodeSub (h : NodeHeap) (cfg : CfgData) (role : Option String)
    (metadata : Option CMetadata) (sub : CfgData) :
    (NodeId × NodeId) × NodeHeap × CfgData :=
  let eff := nodeEffects metadata
  let md := metadata.getD {}
  let enterId := h.length
  let h1 := h ++ [{ kind := "enter__" ++ sub.name, role := role, effects := eff, metadata := md : CNode }]
  let leaveId := h1.length
  let h2 := h1 ++ [{ kind := "leave__" ++ sub.name, role := role, effects := eff, metadata := md : CNode }]
  let cfg1 := { cfg with nodeIds := cfg.nodeIds ++ [enterId, leaveId] }
  let cfg2 := cfg1.merge sub
  let cfg3 := cfg2.connect enterId sub.beginId none none
  let cfg4 := cfg3.connect sub.endId leaveId none none
  ((enterId, leaveId), h2, cfg4)

/-- `CFG(name)` as the repository constructs it (always without a
`construct`, so the BEGIN/END boundary nodes get default metadata):
allocate the two boundary nodes. -/
def newCfg (h : NodeHeap) (name : String) : NodeHeap × CfgData :=
  let beginId := h.length
  let h1 := h ++ [{ kind := BEGIN, role := some BEGIN : CNode }]
  let endId := h1.length
  let h2 := h1 ++ [{ kind := «END», role := some «END» : CNode }]
  (h2, { name := name, nodeIds := [beginId, endId], edges := [], beginId := beginId, endId := endId })

/-- `CFG._is_edge_insignificant`. -/
def isEdgeInsignificant (e : CEdge) : Bool :=
  e.constraints == none && !e.effects.isSome && e.metadata.is_empty

/-- `CFG._is_node_insignificant`: no effects, empty metadata, exactly one
incoming and one outgoing edge. -/
def isNodeInsignificant (h : NodeHeap) (cfg : CfgData) (nid : NodeId) : Bool :=
  match h.get? nid with
  | none => false
  | some nd =>
    !nd.effects.isSome && nd.metadata.is_empty &&
    (cfg.edges.filter (fun e => e.dst == nid)).length == 1 &&
    (cfg.edges.filter (fun e => e.src == nid)).length == 1

/-- The candidate search of one `optimize` iteration: the first node (in the
nodes dict's insertion order) that is insignificant and whose single
incoming or outgoing edge is insignificant, with those two edges. -/
def findRemovable (h : NodeHeap) (cfg : CfgData) : Option (NodeId × CEdge × CEdge) :=
  cfg.nodeIds.findSome? fun nid =>
    if isNodeInsignificant h cfg nid then
      match cfg.edges.filter (fun e => e.dst == nid),
          cfg.edges.filter (fun e => e.src == nid) with
      | ein :: _, eout :: _ =>
        if isEdgeInsignificant ein || isEdgeInsignificant eout then some (nid, ein, eout)
        else none
      | _, _ => none
    else none

/-- One removal step of `optimize`: bridge the node's single incoming and
outgoing edges with a new edge carrying the significant edge's data, remove
the two old edges and the node. -/
def optimizeStep (h : NodeHeap) (cfg : CfgData) : Option CfgData :=
  match findRemovable h cfg with
  | none => none
  | some (nid, ein, eout) =>
    let keep := if isEdgeInsignificant ein then eout else ein
    let ne : CEdge := { src := ein.src, dst := eout.dst, constraints := keep.constraints, effects := keep.effects, metadata := keep.metadata }
    let cfg1 := { cfg with edges := (cfg.edges.erase ein).erase eout }
    let cfg2 := cfg1.addEdge [ne]
    some { cfg2 with nodeIds := cfg2.nodeIds.erase nid }

theorem findRemovable_mem {h : NodeHeap} {cfg : CfgData} {nid : NodeId} {ein eout : CEdge}
    (hf : findRemovable h cfg = some (nid, ein, eout)) : nid ∈ cfg.nodeIds := by
  unfold findRemovable at hf
  obtain ⟨a, ha, hfa⟩ := List.exists_of_findSome?_eq_some hf
  by_cases hins : isNodeInsignificant h cfg a = true
  · rw [if_pos hins] at hfa
    revert hfa
    split
    · split_ifs with hsig
      · intro hfa
        injection hfa with hfa1
        injection hfa1 with hfa2 hfa3
        rw [← hfa2]
        exact ha
      · intro hfa; exact absurd hfa (by simp)
    · intro hfa; exact absurd hfa (by simp)
  · rw [if_neg hins] at hfa
    exact absurd hfa (by simp)

theorem optimizeStep_length {h : NodeHeap} {cfg cfg2 : CfgData}
    (hs : optimizeStep h cfg = some cfg2) : cfg2.nodeIds.length < cfg.nodeIds.length := by
  unfold optimizeStep at hs
  cases hf : findRemovable h cfg with
  | none => rw [hf] at hs; exact absurd hs (by simp)
  | some t =>
    obtain ⟨nid, ein, eout⟩ := t
    rw [hf] at hs
    try dsimp only at hs
    have hmem := findRemovable_mem hf
    injection hs with hs1
    rw [← hs1]
    have haddn : ∀ (c : CfgData) (es : List CEdge), (c.addEdge es).nodeIds = c.nodeIds := by
      intro c es
      induction es generalizing c with
      | nil => rfl
      | cons e es ih =>
        unfold CfgData.addEdge
        simp only [List.foldl_cons]
        split_ifs <;> exact ih _
    simp only [haddn]
    rw [List.length_erase_of_mem hmem]
    have hpos : 0 < cfg.nodeIds.length := List.length_pos.mpr (List.ne_nil_of_mem hmem)
    exact Nat.pred_lt (Nat.not_eq_zero_of_lt hpos)

/-- `CFG.optimize()`: repeat single-node removals until no node qualifies;
return the number of removed nodes together with the final graph.  The
Python loop terminates because each iteration deletes one node from the
nodes dict. -/
def CfgData.optimize (h : NodeHeap) (cfg : CfgData) : Nat × CfgData :=
  match hs : optimizeStep h cfg with
  | none => (0, cfg)
  | some cfg2 =>
    let rec2 := CfgData.optimize h cfg2
    (rec2.1 + 1, rec2.2)
termination_by cfg.nodeIds.length
decreasing_by exact optimizeStep_length hs

end RMT

namespace RMT

/-- The duplicate-freedom invariant of a CFG's edge list: no two edges
compare equal, i.e. share `(src, dst, constraints)`. -/
def EdgeDedup (cfg : CfgData) : Prop :=
  cfg.edges.Pairwise (fun e1 e2 => e1.compare e2 = false)

theorem compare_symm (e1 e2 : CEdge) : e1.compare e2 = e2.compare e1 := by
  simp only [CEdge.compare]
  rw [Bool.eq_iff_iff]
  simp only [Bool.and_eq_true, beq_iff_eq]
  constructor
  · intro hx
    exact ⟨⟨hx.1.1.symm, hx.1.2.symm⟩, hx.2.symm⟩
  · intro hx
    exact ⟨⟨hx.1.1.symm, hx.1.2.symm⟩, hx.2.symm⟩

theorem compare_self (e : CEdge) : e.compare e = true := by
  simp [CEdge.compare]

theorem addEdge_edges_mono (es : List CEdge) : ∀ (cfg : CfgData) (e : CEdge),
    cfg.edges.any (fun e2 => e.compare e2) = true →
    (cfg.addEdge es).edges.any (fun e2 => e.compare e2) = true := by
  induction es with
  | nil => intro cfg e hm; exact hm
  | cons e0 es ih =>
    intro cfg e hm
    unfold CfgData.addEdge
    simp only [List.foldl_cons]
    split_ifs with hmatch
    · exact ih cfg e hm
    · refine ih _ e ?_
      simp only [List.any_append]
      rw [hm]
      rfl

theorem addEdge_matched (es : List CEdge) : ∀ (cfg : CfgData), ∀ e ∈ es,
    (cfg.addEdge es).edges.any (fun e2 => e.compare e2) = true := by
  induction es with
  | nil => intro cfg e he; exact absurd he (by simp)
  | cons e0 es ih =>
    intro cfg e he
    rcases List.mem_cons.mp he with he | he
    · subst he
      unfold CfgData.addEdge
      simp only [List.foldl_cons]
      split_ifs with hmatch
      · exact addEdge_edges_mono es cfg e hmatch
      · refine addEdge_edges_mono es _ e ?_
        simp only [List.any_append, List.any_cons, List.any_nil, compare_self]
        simp
    · unfold CfgData.addEdge
      simp only [List.foldl_cons]
      split_ifs with hmatch
      · exact ih cfg e he
      · exact ih _ e he

theorem addEdge_of_all_matched (es : List CEdge) : ∀ (cfg : CfgData),
    (∀ e ∈ es, cfg.edges.any (fun e2 => e.compare e2) = true) →
    cfg.addEdge es = cfg := by
  induction es with
  | nil => intro cfg _; rfl
  | cons e0 es ih =>
    intro cfg hall
    unfold CfgData.addEdge
    simp only [List.foldl_cons]
    rw [if_pos (hall e0 (by simp))]
    exact ih cfg fun e he => hall e (by simp [he])

theorem addEdge_dedup (es : List CEdge) : ∀ (cfg : CfgData), EdgeDedup cfg →
    EdgeDedup (cfg.addEdge es) := by
  induction es with
  | nil => intro cfg hd; exact hd
  | cons e0 es ih =>
    intro cfg hd
    unfold CfgData.addEdge
    simp only [List.foldl_cons]
    split_ifs with hmatch
    · exact ih cfg hd
    · refine ih _ ?_
      unfold EdgeDedup
      rw [List.pairwise_append]
      refine ⟨hd, by simp, ?_⟩
      intro a ha b hb
      rw [List.mem_singleton.mp hb]
      rw [List.any_eq_true] at hmatch
      push_neg at hmatch
      have := hmatch a ha
      rw [compare_symm]
      exact Bool.eq_false_iff.mpr this

theorem addEdge_nodeIds (es : List CEdge) : ∀ (cfg : CfgData),
    (cfg.addEdge es).nodeIds = cfg.nodeIds := by
  induction es with
  | nil => intro cfg; rfl
  | cons e0 es ih =>
    intro cfg
    unfold CfgData.addEdge
    simp only [List.foldl_cons]
    split_ifs <;> exact ih _

theorem connect_dedup (cfg : CfgData) (src dst : NodeId) (cns : Option Constraints)
    (md : Option CMetadata) (hd : EdgeDedup cfg) : EdgeDedup (cfg.connect src dst cns md) :=
  addEdge_dedup _ cfg hd

theorem merge_dedup (cfg sub : CfgData) (hd : EdgeDedup cfg) : EdgeDedup (cfg.merge sub) :=
  addEdge_dedup _ _ hd

theorem newCfg_dedup (h : NodeHeap) (name : String) : EdgeDedup (newCfg h name).2 :=
  List.Pairwise.nil

theorem addNodeSub_dedup (h : NodeHeap) (cfg : CfgData) (role : Option String)
    (md : Option CMetadata) (sub : CfgData) (hd : EdgeDedup cfg) :
    EdgeDedup (CfgData.addNodeSub h cfg role md sub).2.2 :=
  addEdge_dedup _ _ (addEdge_dedup _ _ (addEdge_dedup _ _ hd))

theorem optimizeStep_dedup {h : NodeHeap} {cfg cfg2 : CfgData}
    (hs : optimizeStep h cfg = some cfg2) (hd : EdgeDedup cfg) : EdgeDedup cfg2 := by
  unfold optimizeStep at hs
  cases hf : findRemovable h cfg with
  | none => rw [hf] at hs; exact absurd hs (by simp)
  | some t =>
    obtain ⟨nid, ein, eout⟩ := t
    rw [hf] at hs
    try dsimp only at hs
    injection hs with hs1
    rw [← hs1]
    refine addEdge_dedup _ _ ?_
    unfold EdgeDedup
    exact List.Pairwise.sublist ((List.erase_sublist _ _).trans (List.erase_sublist _ _)) hd

theorem optimize_dedup (h : NodeHeap) : ∀ (n : Nat) (cfg : CfgData),
    cfg.nodeIds.length ≤ n → EdgeDedup cfg → EdgeDedup (CfgData.optimize h cfg).2 := by
  intro n
  induction n with
  | zero =>
    intro cfg hlen hd
    rw [CfgData.optimize.eq_def]
    cases hs : optimizeStep h cfg with
    | none => exact hd
    | some cfg2 =>
      exact absurd (Nat.lt_of_lt_of_le (optimizeStep_length hs) hlen) (by simp)
  | succ n ih =>
    intro cfg hlen hd
    rw [CfgData.optimize.eq_def]
    cases hs : optimizeStep h cfg with
    | none => exact hd
    | some cfg2 =>
      have hlt := optimizeStep_length hs
      exact ih cfg2 (Nat.le_of_lt_succ (Nat.lt_of_lt_of_le hlt hlen))
        (optimizeStep_dedup hs hd)

end RMT

namespace RMT

theorem merge_twice (cfg sub : CfgData) : (cfg.merge sub).merge sub = cfg.merge sub := by
  have hmem : ∀ n ∈ sub.nodeIds, n ∈ (cfg.merge sub).nodeIds := by
    intro n hn
    show n ∈ (({ cfg with nodeIds := cfg.nodeIds ++ sub.nodeIds.filter (fun m => !cfg.nodeIds.contains m) } : CfgData).addEdge sub.edges).nodeIds
    rw [addEdge_nodeIds]
    by_cases hc : n ∈ cfg.nodeIds
    · exact List.mem_append.mpr (Or.inl hc)
    · refine List.mem_append.mpr (Or.inr ?_)
      refine List.mem_filter.mpr ⟨hn, ?_⟩
      cases hcon : cfg.nodeIds.contains n with
      | false => rfl
      | true => exact absurd (List.mem_of_elem_eq_true hcon) hc
  have hfil : sub.nodeIds.filter (fun m => !(cfg.merge sub).nodeIds.contains m) = [] := by
    rw [List.filter_eq_nil]
    intro a ha
    have hx : a ∈ (cfg.merge sub).nodeIds := hmem a ha
    have hcon : (cfg.merge sub).nodeIds.contains a = true :=
      List.elem_eq_true_of_mem hx
    rw [hcon]
    decide
  show (({ cfg.merge sub with nodeIds := (cfg.merge sub).nodeIds ++ sub.nodeIds.filter (fun m => !(cfg.merge sub).nodeIds.contains m) } : CfgData).addEdge sub.edges) = cfg.merge sub
  rw [hfil, List.append_nil]
  have hall : ∀ e ∈ sub.edges, (cfg.merge sub).edges.any (fun e2 => e.compare e2) = true := by
    intro e he
    show ((({ cfg with nodeIds := cfg.nodeIds ++ sub.nodeIds.filter (fun m => !cfg.nodeIds.contains m) } : CfgData)).addEdge sub.edges).edges.any (fun e2 => e.compare e2) = true
    exact addEdge_matched sub.edges _ e he
  exact addEdge_of_all_matched sub.edges _ hall

/-- C6: confirmed.  The no-duplicate-edge invariant — no two edges of one
CFG share the `(src, dst, constraints)` triple (`Edge.compare`) — holds of a
fresh CFG and is preserved by `connect`, by `add_node` with a subgraph, by
`merge`, and by `optimize`, because every edge insertion goes through
`_add_edge`, which skips an edge some existing edge compares equal to;
moreover merging the same subgraph into a CFG twice is a no-op the second
time, so it adds no duplicate `(src, dst, constraints)` edge. -/
theorem C6_no_duplicate_edge_triples :
    (∀ (h : NodeHeap) (name : String), EdgeDedup (newCfg h name).2) ∧
    (∀ (cfg : CfgData) (src dst : NodeId) (cns : Option Constraints) (md : Option CMetadata),
      EdgeDedup cfg → EdgeDedup (cfg.connect src dst cns md)) ∧
    (∀ (h : NodeHeap) (cfg : CfgData) (role : Option String) (md : Option CMetadata)
      (sub : CfgData), EdgeDedup cfg → EdgeDedup (CfgData.addNodeSub h cfg role md sub).2.2) ∧
    (∀ (cfg sub : CfgData), EdgeDedup cfg → EdgeDedup (cfg.merge sub)) ∧
    (∀ (h : NodeHeap) (cfg : CfgData), EdgeDedup cfg → EdgeDedup (CfgData.optimize h cfg).2) ∧
    (∀ (cfg sub : CfgData), (cfg.merge sub).merge sub = cfg.merge sub) := by
  refine ⟨newCfg_dedup, connect_dedup, addNodeSub_dedup, merge_dedup, ?_, merge_twice⟩
  intro h cfg hd
  exact optimize_dedup h cfg.nodeIds.length cfg (le_refl _) hd

/-- A small concrete CFG for the invariant witness: BEGIN/END plus one
BEGIN→END edge. -/
def c6Heap0 : NodeHeap := (newCfg [] "w").1

def c6Cfg0 : CfgData := ((newCfg [] "w").2).connect 0 1 none none

def c6Sub0 : CfgData := (newCfg c6Heap0 "sub").2

theorem C6_no_duplicate_edge_triples_witness :
    EdgeDedup (c6Cfg0.connect 0 1 (some { condition_value := some true }) none) ∧
    (c6Cfg0.merge c6Sub0).merge c6Sub0 = c6Cfg0.merge c6Sub0 := by
  constructor
  · refine C6_no_duplicate_edge_triples.2.1 c6Cfg0 0 1
      (some { condition_value := some true }) none ?_
    unfold EdgeDedup
    decide
  · exact C6_no_duplicate_edge_triples.2.2.2.2.2 c6Cfg0 c6Sub0

end RMT

namespace RMT

mutual

/-- `search_dfs` of `json_search.py` as the builder calls it (no
`max_results`): check the predicate on the current node, APPENDING IT BEFORE
recursing into its children — a pre-order walk, although the docstring
promises results "from the deepest to the topmost". -/
def searchDfs (pred : Ast → Bool) : Ast → List Ast
  | .obj fields => (if pred (.obj fields) then [.obj fields] else []) ++ searchDfsFields pred fields
  | .arr items => (if pred (.arr items) then [.arr items] else []) ++ searchDfsList pred items
  | a => if pred a then [a] else []

/-- Child walk of `search_dfs` over a dict's values, in key order. -/
def searchDfsFields (pred : Ast → Bool) : List (String × Ast) → List Ast
  | [] => []
  | (_, v) :: fs => searchDfs pred v ++ searchDfsFields pred fs

/-- Child walk of `search_dfs` over a list's items, left to right. -/
def searchDfsList (pred : Ast → Bool) : List Ast → List Ast
  | [] => []
  | v :: vs => searchDfs pred v ++ searchDfsList pred vs

end

/-- The predicate of `_find_function_calls_in_ast`:
`isinstance(node, dict) and node.get('type') == 'function_call'`. -/
def isFunctionCall (a : Ast) : Bool :=
  match a with
  | .obj fields =>
    match lookupField fields "type" with
    | some (.str t) => t == "function_call"
    | _ => false
  | _ => false

/-- `CFGBuilder._find_function_calls_in_ast`: `search_dfs` with the
function-call predicate. -/
def findFunctionCallsInAst (a : Ast) : List Ast :=
  searchDfs isFunctionCall a

/-- A nested call `g()` used as an argument of an enclosing call `f(g())`. -/
def c5Inner : Ast :=
  .obj [("type", .str "function_call"), ("function", .obj [("name", .str "g")])]

def c5Outer : Ast :=
  .obj [("type", .str "function_call"), ("function", .obj [("name", .str "f")]),
    ("arguments", .arr [c5Inner])]

/-- C5: refuted on the code (code_bug).  The spec (and `search_dfs`'s own
docstring) promise the embedded calls in evaluation order — deepest first,
left to right — so on `f(g())` the nested call `g()` must come first.  The
code appends a node BEFORE recursing into its children (pre-order), so the
collected order is `[f(g()), g()]`: the enclosing call precedes the nested
one, and the BEGIN→call₁→call₂→END chain built from this list runs the
outer call before its own argument. -/
theorem C5_search_dfs_preorder_not_deepest_first :
    findFunctionCallsInAst c5Outer = [c5Outer, c5Inner] ∧
    isFunctionCall c5Inner = true ∧
    Ast.beq c5Outer c5Inner = false :=
  ⟨rfl, rfl, rfl⟩

/-- The node-reuse check of `make_cfg_for_compound` (`cfg_builder.py` lines
504–511): scan the CFG's nodes in insertion order for one whose role is the
target action's role, whose `metadata.wrapped_ast` is set, and whose
`ast_node` compares `==`-equal (`Store.valEq` — Python value equality, not
identity) to the resolved wrapper's `ast_node`. -/
def findExistingNode (s : Store) (h : NodeHeap) (cfg : CfgData) (targetRole : Option String)
    (next : WId) : Option NodeId :=
  match s.getWrapper next with
  | none => none
  | some nextW =>
    cfg.nodeIds.findSome? fun nid =>
      match h.get? nid with
      | none => none
      | some nd =>
        if nd.role == targetRole then
          match nd.metadata.wrapped_ast with
          | none => none
          | some w =>
            match s.getWrapper w with
            | none => none
            | some wr => if s.valEq wr.astv nextW.astv then some nid else none
        else none

/-- A raw AST holding the SAME subtree value at two distinct positions:
wrappers 1 and 2 are distinct objects over distinct list elements with equal
values. -/
def c4Sub : Ast := .obj [("type", .str "x")]

def c4Ast : Ast := .arr [c4Sub, c4Sub]

def c4Store : Store :=
  { astRoots := [c4Ast]
    wrappers := [{ astv := .astRef ⟨0, []⟩, parent := none, children := none },
                 { astv := .astRef ⟨0, [PathStep.idx 0]⟩, parent := some 0, children := none },
                 { astv := .astRef ⟨0, [PathStep.idx 1]⟩, parent := some 0, children := none }]
    caches := [] }

def c4Heap : NodeHeap :=
  [{ kind := BEGIN, role := some BEGIN },
   { kind := «END», role := some «END» },
   { kind := "atom", role := some "r", metadata := { wrapped_ast := some 1 } }]

def c4Cfg : CfgData :=
  { name := "c4", nodeIds := [0, 1, 2], edges := [], beginId := 0, endId := 1 }

/-- The counterexample to matching "by identity": the CFG node wraps wrapper
1 (the first list element), the newly resolved data is wrapper 2 (the second
list element) — a different object over a different position — yet the
check matches them because their `ast_node` values are `==`-equal. -/
theorem C4_identity_matching_counterexample :
    findExistingNode c4Store c4Heap c4Cfg (some "r") 2 = some 2 ∧
    ((c4Heap.get? 2).map fun nd => nd.metadata.wrapped_ast) = some (some 1) ∧
    (1 : WId) ≠ 2 ∧
    (c4Store.getWrapper 1).map Wrapper.astv ≠ (c4Store.getWrapper 2).map Wrapper.astv := by
  refine ⟨rfl, rfl, by decide, by decide⟩

/-- C4: corrected.  When `findExistingNode` reuses a node, that node has the
target role, carries a wrapped AST, and that wrapped AST's `ast_node` is
`==`-equal (value equality) to the resolved wrapper's — identity of the
wrapped data is NOT required, and the reused node is one of the CFG's
existing nodes (no duplicate is created). -/
theorem C4_node_reuse_matches_by_value_equality {s : Store} {h : NodeHeap} {cfg : CfgData}
    {role : Option String} {next : WId} {nid : NodeId}
    (hf : findExistingNode s h cfg role next = some nid) :
    nid ∈ cfg.nodeIds ∧
    ∃ nd w wr nextW, h.get? nid = some nd ∧ nd.role = role ∧
      nd.metadata.wrapped_ast = some w ∧ s.getWrapper w = some wr ∧
      s.getWrapper next = some nextW ∧ s.valEq wr.astv nextW.astv = true := by
  unfold findExistingNode at hf
  cases hnext : s.getWrapper next with
  | none => rw [hnext] at hf; exact absurd hf (by simp)
  | some nextW =>
    rw [hnext] at hf
    obtain ⟨a, ha, hfa⟩ := List.exists_of_findSome?_eq_some hf
    cases hnd : h.get? a with
    | none => rw [hnd] at hfa; exact absurd hfa (by simp)
    | some nd =>
      rw [hnd] at hfa
      try dsimp only at hfa
      by_cases hrole : (nd.role == role) = true
      · rw [if_pos hrole] at hfa
        cases hw : nd.metadata.wrapped_ast with
        | none => rw [hw] at hfa; exact absurd hfa (by simp)
        | some w =>
          rw [hw] at hfa
          try dsimp only at hfa
          cases hwr : s.getWrapper w with
          | none => rw [hwr] at hfa; exact absurd hfa (by simp)
          | some wr =>
            rw [hwr] at hfa
            try dsimp only at hfa
            by_cases hveq : s.valEq wr.astv nextW.astv = true
            · rw [if_pos hveq] at hfa
              have haid : a = nid := Option.some.inj hfa
              subst haid
              exact ⟨ha, nd, w, wr, nextW, hnd, by
                rw [beq_iff_eq] at hrole
                exact hrole, hw, hwr, rfl, hveq⟩
            · rw [if_neg hveq] at hfa
              exact absurd hfa (by simp)
      · rw [if_neg hrole] at hfa
        exact absurd hfa (by simp)

theorem C4_node_reuse_matches_by_value_equality_witness :
    2 ∈ c4Cfg.nodeIds ∧
    ∃ nd w wr nextW, c4Heap.get? 2 = some nd ∧ nd.role = some "r" ∧
      nd.metadata.wrapped_ast = some w ∧ c4Store.getWrapper w = some wr ∧
      c4Store.getWrapper 2 = some nextW ∧ c4Store.valEq wr.astv nextW.astv = true :=
  C4_node_reuse_matches_by_value_equality rfl

end RMT

namespace RMT

def FUNC_CALL_CONSTRUCT : String := "func_call_structure"

/-- Modelled from the spec: the builder-side construct record.
`cfg_builder.py` reads `construct.ast_node` (the AST `type` tag the
construct matches, used by `find_construct_for_astnode`), an attribute the
in-repository `ConstructSpec` does not define; the spec's builder section
describes constructs as selected by their AST node type, which is modelled
here as an extra field next to the in-repository `ConstructSpec`. -/
structure BConstruct where
  spec : ConstructSpec
  ast_node : Option String := none
deriving DecidableEq

/-- `CFGBuilder.find_construct_for_astnode`: the first construct whose
`ast_node` equals `v.get("type")` of a dict node (`None` matches a
construct with no tag). -/
def findConstructForAstnode (constructs : List (String × BConstruct)) (a : Ast) :
    Option BConstruct :=
  match a with
  | .obj fields =>
    let nt : Option String :=
      match lookupField fields "type" with
      | some (.str t) => some t
      | _ => none
    (constructs.map Prod.snd).find? fun c => c.ast_node == nt
  | _ => none

/-- `CFGBuilder._extract_function_name_from_call_node`: read
`call_node['function']['name']` structurally; a missing or falsy name gives
`None`. -/
def extractFunctionNameFromCallNode (a : Ast) : Option String :=
  match a with
  | .obj fields =>
    match lookupField fields "function" with
    | some (.obj ffields) =>
      match lookupField ffields "name" with
      | some (.str nm) => strTruthy (some nm)
      | _ => none
    | _ => none
  | _ => none

/-- `CFGBuilder._extract_function_name(wrapped_ast, construct)`: find the
action with role `name` among the construct's actions (the source iterates
the actions as `ActionSpec`s; the model iterates the dict's values), run its
`find_node_data` (full path/identification resolution) and read the
resulting node: a dict's `name` field or a plain string.  A missing action,
absent data, or falsy name gives `None`. -/
def extractFunctionName (s : Store) (construct : ConstructSpec) (wrapped : WId) :
    PyResult (Option String) × Store :=
  match (construct.actions.map Prod.snd).find? (fun a => a.role == "name") with
  | none => (.ok none, s)
  | some nameAction =>
    match nameAction.findNodeData s wrapped none with
    | (.exn m, s1) => (.exn m, s1)
    | (.ok none, s1) => (.ok none, s1)
    | (.ok (some nd), s1) =>
      match s1.getWrapper nd with
      | none => (.exn "InvalidWrapperRef", s1)
      | some ndW =>
        match ndW.astv with
        | .astRef l =>
          match s1.readAst l with
          | some (.obj fields) =>
            match lookupField fields "name" with
            | some (.str nm) => (.ok (strTruthy (some nm)), s1)
            | _ => (.ok none, s1)
          | some (.str nm) => (.ok (strTruthy (some nm)), s1)
          | _ => (.ok none, s1)
        | _ => (.ok none, s1)

/-- Write through a node's metadata in the heap. -/
def setNodeMeta (h : NodeHeap) (nid : NodeId) (f : CMetadata → CMetadata) : NodeHeap :=
  match h.get? nid with
  | none => h
  | some nd => h.set nid { nd with metadata := f nd.metadata }

/-- The builder's mutable context: the wrapper store, the node heap (node
objects are shared between CFGs, and `call_count` increments on a function
CFG's BEGIN node must be visible through every CFG that embeds it), and the
`func_cfgs` registry — the same CFG object for every call site of one
function. -/
structure BuildState where
  store : Store
  heap : NodeHeap
  funcCfgs : List (String × CfgData)

/-- What `_handle_function_call` produced: a finished call CFG, or the
source's "treat as regular compound" fallback (a recursive
`make_cfg_for_construct` call, outside this model's scope and unreachable in
the runs the theorems evaluate). -/
inductive HandleResult where
  | made (cfg : CfgData)
  | fallbackCompound

/-- `CFGBuilder._handle_function_call(construct, wrapped_ast)` for a callee
registered in `func_cfgs`: build `CFG("function_call")`, put the construct's
BEGIN/END actions and the wrapper on its boundary metadata, embed the
registered function CFG as a `func` subgraph between enter/leave nodes, wire
BEGIN→enter and leave→END with the construct's own BEGIN→func and func→END
transitions (carrying their call-stack effects), and increment the callee
CFG's BEGIN-node `call_count` — the `CALL++(2)` increment.  (The construct's
`id2action` dict of the refactored interface is the actions dict,
`lookupAssoc` here.) -/
def handleFunctionCall (construct : BConstruct) (wrapped : WId) (st : BuildState) :
    PyResult HandleResult × BuildState :=
  match extractFunctionName st.store construct.spec wrapped with
  | (.exn m, s1) => (.exn m, { st with store := s1 })
  | (.ok none, s1) => (.ok .fallbackCompound, { st with store := s1 })
  | (.ok (some fn), s1) =>
    match lookupAssoc st.funcCfgs fn with
    | none => (.ok .fallbackCompound, { st with store := s1 })
    | some funcCfg =>
      let p := newCfg st.heap "function_call"
      match lookupAssoc construct.spec.actions BEGIN,
          lookupAssoc construct.spec.actions «END»,
          lookupAssoc construct.spec.actions "func" with
      | some beginAct, some endAct, some funcAct =>
        let h2 := setNodeMeta p.1 p.2.beginId
          (fun m => { m with abstract_action := some beginAct, wrapped_ast := some wrapped })
        let h3 := setNodeMeta h2 p.2.endId
          (fun m => { m with abstract_action := some endAct, wrapped_ast := some wrapped })
        let r := CfgData.addNodeSub h3 p.2 (some "func")
          (some { abstract_action := some funcAct, wrapped_ast := some wrapped, primary := some true })
          funcCfg
        match construct.spec.findTransitionsFromAction beginAct with
        | [] => (.exn "IndexError", { st with store := s1, heap := r.2.1 })
        | tr1 :: _ =>
          let cc2 := r.2.2.connect p.2.beginId r.1.1 none
            (some { abstract_transition := some tr1 })
          match construct.spec.findTransitionsFromAction funcAct with
          | [] => (.exn "IndexError", { st with store := s1, heap := r.2.1 })
          | tr2 :: _ =>
            let cc3 := cc2.connect r.1.2 p.2.endId none
              (some { abstract_transition := some tr2 })
            let h5 := setNodeMeta r.2.1 funcCfg.beginId
              (fun m => { m with call_count := m.call_count + 1 })
            (.ok (.made cc3), { store := s1, heap := h5, funcCfgs := st.funcCfgs })
      | _, _, _ => (.exn "KeyError", { st with store := s1, heap := p.1 })

/-- The per-call loop of `_process_function_calls_in_cfg`: for each found
call node (by its position in the raw AST, standing for the Python object),
extract the callee name, skip unregistered callees, wrap the call node in a
fresh `ASTNodeWrapper`, require the matched construct to be
`func_call_structure` (else the source raises `ValueError`), build the call
CFG through `_handle_function_call`, increment the callee CFG's BEGIN-node
`call_count` AGAIN — the `CALL++(1)` increment — and chain the call CFG onto
the current node. -/
def processCallsLoop (constructs : List (String × BConstruct)) :
    List AstLoc → CfgData → NodeId → BuildState → PyResult (CfgData × NodeId) × BuildState
  | [], baseCfg, current, st => (.ok (baseCfg, current), st)
  | loc :: rest, baseCfg, current, st =>
    match st.store.readAst loc with
    | none => (.exn "InvalidAstRef", st)
    | some callAst =>
      match extractFunctionNameFromCallNode callAst with
      | none => processCallsLoop constructs rest baseCfg current st
      | some fn =>
        match lookupAssoc st.funcCfgs fn with
        | none => processCallsLoop constructs rest baseCfg current st
        | some funcCfg =>
          let pw := st.store.allocWrapper { astv := .astRef loc, parent := none, children := none }
          let st1 := { st with store := pw.2 }
          match findConstructForAstnode constructs callAst with
          | none => (.exn "ValueError", st1)
          | some construct =>
            if construct.spec.name == FUNC_CALL_CONSTRUCT then
              match handleFunctionCall construct pw.1 st1 with
              | (.exn m, st2) => (.exn m, st2)
              | (.ok .fallbackCompound, st2) => (.exn "UnmodelledCompoundFallback", st2)
              | (.ok (.made callCfg), st2) =>
                let h5 := setNodeMeta st2.heap funcCfg.beginId
                  (fun m => { m with call_count := m.call_count + 1 })
                let baseCfg2 := baseCfg.connect current callCfg.beginId none none
                processCallsLoop constructs rest baseCfg2 callCfg.endId { st2 with heap := h5 }
            else (.exn "ValueError", st1)

/-- `CFGBuilder._process_function_calls_in_cfg(base_cfg, function_calls)`:
no calls return the base CFG untouched; otherwise chain the call CFGs from
BEGIN and connect the last one to END. -/
def processFunctionCallsInCfg (constructs : List (String × BConstruct)) (baseCfg : CfgData)
    (calls : List AstLoc) (st : BuildState) : PyResult CfgData × BuildState :=
  match calls with
  | [] => (.ok baseCfg, st)
  | _ =>
    match processCallsLoop constructs calls baseCfg baseCfg.beginId st with
    | (.exn m, st1) => (.exn m, st1)
    | (.ok (cfg1, current), st1) => (.ok (cfg1.connect current cfg1.endId none none), st1)

end RMT

namespace RMT

mutual

/-- `search_dfs` again, but collecting the positions of the matching nodes
in the raw AST (a position stands for the Python object identity of the
subtree `search_dfs` returns, which the builder then wraps). -/
def searchDfsLocs (pred : Ast → Bool) : Ast → AstLoc → List AstLoc
  | .obj fields, loc =>
    (if pred (.obj fields) then [loc] else []) ++ searchDfsLocsFields pred fields loc
  | .arr items, loc =>
    (if pred (.arr items) then [loc] else []) ++ searchDfsLocsList pred items loc 0
  | a, loc => if pred a then [loc] else []

def searchDfsLocsFields (pred : Ast → Bool) : List (String × Ast) → AstLoc → List AstLoc
  | [], _ => []
  | (k, v) :: fs, loc =>
    searchDfsLocs pred v (loc.push (.key k)) ++ searchDfsLocsFields pred fs loc

def searchDfsLocsList (pred : Ast → Bool) : List Ast → AstLoc → Nat → List AstLoc
  | [], _, _ => []
  | v :: vs, loc, i =>
    searchDfsLocs pred v (loc.push (.idx i)) ++ searchDfsLocsList pred vs loc (i + 1)

end

/-- `_find_function_calls_in_ast` over the store, yielding positions. -/
def findFunctionCallLocs (s : Store) (loc : AstLoc) : List AstLoc :=
  match s.readAst loc with
  | none => []
  | some a => searchDfsLocs isFunctionCall a loc

/-- Whether a Python call returned normally. -/
def PyResult.isOk {α : Type} : PyResult α → Bool
  | .ok _ => true
  | .exn _ => false

/-- One statement containing one call `g()`. -/
def c3CallNode : Ast :=
  .obj [("type", .str "function_call"), ("function", .obj [("name", .str "g")])]

def c3Root : Ast := .obj [("type", .str "expression_statement"), ("expr", c3CallNode)]

def c3Store : Store := { astRoots := [c3Root], wrappers := [], caches := [] }

/-- The `func_call_structure` construct: a `name` action resolved through
`property_path: function / name`, a `func` action, and the
BEGIN→func / func→END transitions carrying the call-stack effects. -/
def fcNameAction : ActionSpec :=
  { role := "name", kind := "atom",
    identification := some { property_path := some "function / name" } }

def fcFuncAction : ActionSpec := { role := "func", kind := "compound" }

def fcT1 : TransitionSpec :=
  { from_ := some BEGIN, to_ := some "func", effects := { call_stack := some .add_frame } }

def fcT2 : TransitionSpec :=
  { from_ := some "func", to_ := some «END», effects := { call_stack := some .drop_frame } }

def fcConstruct : BConstruct :=
  { spec := ConstructSpec.make FUNC_CALL_CONSTRUCT
      [("name", fcNameAction), ("func", fcFuncAction)] [fcT1, fcT2]
    ast_node := some "function_call" }

/-- The registered (already built) CFG for function `g`; its BEGIN node is
heap node 0 with `call_count` 0. -/
def c3FuncReg : NodeHeap × CfgData := newCfg [] "func_g"

def c3Base : NodeHeap × CfgData := newCfg c3FuncReg.1 "atom_expression_statement"

def c3St : BuildState :=
  { store := c3Store, heap := c3Base.1, funcCfgs := [("g", c3FuncReg.2)] }

def c3Calls : List AstLoc := findFunctionCallLocs c3Store ⟨0, []⟩

def c3Run : PyResult CfgData × BuildState :=
  processFunctionCallsInCfg [(FUNC_CALL_CONSTRUCT, fcConstruct)] c3Base.2 c3Calls c3St

/-- C3: refuted on the code (code_bug).  One statement containing exactly
one call to the registered function `g` is processed by
`_process_function_calls_in_cfg`; the run succeeds, but `g`'s BEGIN-node
`call_count` ends at 2, not 1: `_handle_function_call` increments it
(`CALL++(2)`, `cfg_builder.py` line 369) and `_process_function_calls_in_cfg`
increments it again for the same call site (`CALL++(1)`, line 245).  A
function called three times through this path ends with `call_count` 6, not
the 3 the spec promises. -/
theorem C3_call_count_double_increment :
    c3Calls.length = 1 ∧
    c3Run.1.isOk = true ∧
    ((c3Run.2.heap.get? c3FuncReg.2.beginId).map fun nd => nd.metadata.call_count)
      = some 2 :=
  ⟨rfl, rfl, rfl⟩

end RMT

namespace RMT

/-- Modelled from the spec: one transition-handling step of the worklist in
`make_cfg_for_compound` (`cfg_builder.py` lines 479–538).  The source calls
`construct.find_target_action_for_transition`, reuses an existing node with
the same role and `==`-equal wrapped data (`findExistingNode`) or creates a
new enter/leave node pair around the recursively built subgraph
(`make_cfg_for_ast`'s result, passed in as `subgraph`), and connects the
worklist node to the target with `is_after_last = not is_primary` and node
metadata `primary = is_primary`.  The refactored construct interface the
source expects (`id2action`, a 4-tuple result with a transition chain) is
not in the repository, so the step follows the spec's description with the
3-tuple result the in-repository `find_target_action_for_transition`
returns; a `ValueError` from resolution is caught and the transition
skipped (`.ok none`). -/
def processTransition (construct : ConstructSpec) (fuel : Nat) (tr : TransitionSpec)
    (wrapped : WId) (node : NodeId) (nodeWrapped : Option WId) (subgraph : CfgData)
    (s : Store) (h : NodeHeap) (cfg : CfgData) :
    PyResult (Option (NodeId × NodeId)) × Store × NodeHeap × CfgData :=
  match construct.findTargetActionForTransition fuel tr wrapped nodeWrapped s with
  | (.outOfFuel, s1) => (.exn "OutOfFuel", s1, h, cfg)
  | (.valueError, s1) => (.ok none, s1, h, cfg)
  | (.pyError m, s1) => (.exn m, s1, h, cfg)
  | (.found act d isPrimary, s1) =>
    match findExistingNode s1 h cfg (some act.role) d with
    | some nid =>
      let cfg2 := cfg.connect node nid none
        (some { abstract_transition := some tr, is_after_last := some (!isPrimary) })
      (.ok (some (nid, nid)), s1, h, cfg2)
    | none =>
      let r := CfgData.addNodeSub h cfg (some act.role)
        (some { abstract_action := some act, wrapped_ast := some d, primary := some isPrimary })
        subgraph
      let cfg2 := r.2.2.connect node r.1.1 none
        (some { abstract_transition := some tr, is_after_last := some (!isPrimary) })
      (.ok (some r.1), s1, r.2.1, cfg2)

/-- The `{from: x, to: y, to_when_absent: z}` scenario: the wrapper's
`ast_node` has a `z` property but no `y`. -/
def c7Ast : Ast := .obj [("type", .str "t"), ("z", .str "zz")]

def c7Store : Store :=
  { astRoots := [c7Ast]
    wrappers := [{ astv := .astRef ⟨0, []⟩, parent := none, children := none }]
    caches := [] }

def c7XAct : ActionSpec := { role := "x", kind := "atom" }

def c7YAct : ActionSpec := { role := "y", kind := "atom" }

def c7ZAct : ActionSpec := { role := "z", kind := "atom" }

def c7Tr : TransitionSpec := { from_ := some "x", to_ := some "y", to_when_absent := some "z" }

def c7Construct : ConstructSpec :=
  ConstructSpec.make "c7" [("x", c7XAct), ("y", c7YAct), ("z", c7ZAct)] [c7Tr]

def c7S1 : Store := (c7Construct.tryTargetRole c7Store c7Tr.to_ 0 none).2

def c7S2 : Store := (c7Construct.tryTargetRole c7S1 c7Tr.to_when_absent 0 none).2

def c7P0 : NodeHeap × CfgData := newCfg [] "c7cfg"

def c7PX : NodeId × NodeHeap × CfgData :=
  CfgData.addNodeAtom c7P0.1 c7P0.2 "statement" (some "x") none

def c7PSub : NodeHeap × CfgData := newCfg c7PX.2.1 "sub"

def c7Res : PyResult (Option (NodeId × NodeId)) × Store × NodeHeap × CfgData :=
  processTransition c7Construct 2 c7Tr 0 c7PX.1 none c7PSub.2 c7Store c7PSub.1 c7PX.2.2

/-- C7: confirmed.  (1) `find_target_action_for_transition` tries the
transition's primary to-role first: when it extracts non-absent data the
result is that action's data tagged primary.  (2) When the primary to-role
extracts absent data and the fallback `to_when_absent` role extracts data,
the result is the fallback action's data tagged with
`target_role == tr.to_` — non-primary whenever the fallback differs from
the primary role.  (3) Consequently, on the concrete transition
`{from: x, to: y, to_when_absent: z}` with `y` absent and `z` present, the
worklist step connects `x`'s node to a freshly created `z`-rooted node whose
metadata is flagged non-primary (`primary = false`), along an edge with
`is_after_last = true`. -/
theorem C7_resolve_target_order_and_fallback_connection :
    (∀ (c : ConstructSpec) (fuel : Nat) (tr : TransitionSpec) (wrapped : WId)
      (prev : Option WId) (s s1 : Store) (a : ActionSpec) (d : WId),
      c.tryTargetRole s tr.to_ wrapped prev = (.ok (some (a, d)), s1) →
      c.findTargetActionForTransition (fuel + 1) tr wrapped prev s = (.found a d true, s1)) ∧
    (∀ (c : ConstructSpec) (fuel : Nat) (tr : TransitionSpec) (wrapped : WId)
      (prev : Option WId) (s s1 s2 : Store) (a : ActionSpec) (d : WId),
      c.tryTargetRole s tr.to_ wrapped prev = (.ok none, s1) →
      c.tryTargetRole s1 tr.to_when_absent wrapped prev = (.ok (some (a, d)), s2) →
      c.findTargetActionForTransition (fuel + 1) tr wrapped prev s
        = (.found a d (tr.to_when_absent == tr.to_), s2)) ∧
    c7Res.1 = .ok (some (5, 6)) ∧
    ((c7Res.2.2.1.get? 5).map fun nd => (nd.role, nd.metadata.primary))
      = some (some "z", some false) ∧
    (c7Res.2.2.2.edges.any fun e =>
      e.src == c7PX.1 && e.dst == 5 && e.metadata.is_after_last == some true &&
      e.metadata.abstract_transition == some c7Tr) = true := by
  refine ⟨?_, ?_, rfl, rfl, rfl⟩
  · intro c fuel tr wrapped prev s s1 a d hy
    unfold ConstructSpec.findTargetActionForTransition
    rw [hy]
  · intro c fuel tr wrapped prev s s1 s2 a d hy hz
    unfold ConstructSpec.findTargetActionForTransition
    rw [hy]
    try dsimp only
    rw [hz]

theorem C7_resolve_target_order_and_fallback_connection_witness :
    c7Construct.findTargetActionForTransition 1 c7Tr 0 none c7Store
      = (.found c7ZAct 1 false, c7S2) := by
  have hh := C7_resolve_target_order_and_fallback_connection.2.1 c7Construct 0 c7Tr 0 none
    c7Store c7S1 c7S2 c7ZAct 1 rfl rfl
  exact hh

end RMT
